import Mathlib

/-!
# OneVM: deployment engine, backup store and line-ending normaliser

A shallow embedding of the Go sources (`internal/vm/deploy.go`, `internal/vm/run.go`,
`internal/vm/push.go`, `internal/vm/normalize.go`, `backup.go`, `manifest.go`,
`transfer.go`, `internal/vm/config.go`) together with the properties proved about them.

Conventions of the embedding

* A Go `string` is a Lean `String`; a Go `[]byte` is a `List Byte`.
* A Go `error` is `Option String`: `none` is `nil`, `some msg` carries `err.Error()`.
  A Go result `(v, error)` whose value is read on failure is a pair; a result
  `(*T, error)` that is either `(nil, err)` or `(p, nil)` is an `Except String T`.
* Everything outside the orchestration code is a collaborator (`Collab`): the SSH
  session, the SFTP transfer, the local file system and the clock.  A collaborator
  call takes the external state, answers, and gives the next external state; the
  theorems quantify over every such behaviour.  Each call is appended to `World.log`.
* Where a property is about the files on the local disk, `Download` and `FileExists`
  of `transfer.go` are embedded over a model of the disk (`Disk`, `Machine`).
* Loops are recursive functions over the list ranged over.
-/

namespace OneVM

/-! ## Strings, bytes and paths -/

abbrev Byte := UInt8

/-- The scan of Go's `bytes.Replace` / `strings.Replace` with `n = -1`, for a
non-empty `old`: the leftmost occurrence is replaced and the scan resumes right
after it.  The first argument counts the elements of the current occurrence still
to be skipped.  (For an empty `old` Go inserts `new` around every rune; the
program only passes the literals "\r\n" and "/", and here an empty `old` leaves the
input as it is.) -/
def replaceFrom {α : Type} [DecidableEq α] (old new : List α) : Nat → List α → List α
  | _, [] => []
  | skip + 1, _ :: s => replaceFrom old new skip s
  | 0, a :: s =>
    if old ≠ [] ∧ old.isPrefixOf (a :: s) = true then
      new ++ replaceFrom old new (old.length - 1) s
    else a :: replaceFrom old new 0 s

/-- Go's `bytes.ReplaceAll`. -/
def bytesReplaceAll (s old new : List Byte) : List Byte := replaceFrom old new 0 s

/-- Go's `strings.ReplaceAll`. -/
def stringsReplaceAll (s old new : String) : String :=
  String.mk (replaceFrom old.data new.data 0 s.data)

/-- Go's `strings.HasPrefix`. -/
def stringsHasPrefix (s pfx : String) : Bool := pfx.data.isPrefixOf s.data

/-- The carriage return byte. -/
def CR : Byte := 13

/-- The line feed byte. -/
def LF : Byte := 10

/-- The backtracking of `filepath.Clean` on a `..` element, on the reversed output
buffer: `out.w--` and then `for out.w > dotdot && !IsPathSeparator(out.index(out.w)) { out.w-- }`. -/
def cleanBacktrack (dotdot : Nat) : List Char → List Char
  | [] => []
  | c :: rest => if dotdot < rest.length ∧ c ≠ '/' then cleanBacktrack dotdot rest else rest

/-- The main loop of Go's `filepath.Clean` (Unix): `p` is the unread input, `out`
the output buffer in reverse, `dotdot` the index where `..` must stop.  Every
iteration reads at least one character, so `p.length` iterations are enough. -/
def cleanLoop (rooted : Bool) : Nat → List Char → List Char → Nat → List Char
  | 0, _, out, _ => out
  | _ + 1, [], out, _ => out
  | fuel + 1, c :: rest, out, dotdot =>
    if c = '/' then cleanLoop rooted fuel rest out dotdot
    else if c = '.' ∧ (rest = [] ∨ rest.head? = some '/') then
      cleanLoop rooted fuel rest out dotdot
    else if c = '.' ∧ rest.head? = some '.' ∧
        (rest.tail = [] ∨ rest.tail.head? = some '/') then
      if dotdot < out.length then
        cleanLoop rooted fuel rest.tail (cleanBacktrack dotdot out) dotdot
      else if rooted = false then
        let out1 := if 0 < out.length then '/' :: out else out
        let out2 := '.' :: '.' :: out1
        cleanLoop rooted fuel rest.tail out2 out2.length
      else cleanLoop rooted fuel rest.tail out dotdot
    else
      let out1 :=
        if (rooted = true ∧ out.length ≠ 1) ∨ (rooted = false ∧ out.length ≠ 0) then '/' :: out
        else out
      cleanLoop rooted fuel ((c :: rest).dropWhile (fun x => x ≠ '/'))
        (((c :: rest).takeWhile (fun x => x ≠ '/')).reverse ++ out1) dotdot

/-- Go's `filepath.Clean` on Unix (no volume name, separator `/`). -/
def filepathClean (path : String) : String :=
  if path = "" then "."
  else
    let rooted : Bool := path.data.head? = some '/'
    let out :=
      if rooted then cleanLoop rooted path.data.length path.data.tail ['/'] 1
      else cleanLoop rooted path.data.length path.data [] 0
    if out.length = 0 then "." else String.mk out.reverse

/-- Go's `filepath.Join` for two elements: empty leading elements are ignored, the
remaining ones are joined with `/` and the result is cleaned. -/
def filepathJoin (a b : String) : String :=
  if a ≠ "" then filepathClean (a ++ "/" ++ b)
  else if b ≠ "" then filepathClean b
  else ""

/-- Removal of the trailing slashes, first loop of `filepath.Base`, on the reversed path. -/
def stripTrailingSlashes : List Char → List Char
  | [] => []
  | c :: rest => if c = '/' then stripTrailingSlashes rest else c :: rest

/-- Go's `filepath.Base` on Unix. -/
def filepathBase (path : String) : String :=
  if path = "" then "."
  else
    let stripped := stripTrailingSlashes path.data.reverse
    let last := (stripped.takeWhile (fun x => x ≠ '/')).reverse
    if last = [] then "/" else String.mk last

/-! ## Line-ending normaliser (`internal/vm/normalize.go`) -/

/-- `NormalizeLineEndings`: `bytes.ReplaceAll(data, []byte("\r\n"), []byte("\n"))`. -/
def NormalizeLineEndings (data : List Byte) : List Byte :=
  bytesReplaceAll data [CR, LF] [LF]

/-! ## Data model (`manifest.go`, `internal/vm/config.go`, result records) -/

/-- `ServerConfig` of `manifest.go`. -/
structure ServerConfig where
  Host : String := ""
  User : String := ""
  Key : String := ""
  Password : String := ""
  deriving DecidableEq, Repr

/-- `FileConfig` of `manifest.go`. -/
structure FileConfig where
  Local : String := ""
  Remote : String := ""
  Restart : String := ""
  deriving DecidableEq, Repr

/-- `Manifest` of `manifest.go`. -/
structure Manifest where
  Servers : List ServerConfig := []
  Files : List FileConfig := []
  deriving DecidableEq, Repr

/-- `TaskStep` of `config.go`; the field `Type` is spelled `Type_`. -/
structure TaskStep where
  Type_ : String := ""
  Local : String := ""
  Remote : String := ""
  Run : String := ""
  deriving DecidableEq, Repr

/-- `ClientConfig` of `config.go`; a Go map is an association list read by its
first matching key. -/
structure ClientConfig where
  Hosts : List (String × ServerConfig) := []
  Tasks : List (String × List TaskStep) := []
  deriving DecidableEq, Repr

/-- `DeployResult` of `deploy.go`. -/
structure DeployResult where
  Server : String := ""
  File : String := ""
  Status : String := ""
  Backup : String := ""
  Error : String := ""
  deriving DecidableEq, Repr

/-- `StepResult` of `run.go`. -/
structure StepResult where
  Step : String := ""
  Status : String := ""
  Backup : String := ""
  Output : String := ""
  Error : String := ""
  deriving DecidableEq, Repr

/-- `RunResult` of `run.go`. -/
structure RunResult where
  Server : String := ""
  Task : String := ""
  Steps : List StepResult := []
  Status : String := ""
  deriving DecidableEq, Repr

/-- `PushResult` of `push.go`. -/
structure PushResult where
  Server : String := ""
  File : String := ""
  Status : String := ""
  Backup : String := ""
  Error : String := ""
  deriving DecidableEq, Repr

/-- `SSHAuth` of `ssh.go`. -/
structure SSHAuth where
  KeyPath : String := ""
  Password : String := ""
  deriving DecidableEq, Repr

/-- `SSHClient` of `ssh.go`; the `*ssh.Client` is a handle number. -/
structure SSHClient where
  Client : Nat
  Host : String
  User : String
  deriving DecidableEq, Repr

/-- `SFTPTransfer` of `transfer.go`; the `*sftp.Client` is a handle number. -/
structure SFTPTransfer where
  client : Nat
  deriving DecidableEq, Repr

/-- A `time.Time`: the instant (nanoseconds since the epoch) and the civil fields
that `Format` prints in the local zone. -/
structure Time where
  nanos : Int
  year : Nat := 1970
  month : Nat := 1
  day : Nat := 1
  hour : Nat := 0
  minute : Nat := 0
  second : Nat := 0
  deriving DecidableEq, Repr

/-- `t.After(u)`: the instant of `t` is later than that of `u`. -/
def Time.After (t u : Time) : Bool := decide (u.nanos < t.nanos)

/-- Decimal digits of `n`, zero-padded on the left to `width`. -/
def padDigits (width n : Nat) : String :=
  let ds := Nat.toDigits 10 n
  String.mk (List.replicate (width - ds.length) '0' ++ ds)

/-- `t.Format("20060102-150405")`. -/
def Time.Format (t : Time) : String :=
  padDigits 4 t.year ++ padDigits 2 t.month ++ padDigits 2 t.day ++ "-" ++
    padDigits 2 t.hour ++ padDigits 2 t.minute ++ padDigits 2 t.second

/-- `BackupInfo` of `backup.go`. -/
structure BackupInfo where
  Path : String
  Timestamp : Time
  deriving DecidableEq, Repr

/-- An `os.DirEntry` as `ListBackups` reads it: `Name()`, `IsDir()` and the
outcome of `Info()` (the modification time, or the error). -/
structure DirEntry where
  Name : String
  IsDir : Bool := false
  Info : Except String Time
  deriving Repr

/-- The outcome of `os.ReadDir`. -/
inductive ReadDirResult where
  | entries (es : List DirEntry)
  | notExist (msg : String)
  | failed (msg : String)
  deriving Repr

/-! ## Collaborators and the world -/

/-- A collaborator call, as recorded in the log. -/
inductive Event where
  | newSSHClient (host user : String) (auth : SSHAuth) (ok : Bool)
  | newSFTPTransfer (c : SSHClient) (ok : Bool)
  | execute (c : SSHClient) (cmd : String) (ok : Bool)
  | clientClose (c : SSHClient)
  | fileExists (t : SFTPTransfer) (remotePath : String) (found : Bool)
  | download (t : SFTPTransfer) (remotePath localPath : String) (ok : Bool)
  | uploadBytes (t : SFTPTransfer) (data : List Byte) (remotePath : String) (ok : Bool)
  | transferClose (t : SFTPTransfer)
  | mkdirAll (path : String) (ok : Bool)
  | readFile (path : String) (ok : Bool)
  | readDir (path : String)
  | now
  | userHomeDir
  deriving DecidableEq, Repr

/-- The behaviour of everything the orchestration code calls but does not
implement, over an external state `σ`: `NewSSHClient`, `NewSFTPTransfer`, the
methods of `*SSHClient` and `*SFTPTransfer`, and the `os` and `time` calls. -/
structure Collab (σ : Type) where
  newSSHClient : String → String → SSHAuth → σ → Except String SSHClient × σ
  newSFTPTransfer : SSHClient → σ → Except String SFTPTransfer × σ
  execute : SSHClient → String → σ → (String × Option String) × σ
  clientClose : SSHClient → σ → σ
  fileExists : SFTPTransfer → String → σ → Bool × σ
  download : SFTPTransfer → String → String → σ → Option String × σ
  uploadBytes : SFTPTransfer → List Byte → String → σ → Option String × σ
  transferClose : SFTPTransfer → σ → σ
  mkdirAll : String → σ → Option String × σ
  readFile : String → σ → Except String (List Byte) × σ
  readDir : String → σ → ReadDirResult × σ
  now : σ → Time × σ
  userHomeDir : σ → Except String String × σ

/-- The external state together with the log of the collaborator calls made so far,
oldest first. -/
structure World (σ : Type) where
  ext : σ
  log : List Event

/-- Whether an `Except` is a success. -/
def isOk {ε α : Type} : Except ε α → Bool
  | .ok _ => true
  | .error _ => false

section Calls
variable {σ : Type} (env : Collab σ)

/-- `NewSSHClient(host, user, auth)`. -/
def NewSSHClient (host user : String) (auth : SSHAuth) (w : World σ) :
    Except String SSHClient × World σ :=
  let r := env.newSSHClient host user auth w.ext
  (r.1, { ext := r.2, log := w.log ++ [Event.newSSHClient host user auth (isOk r.1)] })

/-- `NewSFTPTransfer(client)`. -/
def NewSFTPTransfer (c : SSHClient) (w : World σ) : Except String SFTPTransfer × World σ :=
  let r := env.newSFTPTransfer c w.ext
  (r.1, { ext := r.2, log := w.log ++ [Event.newSFTPTransfer c (isOk r.1)] })

/-- `client.Execute(cmd)`: the output and the error. -/
def Execute (c : SSHClient) (cmd : String) (w : World σ) :
    (String × Option String) × World σ :=
  let r := env.execute c cmd w.ext
  (r.1, { ext := r.2, log := w.log ++ [Event.execute c cmd r.1.2.isNone] })

/-- `client.Close()`. -/
def ClientClose (c : SSHClient) (w : World σ) : World σ :=
  { ext := env.clientClose c w.ext, log := w.log ++ [Event.clientClose c] }

/-- `transfer.FileExists(remotePath)`. -/
def FileExists (t : SFTPTransfer) (remotePath : String) (w : World σ) : Bool × World σ :=
  let r := env.fileExists t remotePath w.ext
  (r.1, { ext := r.2, log := w.log ++ [Event.fileExists t remotePath r.1] })

/-- `transfer.Download(remotePath, localPath)`. -/
def Download (t : SFTPTransfer) (remotePath localPath : String) (w : World σ) :
    Option String × World σ :=
  let r := env.download t remotePath localPath w.ext
  (r.1, { ext := r.2, log := w.log ++ [Event.download t remotePath localPath r.1.isNone] })

/-- `transfer.UploadBytes(data, remotePath)`. -/
def UploadBytes (t : SFTPTransfer) (data : List Byte) (remotePath : String) (w : World σ) :
    Option String × World σ :=
  let r := env.uploadBytes t data remotePath w.ext
  (r.1, { ext := r.2, log := w.log ++ [Event.uploadBytes t data remotePath r.1.isNone] })

/-- `transfer.Close()`. -/
def TransferClose (t : SFTPTransfer) (w : World σ) : World σ :=
  { ext := env.transferClose t w.ext, log := w.log ++ [Event.transferClose t] }

/-- `os.MkdirAll(path, 0755)`. -/
def MkdirAll (path : String) (w : World σ) : Option String × World σ :=
  let r := env.mkdirAll path w.ext
  (r.1, { ext := r.2, log := w.log ++ [Event.mkdirAll path r.1.isNone] })

/-- `os.ReadFile(path)`. -/
def ReadFile (path : String) (w : World σ) : Except String (List Byte) × World σ :=
  let r := env.readFile path w.ext
  (r.1, { ext := r.2, log := w.log ++ [Event.readFile path (isOk r.1)] })

/-- `os.ReadDir(path)`. -/
def ReadDir (path : String) (w : World σ) : ReadDirResult × World σ :=
  let r := env.readDir path w.ext
  (r.1, { ext := r.2, log := w.log ++ [Event.readDir path] })

/-- `time.Now()`. -/
def Now (w : World σ) : Time × World σ :=
  let r := env.now w.ext
  (r.1, { ext := r.2, log := w.log ++ [Event.now] })

/-- `os.UserHomeDir()`. -/
def UserHomeDir (w : World σ) : Except String String × World σ :=
  let r := env.userHomeDir w.ext
  (r.1, { ext := r.2, log := w.log ++ [Event.userHomeDir] })

end Calls

/-! ## Backup store (`backup.go`) and `ExpandHome` (`manifest.go`)

`deploy.go`, `run.go` and `push.go` of package `vm` call `CreateBackup` and
`ExpandHome`; the sources hold these functions in package `main` (`backup.go`,
`manifest.go`, where `ExpandHome` is spelled `expandHome`), and they are embedded
from there. -/

/-- The constant `backupDir`. -/
def backupDir : String := "./backups"

/-- The insertion sort `sort.Slice` runs on slices of at most 12 elements
(`insertionSortLessFunc`): each element moves left while it is `less` than its
left neighbour.  The sorted part is kept in reverse. -/
def insertionSortLessFunc {α : Type} (less : α → α → Bool) (data : List α) : List α :=
  (data.foldl
    (fun sortedRev x => List.orderedInsert (fun a b => less a b = false) x sortedRev) []).reverse

/-- The `less` closure of `ListBackups`: `backups[i].Timestamp.After(backups[j].Timestamp)`. -/
def backupLess (a b : BackupInfo) : Bool := a.Timestamp.After b.Timestamp

/-- What `sort.Slice(backups, less)` guarantees of its result whatever the
algorithm (it is not stable for long slices): a rearrangement of the input in which
no element is `less` than an earlier one. -/
def SortSliceContract (sortSlice : List BackupInfo → List BackupInfo) : Prop :=
  ∀ l, (sortSlice l).Perm l ∧ (sortSlice l).Pairwise (fun a b => backupLess b a = false)

section Backup
variable {σ : Type} (env : Collab σ)

/-- `CreateBackup(transfer, remotePath, host)`: the backup path and the error. -/
def CreateBackup (transfer : SFTPTransfer) (remotePath host : String) (w : World σ) :
    (String × Option String) × World σ :=
  match FileExists env transfer remotePath w with
  | (false, w1) => (("", none), w1)
  | (true, w1) =>
    match Now env w1 with
    | (now, w2) =>
      let timestamp := now.Format
      let safeName := stringsReplaceAll remotePath "/" "_"
      let backupName := host ++ safeName ++ "_" ++ timestamp
      let backupPath := filepathJoin backupDir backupName
      match MkdirAll env backupDir w2 with
      | (some err, w3) => (("", some ("creating backup directory: " ++ err)), w3)
      | (none, w3) =>
        match Download env transfer remotePath backupPath w3 with
        | (some err, w4) =>
          (("", some ("downloading backup of " ++ remotePath ++ ": " ++ err)), w4)
        | (none, w4) => ((backupPath, none), w4)

/-- The loop of `ListBackups` over the directory entries: directories and entries
whose `Info()` fails are skipped. -/
def collectBackups : List DirEntry → List BackupInfo
  | [] => []
  | entry :: rest =>
    if entry.IsDir then collectBackups rest
    else
      match entry.Info with
      | .error _ => collectBackups rest
      | .ok info =>
        { Path := filepathJoin backupDir entry.Name, Timestamp := info } :: collectBackups rest

/-- `ListBackups()`; `sortSlice` is `sort.Slice` with the closure `backupLess`. -/
def ListBackups (sortSlice : List BackupInfo → List BackupInfo) (w : World σ) :
    (List BackupInfo × Option String) × World σ :=
  match ReadDir env backupDir w with
  | (.notExist _, w1) => (([], none), w1)
  | (.failed err, w1) => (([], some ("reading backup directory: " ++ err)), w1)
  | (.entries entries, w1) => ((sortSlice (collectBackups entries), none), w1)

/-- The loop of `findLatestBackup`: the path of the first backup whose base name
has the prefix. -/
def firstWithPrefix (pfx : String) : List BackupInfo → Option String
  | [] => none
  | b :: rest =>
    if stringsHasPrefix (filepathBase b.Path) pfx = true then some b.Path
    else firstWithPrefix pfx rest

/-- `findLatestBackup(host, remotePath)`: the path and the error. -/
def findLatestBackup (sortSlice : List BackupInfo → List BackupInfo)
    (host remotePath : String) (w : World σ) : (String × Option String) × World σ :=
  match ListBackups env sortSlice w with
  | ((_, some err), w1) => (("", some err), w1)
  | ((backups, none), w1) =>
    let safeName := stringsReplaceAll remotePath "/" "_"
    let pfx := host ++ safeName
    match firstWithPrefix pfx backups with
    | some path => ((path, none), w1)
    | none => (("", some ("no backup found for " ++ remotePath ++ " on " ++ host)), w1)

/-- `ExpandHome(path)`. -/
def ExpandHome (path : String) (w : World σ) : String × World σ :=
  if stringsHasPrefix path "~/" = true then
    match UserHomeDir env w with
    | (.error _, w1) => (path, w1)
    | (.ok home, w1) => (filepathJoin home (String.mk (path.data.drop 2)), w1)
  else (path, w)

/-- `NormalizeFile(path)` of `normalize.go`: the bytes and the error. -/
def NormalizeFile (path : String) (w : World σ) : (List Byte × Option String) × World σ :=
  match ReadFile env path w with
  | (.error err, w1) => (([], some ("reading file " ++ path ++ ": " ++ err)), w1)
  | (.ok data, w1) => ((NormalizeLineEndings data, none), w1)

end Backup

/-! ## Configuration lookups (`internal/vm/config.go`) -/

section Config
variable {σ : Type} (env : Collab σ)

/-- `ClientConfig.ResolveHost(alias)`: the host and the error (`alias` is a reserved
word here, the parameter is `hostAlias`). -/
def ResolveHost (c : ClientConfig) (hostAlias : String) (w : World σ) :
    (ServerConfig × Option String) × World σ :=
  match c.Hosts.lookup hostAlias with
  | none => (({}, some ("unknown host alias: " ++ hostAlias)), w)
  | some host =>
    let r := ExpandHome env host.Key w
    (({ host with Key := r.1 }, none), r.2)

/-- The statements of `ResolveHost` with the receiver made explicit: the second
component is the configuration behind `c` when the method returns.  `host` is a
copy of the map value `c.Hosts[alias]` (a struct value, not a pointer), the
assignment `host.Key = ExpandHome(host.Key)` writes to that copy, and no statement
assigns to `c.Hosts`. -/
def ResolveHostReceiver (c : ClientConfig) (hostAlias : String) (w : World σ) :
    ((ServerConfig × Option String) × ClientConfig) × World σ :=
  match c.Hosts.lookup hostAlias with
  | none => ((({}, some ("unknown host alias: " ++ hostAlias)), c), w)
  | some host =>
    let r := ExpandHome env host.Key w
    let host := { host with Key := r.1 }
    (((host, none), c), r.2)

/-- `ClientConfig.ResolveTask(name)`: the steps and the error. -/
def ResolveTask (c : ClientConfig) (name : String) : List TaskStep × Option String :=
  match c.Tasks.lookup name with
  | none => ([], some ("unknown task: " ++ name))
  | some steps => (steps, none)

end Config

/-! ## Deploy (`internal/vm/deploy.go`) -/

section Deploy
variable {σ : Type} (env : Collab σ)

/-- `deploySingleFile(client, transfer, server, file)`. -/
def deploySingleFile (client : SSHClient) (transfer : SFTPTransfer) (server : ServerConfig)
    (file : FileConfig) (w : World σ) : DeployResult × World σ :=
  let result : DeployResult := { Server := server.Host, File := file.Remote }
  match CreateBackup env transfer file.Remote server.Host w with
  | ((_, some err), w1) =>
    ({ result with Status := "error", Error := "backup failed (aborting): " ++ err }, w1)
  | ((backupPath, none), w1) =>
    let result := { result with Backup := backupPath }
    match NormalizeFile env file.Local w1 with
    | ((_, some err), w2) =>
      ({ result with Status := "error", Error := "normalization failed: " ++ err }, w2)
    | ((normalized, none), w2) =>
      match UploadBytes env transfer normalized file.Remote w2 with
      | (some err, w3) =>
        ({ result with Status := "error", Error := "upload failed: " ++ err }, w3)
      | (none, w3) =>
        if file.Restart ≠ "" then
          match Execute env client file.Restart w3 with
          | ((output, some err), w4) =>
            ({ result with
                Status := "warning",
                Error := "restart failed: " ++ err ++ " (output: " ++ output ++ ")" }, w4)
          | ((_, none), w4) => ({ result with Status := "ok" }, w4)
        else ({ result with Status := "ok" }, w3)

/-- The loop `for _, file := range m.Files` that synthesises one result per file. -/
def synthResults (server : ServerConfig) (status error : String) :
    List FileConfig → List DeployResult
  | [] => []
  | file :: rest =>
    { Server := server.Host, File := file.Remote, Status := status, Error := error } ::
      synthResults server status error rest

/-- The loop `for _, file := range m.Files { deploySingleFile(...) }`. -/
def deployFiles (client : SSHClient) (transfer : SFTPTransfer) (server : ServerConfig) :
    List FileConfig → World σ → List DeployResult × World σ
  | [], w => ([], w)
  | file :: rest, w =>
    let r := deploySingleFile env client transfer server file w
    let rs := deployFiles client transfer server rest r.2
    (r.1 :: rs.1, rs.2)

/-- The body of the loop over `m.Servers` in `ExecuteDeploy`: the results appended
for one server. -/
def deployServer (files : List FileConfig) (dryRun : Bool) (server : ServerConfig)
    (w : World σ) : List DeployResult × World σ :=
  if dryRun then (synthResults server "dry-run" "" files, w)
  else
    let k := ExpandHome env server.Key w
    let auth : SSHAuth := { KeyPath := k.1, Password := server.Password }
    match NewSSHClient env server.Host server.User auth k.2 with
    | (.error err, w1) => (synthResults server "error" ("connection failed: " ++ err) files, w1)
    | (.ok client, w1) =>
      match NewSFTPTransfer env client w1 with
      | (.error err, w2) =>
        (synthResults server "error" ("SFTP failed: " ++ err) files, ClientClose env client w2)
      | (.ok transfer, w2) =>
        let rs := deployFiles env client transfer server files w2
        (rs.1, ClientClose env client (TransferClose env transfer rs.2))

/-- The loop over `m.Servers` in `ExecuteDeploy`. -/
def deployServers (files : List FileConfig) (dryRun : Bool) :
    List ServerConfig → World σ → List DeployResult × World σ
  | [], w => ([], w)
  | server :: rest, w =>
    let r := deployServer env files dryRun server w
    let rs := deployServers files dryRun rest r.2
    (r.1 ++ rs.1, rs.2)

/-- `ExecuteDeploy(m, dryRun)`. -/
def ExecuteDeploy (m : Manifest) (dryRun : Bool) (w : World σ) : List DeployResult × World σ :=
  deployServers env m.Files dryRun m.Servers w

end Deploy

/-! ## Run (`internal/vm/run.go`) -/

/-- `stepLabel(step)`. -/
def stepLabel (step : TaskStep) : String :=
  if step.Type_ = "file" then "file:" ++ step.Remote
  else if step.Type_ = "exec" then "exec:" ++ step.Run
  else step.Type_

section Run
variable {σ : Type} (env : Collab σ)

/-- `executeFileStep(transfer, step, host)`. -/
def executeFileStep (transfer : SFTPTransfer) (step : TaskStep) (host : String)
    (w : World σ) : StepResult × World σ :=
  let sr : StepResult := { Step := stepLabel step }
  match CreateBackup env transfer step.Remote host w with
  | ((_, some err), w1) =>
    ({ sr with Status := "error", Error := "backup failed (aborting): " ++ err }, w1)
  | ((backupPath, none), w1) =>
    let sr := { sr with Backup := backupPath }
    match NormalizeFile env step.Local w1 with
    | ((_, some err), w2) =>
      ({ sr with Status := "error", Error := "normalization failed: " ++ err }, w2)
    | ((normalized, none), w2) =>
      match UploadBytes env transfer normalized step.Remote w2 with
      | (some err, w3) => ({ sr with Status := "error", Error := "upload failed: " ++ err }, w3)
      | (none, w3) => ({ sr with Status := "ok" }, w3)

/-- `executeExecStep(client, step)`. -/
def executeExecStep (client : SSHClient) (step : TaskStep) (w : World σ) :
    StepResult × World σ :=
  let sr : StepResult := { Step := stepLabel step }
  match Execute env client step.Run w with
  | ((output, some err), w1) =>
    ({ sr with Output := output, Status := "error", Error := "command failed: " ++ err }, w1)
  | ((output, none), w1) => ({ sr with Output := output, Status := "ok" }, w1)

/-- The `switch step.Type` of the step loop.  The variable `transfer` is a pointer
that stays `nil` (`none`) when no transfer was opened; `executeFileStep` on the
`nil` transfer dereferences it before any call is made, and that panic is the
result `none`.  A type other than "file" and "exec" leaves the zero `StepResult`. -/
def runStep (client : SSHClient) (transfer : Option SFTPTransfer) (host : String)
    (step : TaskStep) (w : World σ) : Option StepResult × World σ :=
  if step.Type_ = "file" then
    match transfer with
    | none => (none, w)
    | some t =>
      let r := executeFileStep env t step host w
      (some r.1, r.2)
  else if step.Type_ = "exec" then
    let r := executeExecStep env client step w
    (some r.1, r.2)
  else (some {}, w)

/-- The step loop of `executeRunOnServer`: the results appended to `result.Steps`
and the final `allOK`; `none` is a panic. -/
def runSteps (client : SSHClient) (transfer : Option SFTPTransfer) (host : String) :
    List TaskStep → World σ → Option (List StepResult × Bool) × World σ
  | [], w => (some ([], true), w)
  | step :: rest, w =>
    match runStep env client transfer host step w with
    | (none, w1) => (none, w1)
    | (some stepResult, w1) =>
      if stepResult.Status = "error" then (some ([stepResult], false), w1)
      else
        match runSteps client transfer host rest w1 with
        | (none, w2) => (none, w2)
        | (some (results, allOK), w2) => (some (stepResult :: results, allOK), w2)

/-- The loop that computes `needsSFTP`. -/
def needsSFTP (steps : List TaskStep) : Bool := steps.any (fun step => step.Type_ = "file")

/-- The loop of the dry-run branch of `executeRunOnServer`. -/
def dryRunSteps : List TaskStep → List StepResult
  | [] => []
  | step :: rest => { Step := stepLabel step, Status := "dry-run" } :: dryRunSteps rest

/-- The part of `executeRunOnServer` after the session is open: the transfer, the
step loop and the host status; the deferred `transfer.Close()` runs at its end. -/
def runOnClient (result : RunResult) (client : SSHClient) (host : String)
    (steps : List TaskStep) (w : World σ) : Option RunResult × World σ :=
  if needsSFTP steps = true then
    match NewSFTPTransfer env client w with
    | (.error err, w1) =>
      (some { result with
          Status := "error",
          Steps := [{ Step := "sftp", Status := "error", Error := "SFTP failed: " ++ err }] },
        w1)
    | (.ok transfer, w1) =>
      match runSteps env client (some transfer) host steps w1 with
      | (none, w2) => (none, TransferClose env transfer w2)
      | (some (results, allOK), w2) =>
        (some { result with
            Steps := results, Status := if allOK = true then "ok" else "error" },
          TransferClose env transfer w2)
  else
    match runSteps env client none host steps w with
    | (none, w2) => (none, w2)
    | (some (results, allOK), w2) =>
      (some { result with Steps := results, Status := if allOK = true then "ok" else "error" },
        w2)

/-- `executeRunOnServer(cfg, alias, taskName, steps, dryRun)`; `none` is a panic. -/
def executeRunOnServer (cfg : ClientConfig) (hostAlias taskName : String) (steps : List TaskStep)
    (dryRun : Bool) (w : World σ) : Option RunResult × World σ :=
  let result : RunResult := { Server := hostAlias, Task := taskName }
  match ResolveHost env cfg hostAlias w with
  | ((_, some err), w1) =>
    (some { result with
        Status := "error",
        Steps := [{ Step := "resolve", Status := "error", Error := err }] }, w1)
  | ((server, none), w1) =>
    if dryRun then (some { result with Steps := dryRunSteps steps, Status := "dry-run" }, w1)
    else
      let auth : SSHAuth := { KeyPath := server.Key, Password := server.Password }
      match NewSSHClient env server.Host server.User auth w1 with
      | (.error err, w2) =>
        (some { result with
            Status := "error",
            Steps := [{ Step := "connect", Status := "error",
                        Error := "connection failed: " ++ err }] }, w2)
      | (.ok client, w2) =>
        let r := runOnClient env result client server.Host steps w2
        (r.1, ClientClose env client r.2)

/-- The second loop of `ExecuteRun`, over the aliases. -/
def runAliases (cfg : ClientConfig) (taskName : String) (steps : List TaskStep)
    (dryRun : Bool) : List String → World σ → Option (List RunResult) × World σ
  | [], w => (some [], w)
  | hostAlias :: rest, w =>
    match executeRunOnServer env cfg hostAlias taskName steps dryRun w with
    | (none, w1) => (none, w1)
    | (some result, w1) =>
      match runAliases cfg taskName steps dryRun rest w1 with
      | (none, w2) => (none, w2)
      | (some results, w2) => (some (result :: results), w2)

/-- The first loop of `ExecuteRun`, taken when the task does not resolve. -/
def unresolvedResults (taskName err : String) : List String → List RunResult
  | [] => []
  | hostAlias :: rest =>
    { Server := hostAlias, Task := taskName, Status := "error",
      Steps := [{ Step := "resolve", Status := "error", Error := err }] } ::
      unresolvedResults taskName err rest

/-- `ExecuteRun(cfg, taskName, aliases, dryRun)`; `none` is a panic. -/
def ExecuteRun (cfg : ClientConfig) (taskName : String) (aliases : List String)
    (dryRun : Bool) (w : World σ) : Option (List RunResult) × World σ :=
  match ResolveTask cfg taskName with
  | (_, some err) => (some (unresolvedResults taskName err aliases), w)
  | (steps, none) => runAliases env cfg taskName steps dryRun aliases w

end Run

/-! ## Push (`internal/vm/push.go`) -/

section Push
variable {σ : Type} (env : Collab σ)

/-- The part of `ExecutePush` after the transfer is open. -/
def pushFile (result : PushResult) (transfer : SFTPTransfer) (server : ServerConfig)
    (localPath remotePath : String) (w : World σ) : PushResult × World σ :=
  match CreateBackup env transfer remotePath server.Host w with
  | ((_, some err), w1) =>
    ({ result with Status := "error", Error := "backup failed (aborting): " ++ err }, w1)
  | ((backupPath, none), w1) =>
    let result := { result with Backup := backupPath }
    match NormalizeFile env localPath w1 with
    | ((_, some err), w2) =>
      ({ result with Status := "error", Error := "normalization failed: " ++ err }, w2)
    | ((normalized, none), w2) =>
      match UploadBytes env transfer normalized remotePath w2 with
      | (some err, w3) =>
        ({ result with Status := "error", Error := "upload failed: " ++ err }, w3)
      | (none, w3) => ({ result with Status := "ok" }, w3)

/-- `ExecutePush(cfg, alias, localPath, remotePath, dryRun)`; the deferred
`transfer.Close()` and `client.Close()` run, in this order, when it returns. -/
def ExecutePush (cfg : ClientConfig) (hostAlias localPath remotePath : String) (dryRun : Bool)
    (w : World σ) : PushResult × World σ :=
  let result : PushResult := { Server := hostAlias, File := remotePath }
  match ResolveHost env cfg hostAlias w with
  | ((_, some err), w1) => ({ result with Status := "error", Error := err }, w1)
  | ((server, none), w1) =>
    if dryRun then ({ result with Status := "dry-run" }, w1)
    else
      let auth : SSHAuth := { KeyPath := server.Key, Password := server.Password }
      match NewSSHClient env server.Host server.User auth w1 with
      | (.error err, w2) =>
        ({ result with Status := "error", Error := "connection failed: " ++ err }, w2)
      | (.ok client, w2) =>
        match NewSFTPTransfer env client w2 with
        | (.error err, w3) =>
          ({ result with Status := "error", Error := "SFTP failed: " ++ err },
            ClientClose env client w3)
        | (.ok transfer, w3) =>
          let r := pushFile env result transfer server localPath remotePath w3
          (r.1, ClientClose env client (TransferClose env transfer r.2))

end Push

/-! ## Manifest validation (`manifest.go`) -/

/-- The loop of `ValidateManifest` over `m.Servers`, at index `i`. -/
def validateServers : Nat → List ServerConfig → Option String
  | _, [] => none
  | i, s :: rest =>
    if s.Host = "" then some ("manifest: server[" ++ toString i ++ "] missing host")
    else if s.User = "" then some ("manifest: server[" ++ toString i ++ "] missing user")
    else if s.Key = "" ∧ s.Password = "" then
      some ("manifest: server[" ++ toString i ++ "] missing key or password")
    else validateServers (i + 1) rest

/-- The loop of `ValidateManifest` over `m.Files`, at index `i`. -/
def validateFiles : Nat → List FileConfig → Option String
  | _, [] => none
  | i, f :: rest =>
    if f.Local = "" then some ("manifest: file[" ++ toString i ++ "] missing local path")
    else if f.Remote = "" then some ("manifest: file[" ++ toString i ++ "] missing remote path")
    else validateFiles (i + 1) rest

/-- `ValidateManifest(m)`: the error, and the manifest behind the pointer `m` when
the call returns. -/
def ValidateManifest (m : Manifest) : Option String × Manifest :=
  if m.Servers.length = 0 then (some "manifest: no servers defined", m)
  else if m.Files.length = 0 then (some "manifest: no files defined", m)
  else
    match validateServers 0 m.Servers with
    | some err => (some err, m)
    | none =>
      match validateFiles 0 m.Files with
      | some err => (some err, m)
      | none => (none, m)

/-! ## Configuration validation (`internal/vm/config.go`) and `parseServerString` (`main.go`) -/

/-- The verb `%q` of `fmt` on a string: the string between double quotes.  The
escapes `strconv.Quote` adds for quotes, backslashes and unprintable characters
are left out; no property reads the text of an error. -/
def quoted (s : String) : String :=
  String.singleton (Char.ofNat 34) ++ s ++ String.singleton (Char.ofNat 34)

/-- The loop of `Validate` over `c.Hosts`, in the order the map is ranged over. -/
def validateHosts : List (String × ServerConfig) → Option String
  | [] => none
  | (name, host) :: rest =>
    if host.Host = "" then some ("config: host " ++ quoted name ++ " missing host address")
    else if host.User = "" then some ("config: host " ++ quoted name ++ " missing user")
    else if host.Key = "" ∧ host.Password = "" then
      some ("config: host " ++ quoted name ++ " missing key or password")
    else validateHosts rest

/-- The loop of `Validate` over the steps of the task `name`, at index `i`. -/
def validateSteps (name : String) : Nat → List TaskStep → Option String
  | _, [] => none
  | i, step :: rest =>
    if step.Type_ = "file" then
      if step.Local = "" then
        some ("config: task " ++ quoted name ++ " step[" ++ toString i ++ "] missing local path")
      else if step.Remote = "" then
        some ("config: task " ++ quoted name ++ " step[" ++ toString i ++ "] missing remote path")
      else validateSteps name (i + 1) rest
    else if step.Type_ = "exec" then
      if step.Run = "" then
        some ("config: task " ++ quoted name ++ " step[" ++ toString i ++ "] missing run command")
      else validateSteps name (i + 1) rest
    else
      some ("config: task " ++ quoted name ++ " step[" ++ toString i ++ "] unknown type " ++
        quoted step.Type_)

/-- The loop of `Validate` over `c.Tasks`, in the order the map is ranged over. -/
def validateTasks : List (String × List TaskStep) → Option String
  | [] => none
  | (name, steps) :: rest =>
    if steps.length = 0 then some ("config: task " ++ quoted name ++ " has no steps")
    else
      match validateSteps name 0 steps with
      | some err => some err
      | none => validateTasks rest

/-- `ClientConfig.Validate()`.  Go ranges over a map in an unspecified order; here
it is the order of the association list, and the properties are stated for every
rearrangement of the lists. -/
def ClientConfig.Validate (c : ClientConfig) : Option String :=
  if c.Hosts.length = 0 then some "config: no hosts defined"
  else if c.Tasks.length = 0 then some "config: no tasks defined"
  else
    match validateHosts c.Hosts with
    | some err => some err
    | none => validateTasks c.Tasks

/-- The search of `strings.SplitN(s, sep, 2)` for the first occurrence of a
non-empty `sep`: the part before it and the part after it. -/
def cutFirst (sep : List Char) : List Char → Option (List Char × List Char)
  | [] => if sep.isPrefixOf [] = true then some ([], []) else none
  | c :: rest =>
    if sep.isPrefixOf (c :: rest) = true then some ([], (c :: rest).drop sep.length)
    else
      match cutFirst sep rest with
      | some (before, after) => some (c :: before, after)
      | none => none

/-- Go's `strings.SplitN(s, sep, 2)` for a non-empty `sep`: `s` alone when `sep`
does not occur, else the parts around its first occurrence.  (For an empty `sep` Go
cuts after the first character; the program passes "@".) -/
def stringsSplitN2 (s sep : String) : List String :=
  match cutFirst sep.data s.data with
  | some (before, after) => [String.mk before, String.mk after]
  | none => [s]

/-- `parseServerString(s)`: the user, the host and the error. -/
def parseServerString (s : String) : String × String × Option String :=
  match stringsSplitN2 s "@" with
  | [user, host] =>
    if user = "" ∨ host = "" then ("", "", some ("expected user@host format, got: " ++ s))
    else (user, host, none)
  | _ => ("", "", some ("expected user@host format, got: " ++ s))

/-! ## The local disk and `Download` (`transfer.go`)

`Download` is made of `client.Open` on the remote side and of `os.MkdirAll`,
`os.Create` and `io.Copy` on the local side.  The local disk is the state; what the
remote side holds and which calls fail is given by a `Machine`. -/

/-- Go's `filepath.Dir` on Unix: the path up to its last separator, cleaned. -/
def filepathDir (path : String) : String :=
  filepathClean (String.mk ((path.data.reverse.dropWhile (fun x => x ≠ '/')).reverse))

/-- The local disk: the regular files, by path, with their content.  The paths are
the cleaned relative paths the program passes; directories are not recorded. -/
structure Disk where
  files : List (String × List Byte) := []
  deriving DecidableEq, Repr

/-- The file `path` with the content `content`: an existing file keeps its place and
gets the content, a missing one is added. -/
def setFile (path : String) (content : List Byte) :
    List (String × List Byte) → List (String × List Byte)
  | [] => [(path, content)]
  | (p, c) :: rest =>
    if p = path then (p, content) :: rest else (p, c) :: setFile path content rest

/-- What surrounds a backup: the remote files with their content, the remote paths
`client.Open` fails on, whether `os.MkdirAll` fails, the local paths `os.Create`
fails on, the remote paths whose `io.Copy` fails, and the clock. -/
structure Machine where
  remote : List (String × List Byte) := []
  openFailing : List String := []
  mkdirFails : Bool := false
  createFailing : List String := []
  copyFailing : List String := []
  clock : Time := { nanos := 0 }

/-- An open remote file: its path and the bytes a reader gets from it. -/
structure RemoteFile where
  path : String
  content : List Byte

/-- `t.client.Stat(remotePath)`: whether it succeeds. -/
def sftpStat (m : Machine) (remotePath : String) : Bool := (m.remote.lookup remotePath).isSome

/-- `t.client.Open(remotePath)`. -/
def sftpOpen (m : Machine) (remotePath : String) : Except String RemoteFile :=
  if remotePath ∈ m.openFailing then .error "permission denied"
  else
    match m.remote.lookup remotePath with
    | none => .error "file does not exist"
    | some content => .ok { path := remotePath, content := content }

/-- `os.MkdirAll(path, 0755)`. -/
def osMkdirAll (m : Machine) (_path : String) (d : Disk) : Option String × Disk :=
  if m.mkdirFails = true then (some "read-only file system", d) else (none, d)

/-- `os.Create(path)`: the file is created, or truncated if it exists. -/
def osCreate (m : Machine) (path : String) (d : Disk) : Option String × Disk :=
  if path ∈ m.createFailing then (some "permission denied", d)
  else (none, { files := setFile path [] d.files })

/-- `io.Copy(local, remote)` into the file just created at `localPath`; a failing
copy is taken to have written nothing. -/
def ioCopy (m : Machine) (localPath : String) (remote : RemoteFile) (d : Disk) :
    Option String × Disk :=
  if remote.path ∈ m.copyFailing then (some "connection lost", d)
  else (none, { files := setFile localPath remote.content d.files })

/-- `FileExists(remotePath)` of `transfer.go`. -/
def SFTPTransfer.FileExists (_t : SFTPTransfer) (m : Machine) (remotePath : String) : Bool :=
  sftpStat m remotePath

/-- `Download(remotePath, localPath)` of `transfer.go`: the error and the disk after it. -/
def SFTPTransfer.Download (_t : SFTPTransfer) (m : Machine) (remotePath localPath : String)
    (d : Disk) : Option String × Disk :=
  match sftpOpen m remotePath with
  | .error err => (some ("opening remote file " ++ remotePath ++ ": " ++ err), d)
  | .ok remote =>
    let dir := filepathDir localPath
    match osMkdirAll m dir d with
    | (some err, d1) => (some ("creating directory " ++ dir ++ ": " ++ err), d1)
    | (none, d1) =>
      match osCreate m localPath d1 with
      | (some err, d2) => (some ("creating local file " ++ localPath ++ ": " ++ err), d2)
      | (none, d2) =>
        match ioCopy m localPath remote d2 with
        | (some err, d3) => (some ("downloading " ++ remotePath ++ ": " ++ err), d3)
        | (none, d3) => (none, d3)

/-! ## Definitions used to state the properties -/

/-- The concatenation of lines, each followed by its own terminator: CR LF when the
flag is set, LF otherwise. -/
def joinLines : List (List Byte × Bool) → List Byte
  | [] => []
  | (line, crlf) :: rest => line ++ (if crlf = true then [CR, LF] else [LF]) ++ joinLines rest

/-- The spec's `sanitize`: every "/" becomes "_". -/
def sanitizeSpec (remotePath : String) : String :=
  String.mk (remotePath.data.map (fun c => if c = '/' then '_' else c))

/-- A collaborator behaviour without external state, given by lists: it is used to
evaluate the functions on concrete inputs. -/
structure Scenario where
  unreachable : List String := []
  noSFTP : List String := []
  failingCommands : List String := []
  existing : List String := []
  mkdirFails : Bool := false
  downloadFailing : List String := []
  uploadFailing : List String := []
  unreadable : List String := []
  content : List Byte := []
  dir : ReadDirResult := .notExist "no such file or directory"
  clock : Time := { nanos := 0 }
  home : Except String String := .ok "/home/op"

/-- The collaborators of a scenario: sessions to the hosts of `unreachable` fail to
open, transfers to the hosts of `noSFTP` fail to open, the commands of
`failingCommands` fail, the remote paths of `existing` exist, and so on. -/
def Scenario.collab (s : Scenario) : Collab Unit where
  newSSHClient := fun host user _ u =>
    if host ∈ s.unreachable then (.error "dial tcp: connection refused", u)
    else (.ok { Client := 1, Host := host, User := user }, u)
  newSFTPTransfer := fun c u =>
    if c.Host ∈ s.noSFTP then (.error "creating SFTP client: subsystem request failed", u)
    else (.ok { client := c.Client }, u)
  execute := fun _ cmd u =>
    if cmd ∈ s.failingCommands then (("failed", some "exit status 1"), u) else (("done", none), u)
  clientClose := fun _ u => u
  fileExists := fun _ p u => (decide (p ∈ s.existing), u)
  download := fun _ p _ u =>
    if p ∈ s.downloadFailing then (some "permission denied", u) else (none, u)
  uploadBytes := fun _ _ p u =>
    if p ∈ s.uploadFailing then (some "permission denied", u) else (none, u)
  transferClose := fun _ u => u
  mkdirAll := fun _ u => if s.mkdirFails = true then (some "read-only file system", u) else (none, u)
  readFile := fun p u =>
    if p ∈ s.unreadable then (.error "no such file or directory", u) else (.ok s.content, u)
  readDir := fun _ u => (s.dir, u)
  now := fun u => (s.clock, u)
  userHomeDir := fun u => (s.home, u)

/-- The world before any call. -/
def World.start : World Unit := { ext := (), log := [] }

/-- A backup directory with three backups of ("web", "/etc/app.conf"), listed out
of time order, one backup of another path and a subdirectory. -/
def dirThreeBackups : ReadDirResult :=
  .entries
    [{ Name := "web_etc_app.conf_20250101-000001", Info := .ok { nanos := 1 } },
     { Name := "web_etc_app.conf_20250101-000003", Info := .ok { nanos := 3 } },
     { Name := "old", IsDir := true, Info := .ok { nanos := 9 } },
     { Name := "web_etc_other.conf_20250101-000004", Info := .ok { nanos := 4 } },
     { Name := "web_etc_app.conf_20250101-000002", Info := .ok { nanos := 2 } }]

/-- The calls made from the world `w` to the later world `w2`. -/
def callsSince {σ : Type} (w w2 : World σ) : List Event := w2.log.drop w.log.length

/-- Whether the call is an `UploadBytes`. -/
def Event.isUpload : Event → Bool
  | .uploadBytes _ _ _ _ => true
  | _ => false

/-- Whether the call is an `Execute`. -/
def Event.isExecute : Event → Bool
  | .execute _ _ _ => true
  | _ => false

/-- Whether the call settles the backup of the remote path `p` on the transfer
`t`: a `FileExists` of `p` that found no file, or a `Download` of `p` that succeeded. -/
def Event.backsUp (t : SFTPTransfer) (p : String) : Event → Bool
  | .fileExists t2 p2 found => decide (t2 = t) && decide (p2 = p) && !found
  | .download t2 p2 _ ok => decide (t2 = t) && decide (p2 = p) && ok
  | _ => false

/-- Whether every `UploadBytes` of the list comes after a call, among `seen` or
earlier in the list, that settles the backup of its path. -/
def uploadsBackedUp (seen : List Event) : List Event → Bool
  | [] => true
  | e :: rest =>
    (match e with
      | .uploadBytes t _ p _ => seen.any (Event.backsUp t p)
      | _ => true) && uploadsBackedUp (seen ++ [e]) rest

/-- Backup before overwrite, on a list of calls: every `UploadBytes` to a path is
preceded by a `FileExists` of that path that found no file or by a successful
`Download` of that path. -/
def BackupBeforeUpload (evs : List Event) : Prop :=
  ∀ pre post t d p ok, evs = pre ++ Event.uploadBytes t d p ok :: post →
    Event.fileExists t p false ∈ pre ∨ ∃ lp, Event.download t p lp true ∈ pre

/-- A scenario in which the remote file /etc/app.conf exists and cannot be
downloaded, so that its backup fails. -/
def backupFails : Scenario :=
  { existing := ["/etc/app.conf"], downloadFailing := ["/etc/app.conf"] }

/-- A configuration with the host "web" and a three-step task "release". -/
def sampleConfig : ClientConfig :=
  { Hosts := [("web", { Host := "10.0.0.1", User := "deploy", Key := "/keys/id_rsa" })],
    Tasks := [("release",
      [{ Type_ := "exec", Run := "systemctl stop app" },
       { Type_ := "exec", Run := "migrate" },
       { Type_ := "exec", Run := "systemctl start app" }])] }

/-- The steps executed one after the other, each by the `switch` of the step loop,
whatever their results: the results in order and the world after the last step
(`none` if a step panics). -/
def runAll {σ : Type} (env : Collab σ) (client : SSHClient) (transfer : Option SFTPTransfer)
    (host : String) : List TaskStep → World σ → Option (List StepResult) × World σ
  | [], w => (some [], w)
  | step :: rest, w =>
    match runStep env client transfer host step w with
    | (none, w1) => (none, w1)
    | (some r, w1) =>
      match runAll env client transfer host rest w1 with
      | (none, w2) => (none, w2)
      | (some rs, w2) => (some (r :: rs), w2)

/-- A scenario in which the command "migrate" fails. -/
def migrateFails : Scenario := { failingCommands := ["migrate"] }

/-- The (server, remote path) pairs of a manifest in server-major order: for each
server in turn, every file in turn. -/
def serverMajor (files : List FileConfig) : List ServerConfig → List (String × String)
  | [] => []
  | server :: rest =>
    files.map (fun file => (server.Host, file.Remote)) ++ serverMajor files rest

/-- The remote path a `FileExists` call asks about. -/
def Event.existsPath : Event → Option String
  | .fileExists _ p _ => some p
  | _ => none

/-- A scenario in which the host 10.0.0.9 cannot be reached. -/
def hostDown : Scenario := { unreachable := ["10.0.0.9"] }

/-- A manifest with the unreachable host 10.0.0.9 between two reachable hosts, and
two files. -/
def threeHosts : Manifest :=
  { Servers := [{ Host := "10.0.0.1", User := "deploy", Key := "/keys/id_rsa" }] ++
      { Host := "10.0.0.9", User := "deploy", Key := "/keys/id_rsa" } ::
        [{ Host := "10.0.0.2", User := "deploy", Key := "/keys/id_rsa" }],
    Files := [{ Local := "app.conf", Remote := "/etc/app.conf" },
      { Local := "db.conf", Remote := "/etc/db.conf", Restart := "systemctl restart db" }] }

/-- The backups the directory entries stand for: one per entry that is not a
directory and whose `Info()` succeeds, with the path `backupDir` joined with the
name and the modification time, in directory order. -/
def listedBackups (entries : List DirEntry) : List BackupInfo :=
  entries.filterMap (fun entry =>
    if entry.IsDir = true then none
    else
      match entry.Info with
      | .ok info => some { Path := filepathJoin backupDir entry.Name, Timestamp := info }
      | .error _ => none)

/-- A backup directory whose only entry is a regular file that is removed before
`Info()` is asked for it. -/
def dirVanishingFile : ReadDirResult :=
  .entries [{ Name := "web_etc_app.conf_20250101-000001",
              Info := .error "lstat: no such file or directory" }]

/-- A scenario in which the remote file /etc/app.conf exists and every call
succeeds, at 2025-01-09 12:30:05. -/
def fileExistsScenario : Scenario :=
  { existing := ["/etc/app.conf"],
    clock := { nanos := 1736425805000000000, year := 2025, month := 1, day := 9,
               hour := 12, minute := 30, second := 5 } }

/-- The file name the spec gives to a backup: hostAlias + sanitize(remotePath) +
"_" + the time formatted YYYYMMDD-HHMMSS. -/
def backupName (host remotePath : String) (now : Time) : String :=
  host ++ sanitizeSpec remotePath ++ "_" ++ now.Format

/-- A scenario in which the host 10.0.0.1 of the alias "web" cannot be reached. -/
def webDown : Scenario := { unreachable := ["10.0.0.1"] }

/-- A host entry whose key lies under the home directory. -/
def homeKeyConfig : ClientConfig :=
  { Hosts := [("prod", { Host := "10.0.0.1", User := "admin", Key := "~/.ssh/id_rsa" }),
              ("dev", { Host := "10.0.0.2", User := "dev", Password := "secret" })],
    Tasks := [("test", [{ Type_ := "exec", Run := "echo" }])] }

/-- The home directory cannot be determined (`$HOME` is not set). -/
def noHome : Scenario := { home := .error "$HOME is not defined" }

/-- A scenario in which the remote file /etc/app.conf.bak exists, every call succeeds,
the clock shows 2025-01-09 12:30:05, and the backup directory holds one file, the
backup of ("web", "/etc/app.conf.bak") made at that time. -/
def bakBackupScenario : Scenario :=
  { existing := ["/etc/app.conf.bak"],
    clock := { nanos := 1736425805000000000, year := 2025, month := 1, day := 9,
               hour := 12, minute := 30, second := 5 },
    dir := .entries [{ Name := "web_etc_app.conf.bak_20250109-123005",
                       Info := .ok { nanos := 1736425806000000000 } }] }

/-- The transfer a call is made on, for the calls of the `SFTPTransfer` methods. -/
def Event.transferOf : Event → Option SFTPTransfer
  | .fileExists t _ _ => some t
  | .download t _ _ _ => some t
  | .uploadBytes t _ _ _ => some t
  | .transferClose t => some t
  | _ => none

/-- Whether the call is a `NewSFTPTransfer`. -/
def Event.isOpenTransfer : Event → Bool
  | .newSFTPTransfer _ _ => true
  | _ => false

/-- A configuration with the host "web" and a task "publish" that uploads a file
and then restarts the service. -/
def publishConfig : ClientConfig :=
  { Hosts := [("web", { Host := "10.0.0.1", User := "deploy", Key := "/keys/id_rsa" })],
    Tasks := [("publish",
      [{ Type_ := "file", Local := "app.conf", Remote := "/etc/app.conf" },
       { Type_ := "exec", Run := "systemctl restart app" }])] }

/-- A scenario in which the host 10.0.0.1 accepts the session and refuses the
transfer. -/
def sftpDown : Scenario := { noSFTP := ["10.0.0.1"] }

/-- The collaborators on a machine, with the local disk as the state: `FileExists`
and `Download` are those of `transfer.go`, `MkdirAll` and `Now` are the machine's;
the calls a backup does not make get a fixed answer and leave the disk alone. -/
def Machine.collab (m : Machine) : Collab Disk where
  newSSHClient := fun host user _ d => (.ok { Client := 1, Host := host, User := user }, d)
  newSFTPTransfer := fun c d => (.ok { client := c.Client }, d)
  execute := fun _ _ d => (("done", none), d)
  clientClose := fun _ d => d
  fileExists := fun t p d => (t.FileExists m p, d)
  download := fun t p lp d => t.Download m p lp d
  uploadBytes := fun _ _ _ d => (none, d)
  transferClose := fun _ d => d
  mkdirAll := fun p d => osMkdirAll m p d
  readFile := fun _ d => (.ok [], d)
  readDir := fun _ d => (.notExist "no such file or directory", d)
  now := fun d => (m.clock, d)
  userHomeDir := fun d => (.ok "/home/op", d)

/-- The paths of the files that are on the disk `after` and were not on the disk
`before`. -/
def newFiles (before after : Disk) : List String :=
  (after.files.map Prod.fst).filter (fun p => decide (p ∉ before.files.map Prod.fst))

/-- A machine on whose remote side /etc/app.conf holds two bytes, at
2025-01-09 12:30:05. -/
def appConfMachine : Machine :=
  { remote := [("/etc/app.conf", [97, 10])],
    clock := { nanos := 1736425805000000000, year := 2025, month := 1, day := 9,
               hour := 12, minute := 30, second := 5 } }

/-- The world of an empty local disk before any call. -/
def emptyDisk : World Disk := { ext := {}, log := [] }

/-! # Properties -/

/-! ## Line-ending normaliser -/

theorem CR_ne_LF : CR ≠ LF := by decide

theorem normalize_nil : NormalizeLineEndings [] = [] := rfl

theorem normalize_crlf (s : List Byte) :
    NormalizeLineEndings (CR :: LF :: s) = LF :: NormalizeLineEndings s := by
  simp [NormalizeLineEndings, bytesReplaceAll, replaceFrom, List.isPrefixOf]

theorem normalize_cons (a : Byte) (s : List Byte) (h : ¬ (a = CR ∧ s.head? = some LF)) :
    NormalizeLineEndings (a :: s) = a :: NormalizeLineEndings s := by
  cases s with
  | nil => simp [NormalizeLineEndings, bytesReplaceAll, replaceFrom, List.isPrefixOf]
  | cons b t =>
    have h2 : ¬ (CR = a ∧ LF = b) := by
      rintro ⟨h1, h2⟩
      exact h ⟨h1.symm, by simp [h2]⟩
    simp [NormalizeLineEndings, bytesReplaceAll, replaceFrom, List.isPrefixOf, h2]

theorem normalize_induction {P : List Byte → Prop} (hnil : P [])
    (hcrlf : ∀ s, P s → P (CR :: LF :: s))
    (hcons : ∀ a s, ¬ (a = CR ∧ s.head? = some LF) → P s → P (a :: s)) : ∀ b, P b := by
  have key : ∀ n, ∀ b : List Byte, b.length ≤ n → P b := by
    intro n
    induction n with
    | zero =>
      intro b hb
      have : b = [] := List.length_eq_zero.mp (Nat.le_zero.mp hb)
      subst this
      exact hnil
    | succ n ih =>
      intro b hb
      cases b with
      | nil => exact hnil
      | cons a s =>
        by_cases hc : a = CR ∧ s.head? = some LF
        · obtain ⟨rfl, hs⟩ := hc
          cases s with
          | nil => simp at hs
          | cons c t =>
            simp at hs
            subst hs
            exact hcrlf t (ih t (by simp at hb; omega))
        · exact hcons a s hc (ih s (by simp at hb; omega))
  exact fun b => key b.length b le_rfl

theorem normalize_fixed_iff (b : List Byte) :
    NormalizeLineEndings b = b ↔ ¬ [CR, LF] <:+: b := by
  induction b using normalize_induction with
  | hnil => simp [normalize_nil]
  | hcrlf s ih =>
    rw [normalize_crlf]
    constructor
    · intro h
      simp at h
      exact absurd h.1.symm CR_ne_LF
    · intro h
      exact absurd ⟨[], s, rfl⟩ h
  | hcons a s hc ih =>
    rw [normalize_cons a s hc, List.infix_cons_iff]
    simp only [List.cons.injEq, true_and, not_or]
    rw [ih]
    constructor
    · intro h
      refine ⟨?_, h⟩
      rintro ⟨t, ht⟩
      cases s with
      | nil => simp at ht
      | cons c u =>
        simp at ht
        exact hc ⟨ht.1.symm, by simp [ht.2.1]⟩
    · exact fun h => h.2

theorem head_normalize (s : List Byte) :
    (NormalizeLineEndings s).head? = some LF ↔ s.head? = some LF ∨ [CR, LF] <+: s := by
  cases s with
  | nil => simp [normalize_nil]
  | cons a t =>
    by_cases hc : a = CR ∧ t.head? = some LF
    · obtain ⟨rfl, ht⟩ := hc
      cases t with
      | nil => simp at ht
      | cons c u =>
        simp at ht
        subst ht
        rw [normalize_crlf]
        simp
    · rw [normalize_cons a t hc]
      simp only [List.head?_cons, Option.some.injEq]
      constructor
      · exact fun h => Or.inl h
      · rintro (h | ⟨u, hu⟩)
        · exact h
        · exfalso
          cases t with
          | nil => simp at hu
          | cons c v =>
            simp at hu
            exact hc ⟨hu.1.symm, by simp [hu.2.1]⟩

theorem crlf_infix_normalize_iff (b : List Byte) :
    [CR, LF] <:+: NormalizeLineEndings b ↔ [CR, CR, LF] <:+: b := by
  induction b using normalize_induction with
  | hnil => simp [normalize_nil]
  | hcrlf s ih =>
    rw [normalize_crlf, List.infix_cons_iff, List.infix_cons_iff, List.infix_cons_iff, ih]
    have h1 : ¬ [CR, LF] <+: LF :: NormalizeLineEndings s := by
      rintro ⟨t, ht⟩
      simp at ht
      exact CR_ne_LF ht.1
    have h2 : ¬ [CR, CR, LF] <+: CR :: LF :: s := by
      rintro ⟨t, ht⟩
      simp at ht
      exact CR_ne_LF ht.1
    have h3 : ¬ [CR, CR, LF] <+: LF :: s := by
      rintro ⟨t, ht⟩
      simp at ht
      exact CR_ne_LF ht.1
    simp [h1, h2, h3]
  | hcons a s hc ih =>
    rw [normalize_cons a s hc, List.infix_cons_iff, List.infix_cons_iff, ih]
    have hp : [CR, LF] <+: a :: NormalizeLineEndings s ↔ [CR, CR, LF] <+: a :: s := by
      constructor
      · rintro ⟨t, ht⟩
        simp at ht
        obtain ⟨rfl, ht⟩ := ht
        have hh : (NormalizeLineEndings s).head? = some LF := by rw [← ht]; rfl
        rcases (head_normalize s).mp hh with h | ⟨u, hu⟩
        · exact absurd ⟨rfl, h⟩ hc
        · exact ⟨u, by rw [← hu]; rfl⟩
      · rintro ⟨t, ht⟩
        simp at ht
        obtain ⟨rfl, ht⟩ := ht
        have hh : (NormalizeLineEndings s).head? = some LF :=
          (head_normalize s).mpr (Or.inr ⟨t, ht⟩)
        cases hn : NormalizeLineEndings s with
        | nil => simp [hn] at hh
        | cons c u =>
          simp [hn] at hh
          subst hh
          exact ⟨u, rfl⟩
    rw [hp]

theorem normalize_append_of_no_CR (l : List Byte) (hl : CR ∉ l) (x : List Byte) :
    NormalizeLineEndings (l ++ x) = l ++ NormalizeLineEndings x := by
  induction l with
  | nil => rfl
  | cons a t ih =>
    have ha : a ≠ CR := fun h => hl (by simp [h])
    have ht : CR ∉ t := fun h => hl (by simp [h])
    rw [List.cons_append, normalize_cons a (t ++ x) (fun h => ha h.1), ih ht, List.cons_append]

/-- C5, as stated, fails: normalising "\r\r\n" gives "\r\n", which a second
normalisation turns into "\n". -/
theorem normalize_not_idempotent :
    NormalizeLineEndings (NormalizeLineEndings [CR, CR, LF]) ≠
      NormalizeLineEndings [CR, CR, LF] := by
  decide

/-- C5 (amended): normalising twice gives the same bytes as normalising once exactly
for the inputs that contain no CR immediately followed by a CR LF pair. -/
theorem normalize_idempotent_iff (b : List Byte) :
    NormalizeLineEndings (NormalizeLineEndings b) = NormalizeLineEndings b ↔
      ¬ [CR, CR, LF] <:+: b := by
  rw [normalize_fixed_iff, crlf_infix_normalize_iff]

/-- C6, as stated, fails: the normalisation of "a\r\r\nb" is "a\r\nb", which
contains a CR LF pair. -/
theorem normalize_output_has_crlf :
    [CR, LF] <:+: NormalizeLineEndings [97, CR, CR, LF, 98] :=
  ⟨[97], [98], by decide⟩

/-- C6 (amended): the normalised bytes contain no CR LF pair exactly when the input
contains no CR immediately followed by a CR LF pair. -/
theorem normalize_crlf_free_iff (b : List Byte) :
    ¬ [CR, LF] <:+: NormalizeLineEndings b ↔ ¬ [CR, CR, LF] <:+: b := by
  rw [crlf_infix_normalize_iff]

/-- C7: bytes without a CR LF pair are returned unchanged, and the empty input
gives the empty output. -/
theorem normalize_unchanged (b : List Byte) :
    (¬ [CR, LF] <:+: b → NormalizeLineEndings b = b) ∧ NormalizeLineEndings [] = [] :=
  ⟨(normalize_fixed_iff b).mpr, rfl⟩

/-- C7 at "l1\nl2\n", an input that already uses LF. -/
theorem normalize_unchanged_witness :
    ¬ [CR, LF] <:+: [108, 49, LF, 108, 50, LF] ∧
      NormalizeLineEndings [108, 49, LF, 108, 50, LF] = [108, 49, LF, 108, 50, LF] :=
  ⟨by decide, (normalize_unchanged [108, 49, LF, 108, 50, LF]).1 (by decide)⟩

/-- C8: when no line contains a CR, normalising the lines joined with any mix of
CR LF and LF terminators gives the same lines each terminated by LF. -/
theorem normalize_joinLines (lines : List (List Byte × Bool))
    (h : ∀ p ∈ lines, CR ∉ p.1) :
    NormalizeLineEndings (joinLines lines) =
      joinLines (lines.map (fun p => (p.1, false))) := by
  induction lines with
  | nil => rfl
  | cons p rest ih =>
    obtain ⟨line, crlf⟩ := p
    have hline : CR ∉ line := h (line, crlf) (by simp)
    have hrest : ∀ q ∈ rest, CR ∉ q.1 := fun q hq => h q (by simp [hq])
    simp only [joinLines, List.map_cons, List.append_assoc]
    rw [normalize_append_of_no_CR line hline, ← ih hrest]
    cases crlf with
    | true =>
      simp only [if_true, List.cons_append, List.nil_append]
      rw [normalize_crlf]
      simp
    | false =>
      simp only [Bool.false_eq_true, if_false, List.cons_append, List.nil_append]
      rw [normalize_cons LF _ (fun hc => CR_ne_LF hc.1.symm)]

/-- C8 at "line1\r\nline2\nline3\r\n", which becomes "line1\nline2\nline3\n". -/
theorem normalize_joinLines_witness :
    (∀ p ∈ [([108, 105, 110, 101, 49], true), ([108, 105, 110, 101, 50], false),
        ([108, 105, 110, 101, 51], true)], CR ∉ p.1) ∧
      NormalizeLineEndings
          [108, 105, 110, 101, 49, 13, 10, 108, 105, 110, 101, 50, 10,
            108, 105, 110, 101, 51, 13, 10] =
        [108, 105, 110, 101, 49, 10, 108, 105, 110, 101, 50, 10,
          108, 105, 110, 101, 51, 10] :=
  ⟨by decide,
    normalize_joinLines
      [([108, 105, 110, 101, 49], true), ([108, 105, 110, 101, 50], false),
        ([108, 105, 110, 101, 51], true)] (by decide)⟩


/-! ## Backup store -/

theorem replaceFrom_single {α : Type} [DecidableEq α] (x y : α) (l : List α) :
    replaceFrom [x] [y] 0 l = l.map (fun c => if c = x then y else c) := by
  induction l with
  | nil => rfl
  | cons a t ih =>
    by_cases h : a = x
    · subst h
      simp [replaceFrom, List.isPrefixOf, ih]
    · have h2 : ¬ x = a := fun e => h e.symm
      simp [replaceFrom, List.isPrefixOf, ih, h, h2]

theorem stringsReplaceAll_slash (remotePath : String) :
    stringsReplaceAll remotePath "/" "_" = sanitizeSpec remotePath := by
  simp only [stringsReplaceAll, sanitizeSpec]
  exact congrArg String.mk (replaceFrom_single '/' '_' remotePath.data)

theorem insertionSort_perm_sorted (l acc : List BackupInfo)
    (hacc : acc.Pairwise (fun a b => backupLess a b = false)) :
    (l.foldl (fun sortedRev x =>
        List.orderedInsert (fun a b => backupLess a b = false) x sortedRev) acc).Perm
        (l.reverse ++ acc) ∧
      (l.foldl (fun sortedRev x =>
        List.orderedInsert (fun a b => backupLess a b = false) x sortedRev) acc).Pairwise
        (fun a b => backupLess a b = false) := by
  induction l generalizing acc with
  | nil => exact ⟨by simp, hacc⟩
  | cons x t ih =>
    haveI : IsTotal BackupInfo (fun a b => backupLess a b = false) :=
      ⟨fun a b => by
        simp only [backupLess, Time.After, decide_eq_false_iff_not, not_lt]
        exact le_total _ _⟩
    haveI : IsTrans BackupInfo (fun a b => backupLess a b = false) :=
      ⟨fun a b c => by
        simp only [backupLess, Time.After, decide_eq_false_iff_not, not_lt]
        exact fun h1 h2 => le_trans h1 h2⟩
    have hs := List.Sorted.orderedInsert (r := fun a b => backupLess a b = false) x acc hacc
    obtain ⟨hp, hq⟩ := ih _ hs
    refine ⟨?_, hq⟩
    simp only [List.foldl_cons, List.reverse_cons, List.append_assoc, List.singleton_append]
    exact hp.trans (List.Perm.append_left _
      (List.perm_orderedInsert (fun a b => backupLess a b = false) x acc))

theorem insertionSort_contract : SortSliceContract (insertionSortLessFunc backupLess) := by
  intro l
  obtain ⟨hp, hq⟩ := insertionSort_perm_sorted l [] List.Pairwise.nil
  constructor
  · unfold insertionSortLessFunc
    exact (List.reverse_perm _).trans (hp.trans (by simp))
  · unfold insertionSortLessFunc
    rw [List.pairwise_reverse]
    exact hq

theorem firstWithPrefix_some (pfx : String) (l : List BackupInfo) (p : String)
    (h : firstWithPrefix pfx l = some p) :
    ∃ l1 b l2, l = l1 ++ b :: l2 ∧ b.Path = p ∧
      stringsHasPrefix (filepathBase b.Path) pfx = true ∧
      ∀ x ∈ l1, stringsHasPrefix (filepathBase x.Path) pfx = false := by
  induction l with
  | nil => simp [firstWithPrefix] at h
  | cons a t ih =>
    by_cases ha : stringsHasPrefix (filepathBase a.Path) pfx = true
    · simp only [firstWithPrefix, ha, if_true, Option.some.injEq] at h
      exact ⟨[], a, t, rfl, h, ha, by simp⟩
    · simp only [firstWithPrefix, ha, if_false] at h
      obtain ⟨l1, b, l2, hl, hb, hm, hpre⟩ := ih h
      refine ⟨a :: l1, b, l2, by simp [hl], hb, hm, ?_⟩
      intro x hx
      rcases List.mem_cons.mp hx with rfl | hx
      · simpa using ha
      · exact hpre x hx

theorem firstWithPrefix_none_iff (pfx : String) (l : List BackupInfo) :
    firstWithPrefix pfx l = none ↔
      ∀ b ∈ l, stringsHasPrefix (filepathBase b.Path) pfx = false := by
  induction l with
  | nil => simp [firstWithPrefix]
  | cons a t ih =>
    by_cases ha : stringsHasPrefix (filepathBase a.Path) pfx = true
    · simp [firstWithPrefix, ha]
    · simp only [firstWithPrefix, ha, if_false, List.mem_cons, forall_eq_or_imp]
      simp at ha
      simp [ha, ih]


theorem ListBackups_sorted {σ : Type} (env : Collab σ)
    (sortSlice : List BackupInfo → List BackupInfo) (hsort : SortSliceContract sortSlice)
    (w : World σ) :
    (ListBackups env sortSlice w).1.1.Pairwise (fun a b => backupLess b a = false) := by
  unfold ListBackups
  split
  · exact List.Pairwise.nil
  · exact List.Pairwise.nil
  · exact (hsort _).2

theorem findLatestBackup_eq {σ : Type} (env : Collab σ)
    (sortSlice : List BackupInfo → List BackupInfo) (host remotePath : String) (w : World σ) :
    (findLatestBackup env sortSlice host remotePath w).1 =
      match (ListBackups env sortSlice w).1.2 with
      | some err => ("", some err)
      | none =>
        match firstWithPrefix (host ++ sanitizeSpec remotePath)
            (ListBackups env sortSlice w).1.1 with
        | some path => (path, none)
        | none => ("", some ("no backup found for " ++ remotePath ++ " on " ++ host)) := by
  unfold findLatestBackup
  rw [stringsReplaceAll_slash]
  rcases hl : ListBackups env sortSlice w with ⟨⟨backups, _ | err⟩, w1⟩
  · simp only
    cases firstWithPrefix (host ++ sanitizeSpec remotePath) backups <;> rfl
  · rfl

/-- C9: when `findLatestBackup` succeeds, the path it returns is that of a listed
backup whose base name starts with host + sanitize(remotePath) and whose timestamp
is not earlier than that of any listed backup with this prefix; so a listed backup
with the prefix that is strictly newer than all the others is the one returned. -/
theorem findLatestBackup_latest {σ : Type} (env : Collab σ)
    (sortSlice : List BackupInfo → List BackupInfo) (hsort : SortSliceContract sortSlice)
    (host remotePath : String) (w : World σ)
    (hok : (findLatestBackup env sortSlice host remotePath w).1.2 = none) :
    (∃ b ∈ (ListBackups env sortSlice w).1.1,
      b.Path = (findLatestBackup env sortSlice host remotePath w).1.1 ∧
      stringsHasPrefix (filepathBase b.Path) (host ++ sanitizeSpec remotePath) = true ∧
      ∀ b' ∈ (ListBackups env sortSlice w).1.1,
        stringsHasPrefix (filepathBase b'.Path) (host ++ sanitizeSpec remotePath) = true →
        b'.Timestamp.nanos ≤ b.Timestamp.nanos) ∧
    ∀ b3 ∈ (ListBackups env sortSlice w).1.1,
      stringsHasPrefix (filepathBase b3.Path) (host ++ sanitizeSpec remotePath) = true →
      (∀ b' ∈ (ListBackups env sortSlice w).1.1,
        stringsHasPrefix (filepathBase b'.Path) (host ++ sanitizeSpec remotePath) = true →
        b' ≠ b3 → b'.Timestamp.nanos < b3.Timestamp.nanos) →
      (findLatestBackup env sortSlice host remotePath w).1.1 = b3.Path := by
  have hsorted := ListBackups_sorted env sortSlice hsort w
  have heq := findLatestBackup_eq env sortSlice host remotePath w
  have main : ∃ b ∈ (ListBackups env sortSlice w).1.1,
      b.Path = (findLatestBackup env sortSlice host remotePath w).1.1 ∧
      stringsHasPrefix (filepathBase b.Path) (host ++ sanitizeSpec remotePath) = true ∧
      ∀ b' ∈ (ListBackups env sortSlice w).1.1,
        stringsHasPrefix (filepathBase b'.Path) (host ++ sanitizeSpec remotePath) = true →
        b'.Timestamp.nanos ≤ b.Timestamp.nanos := by
    rw [heq] at hok ⊢
    cases hle : (ListBackups env sortSlice w).1.2 with
    | some err => simp [hle] at hok
    | none =>
      simp only [hle] at hok ⊢
      cases hf : firstWithPrefix (host ++ sanitizeSpec remotePath)
          (ListBackups env sortSlice w).1.1 with
      | none => simp [hf] at hok
      | some path =>
        obtain ⟨l1, b, l2, hl, hb, hm, hpre⟩ := firstWithPrefix_some _ _ _ hf
        rw [hl] at hsorted
        refine ⟨b, by rw [hl]; simp, hb, hm, ?_⟩
        intro b' hb' hm'
        rw [hl] at hb'
        rcases List.mem_append.mp hb' with h1 | h2
        · rw [hpre b' h1] at hm'
          exact absurd hm' (by simp)
        · rcases List.mem_cons.mp h2 with rfl | h3
          · exact le_rfl
          · have hp := (List.pairwise_append.mp hsorted).2.1
            have := List.rel_of_pairwise_cons hp h3
            simpa [backupLess, Time.After] using this
  refine ⟨main, ?_⟩
  intro b3 hb3 hm3 hnew
  obtain ⟨b, hb, hpath, hm, hmax⟩ := main
  by_cases hbb : b = b3
  · rw [← hpath, hbb]
  · have h1 := hnew b hb hm hbb
    have h2 := hmax b3 hb3 hm3
    omega

/-- C9 for backups of ("web", "/etc/app.conf") at T1 < T2 < T3, listed out of
order among others: the T3 backup is returned. -/
theorem findLatestBackup_latest_witness :
    (findLatestBackup ({ dir := dirThreeBackups } : Scenario).collab
        (insertionSortLessFunc backupLess) "web" "/etc/app.conf" World.start).1 =
      ("backups/web_etc_app.conf_20250101-000003", none) ∧
    ∃ b ∈ (ListBackups ({ dir := dirThreeBackups } : Scenario).collab
        (insertionSortLessFunc backupLess) World.start).1.1,
      b.Path = (findLatestBackup ({ dir := dirThreeBackups } : Scenario).collab
        (insertionSortLessFunc backupLess) "web" "/etc/app.conf" World.start).1.1 ∧
      stringsHasPrefix (filepathBase b.Path) ("web" ++ sanitizeSpec "/etc/app.conf") = true ∧
      ∀ b' ∈ (ListBackups ({ dir := dirThreeBackups } : Scenario).collab
          (insertionSortLessFunc backupLess) World.start).1.1,
        stringsHasPrefix (filepathBase b'.Path) ("web" ++ sanitizeSpec "/etc/app.conf") = true →
        b'.Timestamp.nanos ≤ b.Timestamp.nanos :=
  ⟨by decide,
    (findLatestBackup_latest ({ dir := dirThreeBackups } : Scenario).collab
      (insertionSortLessFunc backupLess) insertionSort_contract "web" "/etc/app.conf"
      World.start (by decide)).1⟩

/-- C10: when the backup directory can be listed, `findLatestBackup` fails exactly
when no listed backup has a base name starting with host + sanitize(remotePath),
`sanitize` replacing every "/" by "_"; and whenever it fails the returned path is
empty. -/
theorem findLatestBackup_fails_iff {σ : Type} (env : Collab σ)
    (sortSlice : List BackupInfo → List BackupInfo) (host remotePath : String) (w : World σ) :
    ((ListBackups env sortSlice w).1.2 = none →
      ((findLatestBackup env sortSlice host remotePath w).1.2 ≠ none ↔
        ∀ b ∈ (ListBackups env sortSlice w).1.1,
          stringsHasPrefix (filepathBase b.Path) (host ++ sanitizeSpec remotePath) = false)) ∧
    ((findLatestBackup env sortSlice host remotePath w).1.2 ≠ none →
      (findLatestBackup env sortSlice host remotePath w).1.1 = "") := by
  rw [findLatestBackup_eq]
  constructor
  · intro hl
    rw [← firstWithPrefix_none_iff]
    simp only [hl]
    cases firstWithPrefix (host ++ sanitizeSpec remotePath) (ListBackups env sortSlice w).1.1
      <;> simp
  · cases (ListBackups env sortSlice w).1.2 with
    | some err => simp
    | none =>
      simp only
      cases firstWithPrefix (host ++ sanitizeSpec remotePath)
        (ListBackups env sortSlice w).1.1 <;> simp

/-- C10 for a key without backups: the directory holds backups of
("web", "/etc/app.conf") only, and the lookup of ("db", "/etc/app.conf") fails with
an empty path. -/
theorem findLatestBackup_fails_iff_witness :
    (ListBackups ({ dir := dirThreeBackups } : Scenario).collab
        (insertionSortLessFunc backupLess) World.start).1.2 = none ∧
    (findLatestBackup ({ dir := dirThreeBackups } : Scenario).collab
        (insertionSortLessFunc backupLess) "db" "/etc/app.conf" World.start).1.2 ≠ none ∧
    (findLatestBackup ({ dir := dirThreeBackups } : Scenario).collab
        (insertionSortLessFunc backupLess) "db" "/etc/app.conf" World.start).1.1 = "" :=
  ⟨by decide,
    ((findLatestBackup_fails_iff ({ dir := dirThreeBackups } : Scenario).collab
      (insertionSortLessFunc backupLess) "db" "/etc/app.conf" World.start).1 (by decide)).mpr
      (by decide),
    (findLatestBackup_fails_iff ({ dir := dirThreeBackups } : Scenario).collab
      (insertionSortLessFunc backupLess) "db" "/etc/app.conf" World.start).2 (by decide)⟩


/-! ## Orchestration -/

theorem callsSince_of_log {σ : Type} (w w2 : World σ) (evs : List Event)
    (h : w2.log = w.log ++ evs) : callsSince w w2 = evs := by
  simp [callsSince, h]

theorem FileExists_log {σ : Type} (env : Collab σ) (t : SFTPTransfer) (p : String)
    (w : World σ) :
    (FileExists env t p w).2.log = w.log ++ [Event.fileExists t p (FileExists env t p w).1] :=
  rfl

theorem Now_log {σ : Type} (env : Collab σ) (w : World σ) :
    (Now env w).2.log = w.log ++ [Event.now] := rfl

theorem MkdirAll_log {σ : Type} (env : Collab σ) (p : String) (w : World σ) :
    (MkdirAll env p w).2.log = w.log ++ [Event.mkdirAll p (MkdirAll env p w).1.isNone] := rfl

theorem Download_log {σ : Type} (env : Collab σ) (t : SFTPTransfer) (p lp : String)
    (w : World σ) :
    (Download env t p lp w).2.log =
      w.log ++ [Event.download t p lp (Download env t p lp w).1.isNone] := rfl

theorem UploadBytes_log {σ : Type} (env : Collab σ) (t : SFTPTransfer) (d : List Byte)
    (p : String) (w : World σ) :
    (UploadBytes env t d p w).2.log =
      w.log ++ [Event.uploadBytes t d p (UploadBytes env t d p w).1.isNone] := rfl

theorem ReadFile_log {σ : Type} (env : Collab σ) (p : String) (w : World σ) :
    (ReadFile env p w).2.log = w.log ++ [Event.readFile p (isOk (ReadFile env p w).1)] := rfl

theorem Execute_log {σ : Type} (env : Collab σ) (c : SSHClient) (cmd : String) (w : World σ) :
    (Execute env c cmd w).2.log =
      w.log ++ [Event.execute c cmd (Execute env c cmd w).1.2.isNone] := rfl

theorem CreateBackup_spec {σ : Type} (env : Collab σ) (t : SFTPTransfer)
    (p host : String) (w : World σ) :
    ∃ evs, (CreateBackup env t p host w).2.log = w.log ++ evs ∧
      (∀ e ∈ evs, e.isUpload = false ∧ e.isExecute = false) ∧
      ((CreateBackup env t p host w).1.2 = none →
        Event.fileExists t p false ∈ evs ∨ ∃ lp, Event.download t p lp true ∈ evs) ∧
      evs.filterMap Event.existsPath = [p] := by
  unfold CreateBackup
  have l1 := FileExists_log env t p w
  rcases hfe : FileExists env t p w with ⟨b, w1⟩
  rw [hfe] at l1
  cases b
  · exact ⟨_, l1, by simp [Event.isUpload, Event.isExecute], fun _ => Or.inl (by simp),
      by simp [Event.existsPath]⟩
  · have l2 := Now_log env w1
    rcases hnow : Now env w1 with ⟨now, w2⟩
    rw [hnow] at l2
    have l3 := MkdirAll_log env backupDir w2
    rcases hmk : MkdirAll env backupDir w2 with ⟨_ | err, w3⟩
    · rw [hmk] at l3
      have l4 := Download_log env t p
        (filepathJoin backupDir (host ++ stringsReplaceAll p "/" "_" ++ "_" ++ now.Format)) w3
      rcases hd : Download env t p
        (filepathJoin backupDir (host ++ stringsReplaceAll p "/" "_" ++ "_" ++ now.Format)) w3
        with ⟨_ | err, w4⟩
      · rw [hd] at l4
        simp only [hnow, hmk, hd] at l1 l2 l3 l4 ⊢
        refine ⟨_, by rw [l4, l3, l2, l1, List.append_assoc, List.append_assoc,
          List.append_assoc], ?_, ?_, by simp [Event.existsPath]⟩
        · simp [Event.isUpload, Event.isExecute]
        · intro _
          exact Or.inr
            ⟨filepathJoin backupDir (host ++ stringsReplaceAll p "/" "_" ++ "_" ++ now.Format),
              by simp⟩
      · rw [hd] at l4
        simp only [hnow, hmk, hd] at l1 l2 l3 l4 ⊢
        refine ⟨_, by rw [l4, l3, l2, l1, List.append_assoc, List.append_assoc,
          List.append_assoc], ?_, ?_, by simp [Event.existsPath]⟩
        · simp [Event.isUpload, Event.isExecute]
        · intro h
          simp at h
    · rw [hmk] at l3
      simp only [hnow, hmk] at l1 l2 l3 ⊢
      refine ⟨_, by rw [l3, l2, l1, List.append_assoc, List.append_assoc], ?_, ?_,
        by simp [Event.existsPath]⟩
      · simp [Event.isUpload, Event.isExecute]
      · intro h
        simp at h


theorem backsUp_iff (t : SFTPTransfer) (p : String) (x : Event) :
    x.backsUp t p = true ↔
      x = Event.fileExists t p false ∨ ∃ lp, x = Event.download t p lp true := by
  cases x <;> simp [Event.backsUp]
  · constructor
    · rintro ⟨⟨h1, h2⟩, h3⟩
      exact ⟨h1, h2, h3⟩
    · rintro ⟨h1, h2, h3⟩
      exact ⟨⟨h1, h2⟩, h3⟩
  · constructor
    · rintro ⟨⟨h1, h2⟩, h3⟩
      exact ⟨h1, h2, h3⟩
    · rintro ⟨h1, h2, h3⟩
      exact ⟨⟨h1, h2⟩, h3⟩

theorem uploadsBackedUp_append (seen a b : List Event) :
    uploadsBackedUp seen (a ++ b) =
      (uploadsBackedUp seen a && uploadsBackedUp (seen ++ a) b) := by
  induction a generalizing seen with
  | nil => simp [uploadsBackedUp]
  | cons e rest ih =>
    rw [List.cons_append]
    simp only [uploadsBackedUp]
    rw [ih]
    simp [Bool.and_assoc]

theorem uploadsBackedUp_of_no_upload (seen a : List Event)
    (h : ∀ e ∈ a, e.isUpload = false) : uploadsBackedUp seen a = true := by
  induction a generalizing seen with
  | nil => rfl
  | cons e rest ih =>
    have he : e.isUpload = false := h e (by simp)
    have hr := ih (seen ++ [e]) (fun x hx => h x (by simp [hx]))
    clear h ih
    cases e <;> first
      | (simp [Event.isUpload] at he; done)
      | simp [uploadsBackedUp, hr]

theorem uploadsBackedUp_sound (seen evs : List Event) (h : uploadsBackedUp seen evs = true)
    (pre post : List Event) (t : SFTPTransfer) (d : List Byte) (p : String) (ok : Bool)
    (heq : evs = pre ++ Event.uploadBytes t d p ok :: post) :
    ∃ x ∈ seen ++ pre, x.backsUp t p = true := by
  induction evs generalizing seen pre with
  | nil => simp at heq
  | cons e rest ih =>
    simp only [uploadsBackedUp, Bool.and_eq_true] at h
    cases pre with
    | nil =>
      simp only [List.nil_append, List.cons.injEq] at heq
      obtain ⟨rfl, _⟩ := heq
      simpa using h.1
    | cons a pre2 =>
      simp only [List.cons_append, List.cons.injEq] at heq
      obtain ⟨rfl, hrest⟩ := heq
      obtain ⟨x, hx, hb⟩ := ih (seen ++ [e]) h.2 pre2 hrest
      exact ⟨x, by simpa using hx, hb⟩

theorem BackupBeforeUpload_of_check (evs : List Event) (h : uploadsBackedUp [] evs = true) :
    BackupBeforeUpload evs := by
  intro pre post t d p ok heq
  obtain ⟨x, hx, hb⟩ := uploadsBackedUp_sound [] evs h pre post t d p ok heq
  simp only [List.nil_append] at hx
  rcases (backsUp_iff t p x).mp hb with rfl | ⟨lp, rfl⟩
  · exact Or.inl hx
  · exact Or.inr ⟨lp, hx⟩

theorem pipeline_backedUp (evs1 mid rest : List Event) (t : SFTPTransfer) (d : List Byte)
    (p : String) (ok : Bool)
    (h1 : ∀ e ∈ evs1, e.isUpload = false ∧ e.isExecute = false)
    (hb : Event.fileExists t p false ∈ evs1 ∨ ∃ lp, Event.download t p lp true ∈ evs1)
    (hmid : ∀ e ∈ mid, e.isUpload = false) (hrest : ∀ e ∈ rest, e.isUpload = false) :
    uploadsBackedUp [] (evs1 ++ (mid ++ Event.uploadBytes t d p ok :: rest)) = true := by
  rw [uploadsBackedUp_append, uploadsBackedUp_append,
    uploadsBackedUp_of_no_upload _ evs1 (fun e he => (h1 e he).1),
    uploadsBackedUp_of_no_upload _ mid hmid]
  simp only [uploadsBackedUp, Bool.true_and, Bool.and_eq_true, List.any_eq_true]
  refine ⟨?_, uploadsBackedUp_of_no_upload _ rest hrest⟩
  rcases hb with hb | ⟨lp, hb⟩
  · exact ⟨_, by simp [hb], (backsUp_iff t p _).mpr (Or.inl rfl)⟩
  · exact ⟨_, by simp [hb], (backsUp_iff t p _).mpr (Or.inr ⟨lp, rfl⟩)⟩

theorem NormalizeFile_spec {σ : Type} (env : Collab σ) (p : String) (w : World σ) :
    ∃ ok, (NormalizeFile env p w).2.log = w.log ++ [Event.readFile p ok] := by
  unfold NormalizeFile
  have l := ReadFile_log env p w
  rcases h : ReadFile env p w with ⟨_ | _, w1⟩ <;> rw [h] at l <;> exact ⟨_, l⟩


theorem deploySingleFile_spec {σ : Type} (env : Collab σ) (c : SSHClient) (t : SFTPTransfer)
    (s : ServerConfig) (f : FileConfig) (w : World σ) :
    ∃ evs, (deploySingleFile env c t s f w).2.log = w.log ++ evs ∧
      uploadsBackedUp [] evs = true ∧
      ((CreateBackup env t f.Remote s.Host w).1.2 ≠ none →
        (deploySingleFile env c t s f w).1.Status = "error" ∧
          ∀ e ∈ evs, e.isUpload = false ∧ e.isExecute = false) ∧
      evs.filterMap Event.existsPath = [f.Remote] := by
  obtain ⟨evs1, l1, hno1, hb1, hex1⟩ := CreateBackup_spec env t f.Remote s.Host w
  unfold deploySingleFile
  rcases hcb : CreateBackup env t f.Remote s.Host w with ⟨⟨bp, _ | err⟩, w1⟩
  · rw [hcb] at l1 hb1
    replace hb1 := hb1 rfl
    simp only at l1 ⊢
    obtain ⟨okr, l2⟩ := NormalizeFile_spec env f.Local w1
    rcases hn : NormalizeFile env f.Local w1 with ⟨⟨data, _ | err⟩, w2⟩
    · rw [hn] at l2
      simp only at l2 ⊢
      have l3 := UploadBytes_log env t data f.Remote w2
      rcases hu : UploadBytes env t data f.Remote w2 with ⟨_ | err, w3⟩
      · rw [hu] at l3
        simp only at l3 ⊢
        by_cases hr : f.Restart = ""
        · simp only [hr, ne_eq, not_true_eq_false, if_false]
          refine ⟨evs1 ++ ([Event.readFile f.Local okr] ++
            Event.uploadBytes t data f.Remote true :: []), ?_, ?_, ?_, by simp [List.filterMap_append, hex1, Event.existsPath]⟩
          · rw [l3, l2, l1]; simp
          · exact pipeline_backedUp _ _ _ _ _ _ _ hno1 hb1
              (by simp [Event.isUpload]) (by simp)
          · intro h; exact False.elim h
        · simp only [hr, ne_eq, not_false_eq_true, if_true]
          have l4 := Execute_log env c f.Restart w3
          rcases he : Execute env c f.Restart w3 with ⟨⟨out, _ | err⟩, w4⟩ <;>
            rw [he] at l4 <;> simp only at l4 ⊢
          · refine ⟨evs1 ++ ([Event.readFile f.Local okr] ++
              Event.uploadBytes t data f.Remote true :: [Event.execute c f.Restart true]),
              ?_, ?_, ?_, by simp [List.filterMap_append, hex1, Event.existsPath]⟩
            · rw [l4, l3, l2, l1]; simp
            · exact pipeline_backedUp _ _ _ _ _ _ _ hno1 hb1
                (by simp [Event.isUpload]) (by simp [Event.isUpload])
            · intro h; exact absurd trivial h
          · refine ⟨evs1 ++ ([Event.readFile f.Local okr] ++
              Event.uploadBytes t data f.Remote true :: [Event.execute c f.Restart false]),
              ?_, ?_, ?_, by simp [List.filterMap_append, hex1, Event.existsPath]⟩
            · rw [l4, l3, l2, l1]; simp
            · exact pipeline_backedUp _ _ _ _ _ _ _ hno1 hb1
                (by simp [Event.isUpload]) (by simp [Event.isUpload])
            · intro h; exact absurd trivial h
      · rw [hu] at l3
        simp only at l3 ⊢
        refine ⟨evs1 ++ ([Event.readFile f.Local okr] ++
          Event.uploadBytes t data f.Remote false :: []), ?_, ?_, ?_, by simp [List.filterMap_append, hex1, Event.existsPath]⟩
        · rw [l3, l2, l1]; simp
        · exact pipeline_backedUp _ _ _ _ _ _ _ hno1 hb1
            (by simp [Event.isUpload]) (by simp)
        · intro h; exact absurd rfl h
    · rw [hn] at l2
      simp only at l2 ⊢
      refine ⟨evs1 ++ [Event.readFile f.Local okr], ?_, ?_, ?_, by simp [List.filterMap_append, hex1, Event.existsPath]⟩
      · rw [l2, l1]; simp
      · refine uploadsBackedUp_of_no_upload _ _ ?_
        intro e he
        rcases List.mem_append.mp he with h | h
        · exact (hno1 e h).1
        · simp at h; subst h; rfl
      · intro h; exact absurd rfl h
  · rw [hcb] at l1
    simp only at l1 ⊢
    exact ⟨evs1, l1, uploadsBackedUp_of_no_upload _ _ (fun e he => (hno1 e he).1),
      fun _ => ⟨trivial, hno1⟩, hex1⟩


theorem executeFileStep_spec {σ : Type} (env : Collab σ) (t : SFTPTransfer)
    (step : TaskStep) (host : String) (w : World σ) :
    ∃ evs, (executeFileStep env t step host w).2.log = w.log ++ evs ∧
      uploadsBackedUp [] evs = true ∧
      (∀ e ∈ evs, e.isExecute = false) ∧
      ((CreateBackup env t step.Remote host w).1.2 ≠ none →
        (executeFileStep env t step host w).1.Status = "error" ∧
          ∀ e ∈ evs, e.isUpload = false) := by
  obtain ⟨evs1, l1, hno1, hb1, -⟩ := CreateBackup_spec env t step.Remote host w
  unfold executeFileStep
  rcases hcb : CreateBackup env t step.Remote host w with ⟨⟨bp, _ | err⟩, w1⟩
  · rw [hcb] at l1 hb1
    replace hb1 := hb1 rfl
    simp only at l1 ⊢
    obtain ⟨okr, l2⟩ := NormalizeFile_spec env step.Local w1
    rcases hn : NormalizeFile env step.Local w1 with ⟨⟨data, _ | err⟩, w2⟩
    · rw [hn] at l2
      simp only at l2 ⊢
      have l3 := UploadBytes_log env t data step.Remote w2
      rcases hu : UploadBytes env t data step.Remote w2 with ⟨_ | err, w3⟩ <;>
        rw [hu] at l3 <;> simp only at l3 ⊢
      · refine ⟨evs1 ++ ([Event.readFile step.Local okr] ++
          Event.uploadBytes t data step.Remote true :: []), ?_, ?_, ?_, ?_⟩
        · rw [l3, l2, l1]; simp
        · exact pipeline_backedUp _ _ _ _ _ _ _ hno1 hb1
            (by simp [Event.isUpload]) (by simp)
        · intro e he
          rcases List.mem_append.mp he with h | h
          · exact (hno1 e h).2
          · simp at h; rcases h with rfl | rfl <;> rfl
        · intro h; exact absurd rfl h
      · refine ⟨evs1 ++ ([Event.readFile step.Local okr] ++
          Event.uploadBytes t data step.Remote false :: []), ?_, ?_, ?_, ?_⟩
        · rw [l3, l2, l1]; simp
        · exact pipeline_backedUp _ _ _ _ _ _ _ hno1 hb1
            (by simp [Event.isUpload]) (by simp)
        · intro e he
          rcases List.mem_append.mp he with h | h
          · exact (hno1 e h).2
          · simp at h; rcases h with rfl | rfl <;> rfl
        · intro h; exact absurd rfl h
    · rw [hn] at l2
      simp only at l2 ⊢
      refine ⟨evs1 ++ [Event.readFile step.Local okr], ?_, ?_, ?_, ?_⟩
      · rw [l2, l1]; simp
      · refine uploadsBackedUp_of_no_upload _ _ ?_
        intro e he
        rcases List.mem_append.mp he with h | h
        · exact (hno1 e h).1
        · simp at h; subst h; rfl
      · intro e he
        rcases List.mem_append.mp he with h | h
        · exact (hno1 e h).2
        · simp at h; subst h; rfl
      · intro h; exact absurd rfl h
  · rw [hcb] at l1
    simp only at l1 ⊢
    exact ⟨evs1, l1, uploadsBackedUp_of_no_upload _ _ (fun e he => (hno1 e he).1),
      fun e he => (hno1 e he).2, fun _ => ⟨trivial, fun e he => (hno1 e he).1⟩⟩

theorem pushFile_spec {σ : Type} (env : Collab σ) (result : PushResult) (t : SFTPTransfer)
    (server : ServerConfig) (lp rp : String) (w : World σ) :
    ∃ evs, (pushFile env result t server lp rp w).2.log = w.log ++ evs ∧
      uploadsBackedUp [] evs = true ∧
      ((CreateBackup env t rp server.Host w).1.2 ≠ none →
        (pushFile env result t server lp rp w).1.Status = "error" ∧
          ∀ e ∈ evs, e.isUpload = false) := by
  obtain ⟨evs1, l1, hno1, hb1, -⟩ := CreateBackup_spec env t rp server.Host w
  unfold pushFile
  rcases hcb : CreateBackup env t rp server.Host w with ⟨⟨bp, _ | err⟩, w1⟩
  · rw [hcb] at l1 hb1
    replace hb1 := hb1 rfl
    simp only at l1 ⊢
    obtain ⟨okr, l2⟩ := NormalizeFile_spec env lp w1
    rcases hn : NormalizeFile env lp w1 with ⟨⟨data, _ | err⟩, w2⟩
    · rw [hn] at l2
      simp only at l2 ⊢
      have l3 := UploadBytes_log env t data rp w2
      rcases hu : UploadBytes env t data rp w2 with ⟨_ | err, w3⟩ <;>
        rw [hu] at l3 <;> simp only at l3 ⊢
      · refine ⟨evs1 ++ ([Event.readFile lp okr] ++
          Event.uploadBytes t data rp true :: []), ?_, ?_, ?_⟩
        · rw [l3, l2, l1]; simp
        · exact pipeline_backedUp _ _ _ _ _ _ _ hno1 hb1
            (by simp [Event.isUpload]) (by simp)
        · intro h; exact absurd rfl h
      · refine ⟨evs1 ++ ([Event.readFile lp okr] ++
          Event.uploadBytes t data rp false :: []), ?_, ?_, ?_⟩
        · rw [l3, l2, l1]; simp
        · exact pipeline_backedUp _ _ _ _ _ _ _ hno1 hb1
            (by simp [Event.isUpload]) (by simp)
        · intro h; exact absurd rfl h
    · rw [hn] at l2
      simp only at l2 ⊢
      refine ⟨evs1 ++ [Event.readFile lp okr], ?_, ?_, ?_⟩
      · rw [l2, l1]; simp
      · refine uploadsBackedUp_of_no_upload _ _ ?_
        intro e he
        rcases List.mem_append.mp he with h | h
        · exact (hno1 e h).1
        · simp at h; subst h; rfl
      · intro h; exact absurd rfl h
  · rw [hcb] at l1
    simp only at l1 ⊢
    exact ⟨evs1, l1, uploadsBackedUp_of_no_upload _ _ (fun e he => (hno1 e he).1),
      fun _ => ⟨trivial, fun e he => (hno1 e he).1⟩⟩

theorem uploadsBackedUp_mono (s0 s1 evs : List Event) (h : uploadsBackedUp s1 evs = true) :
    uploadsBackedUp (s0 ++ s1) evs = true := by
  induction evs generalizing s1 with
  | nil => rfl
  | cons e rest ih =>
    simp only [uploadsBackedUp, Bool.and_eq_true] at h ⊢
    refine ⟨?_, by simpa using ih (s1 ++ [e]) h.2⟩
    cases e <;> first
      | rfl
      | (have h1 := h.1
         simp only [List.any_eq_true] at h1 ⊢
         obtain ⟨x, hx, hb⟩ := h1
         exact ⟨x, List.mem_append_right _ hx, hb⟩)

theorem ExpandHome_spec {σ : Type} (env : Collab σ) (path : String) (w : World σ) :
    ∃ evs, (ExpandHome env path w).2.log = w.log ++ evs ∧ ∀ e ∈ evs, e = Event.userHomeDir := by
  unfold ExpandHome
  split
  · rcases h : UserHomeDir env w with ⟨_ | _, w1⟩ <;>
      exact ⟨[Event.userHomeDir], by
        have := congrArg (fun r => r.2.log) h
        simpa [UserHomeDir] using this.symm, by simp⟩
  · exact ⟨[], by simp, by simp⟩

theorem ResolveHost_spec {σ : Type} (env : Collab σ) (cfg : ClientConfig) (a : String)
    (w : World σ) :
    ∃ evs, (ResolveHost env cfg a w).2.log = w.log ++ evs ∧
      ∀ e ∈ evs, e = Event.userHomeDir := by
  unfold ResolveHost
  split
  · exact ⟨[], by simp, by simp⟩
  · exact ExpandHome_spec env _ w


theorem NewSSHClient_log {σ : Type} (env : Collab σ) (host user : String) (auth : SSHAuth)
    (w : World σ) :
    (NewSSHClient env host user auth w).2.log =
      w.log ++ [Event.newSSHClient host user auth (isOk (NewSSHClient env host user auth w).1)] :=
  rfl

theorem NewSFTPTransfer_log {σ : Type} (env : Collab σ) (c : SSHClient) (w : World σ) :
    (NewSFTPTransfer env c w).2.log =
      w.log ++ [Event.newSFTPTransfer c (isOk (NewSFTPTransfer env c w).1)] := rfl

theorem ExecutePush_spec {σ : Type} (env : Collab σ) (cfg : ClientConfig)
    (a lp rp : String) (dryRun : Bool) (w : World σ) :
    ∃ evs, (ExecutePush env cfg a lp rp dryRun w).2.log = w.log ++ evs ∧
      uploadsBackedUp [] evs = true ∧
      ∀ server w1 client w2 transfer w3,
        dryRun = false →
        ResolveHost env cfg a w = ((server, none), w1) →
        NewSSHClient env server.Host server.User
          { KeyPath := server.Key, Password := server.Password } w1 = (.ok client, w2) →
        NewSFTPTransfer env client w2 = (.ok transfer, w3) →
        (CreateBackup env transfer rp server.Host w3).1.2 ≠ none →
        (ExecutePush env cfg a lp rp dryRun w).1.Status = "error" ∧
          ∀ e ∈ evs, e.isUpload = false := by
  obtain ⟨evsR, lR, hR⟩ := ResolveHost_spec env cfg a w
  have hRno : ∀ e ∈ evsR, e.isUpload = false := fun e he => by rw [hR e he]; rfl
  unfold ExecutePush
  rcases hres : ResolveHost env cfg a w with ⟨⟨server, _ | err⟩, w1⟩
  · rw [hres] at lR
    simp only at lR ⊢
    cases dryRun with
    | true =>
      simp only [if_true]
      exact ⟨evsR, lR, uploadsBackedUp_of_no_upload _ _ hRno,
        fun _ _ _ _ _ _ h => absurd h (by simp)⟩
    | false =>
      simp only [Bool.false_eq_true, if_false]
      have lC := NewSSHClient_log env server.Host server.User
        { KeyPath := server.Key, Password := server.Password } w1
      rcases hcl : NewSSHClient env server.Host server.User
        { KeyPath := server.Key, Password := server.Password } w1 with ⟨_ | client, w2⟩
      · rw [hcl] at lC
        simp only at lC ⊢
        refine ⟨evsR ++ [Event.newSSHClient server.Host server.User
          { KeyPath := server.Key, Password := server.Password } false], ?_, ?_, ?_⟩
        · rw [lC, lR]; simp [isOk]
        · refine uploadsBackedUp_of_no_upload _ _ ?_
          intro e he
          rcases List.mem_append.mp he with h | h
          · exact hRno e h
          · simp at h; subst h; rfl
        · intro server2 w12 client2 w22 transfer2 w32 _ h1 h2
          simp only [Prod.mk.injEq] at h1
          obtain ⟨⟨rfl, -⟩, rfl⟩ := h1
          rw [hcl] at h2
          simp at h2
      · rw [hcl] at lC
        simp only at lC ⊢
        have lT := NewSFTPTransfer_log env client w2
        rcases hsf : NewSFTPTransfer env client w2 with ⟨_ | transfer, w3⟩
        · rw [hsf] at lT
          simp only at lT ⊢
          refine ⟨evsR ++ [Event.newSSHClient server.Host server.User
            { KeyPath := server.Key, Password := server.Password } true,
            Event.newSFTPTransfer client false, Event.clientClose client], ?_, ?_, ?_⟩
          · simp [ClientClose, lT, lC, lR, isOk]
          · refine uploadsBackedUp_of_no_upload _ _ ?_
            intro e he
            rcases List.mem_append.mp he with h | h
            · exact hRno e h
            · simp at h; rcases h with rfl | rfl | rfl <;> rfl
          · intro server2 w12 client2 w22 transfer2 w32 _ h1 h2 h3
            simp only [Prod.mk.injEq] at h1
            obtain ⟨⟨rfl, -⟩, rfl⟩ := h1
            rw [hcl] at h2
            simp only [Prod.mk.injEq, Except.ok.injEq] at h2
            obtain ⟨rfl, rfl⟩ := h2
            rw [hsf] at h3
            simp at h3
        · rw [hsf] at lT
          simp only at lT ⊢
          obtain ⟨evsP, lP, hP, hPfail⟩ := pushFile_spec env
            { Server := a, File := rp } transfer server lp rp w3
          refine ⟨(evsR ++ [Event.newSSHClient server.Host server.User
            { KeyPath := server.Key, Password := server.Password } true,
            Event.newSFTPTransfer client true]) ++ (evsP ++
            [Event.transferClose transfer, Event.clientClose client]), ?_, ?_, ?_⟩
          · simp [ClientClose, TransferClose, lP, lT, lC, lR, isOk]
          · have hpre : ∀ e ∈ evsR ++ [Event.newSSHClient server.Host server.User
                { KeyPath := server.Key, Password := server.Password } true,
                Event.newSFTPTransfer client true], e.isUpload = false := by
              intro e he
              rcases List.mem_append.mp he with h | h
              · exact hRno e h
              · simp at h; rcases h with rfl | rfl <;> rfl
            rw [uploadsBackedUp_append, uploadsBackedUp_of_no_upload _ _ hpre,
              uploadsBackedUp_append]
            have h1 := uploadsBackedUp_mono (evsR ++ [Event.newSSHClient server.Host
              server.User { KeyPath := server.Key, Password := server.Password } true,
              Event.newSFTPTransfer client true]) [] evsP hP
            simp only [List.append_nil] at h1
            simp only [List.nil_append, h1, Bool.true_and]
            exact uploadsBackedUp_of_no_upload _ _ (by
              intro e he
              simp at he
              rcases he with rfl | rfl <;> rfl)
          · intro server2 w12 client2 w22 transfer2 w32 _ h1 h2 h3 h4
            simp only [Prod.mk.injEq] at h1
            obtain ⟨⟨rfl, -⟩, rfl⟩ := h1
            rw [hcl] at h2
            simp only [Prod.mk.injEq, Except.ok.injEq] at h2
            obtain ⟨rfl, rfl⟩ := h2
            rw [hsf] at h3
            simp only [Prod.mk.injEq, Except.ok.injEq] at h3
            obtain ⟨rfl, rfl⟩ := h3
            obtain ⟨hs, hno⟩ := hPfail h4
            refine ⟨hs, ?_⟩
            intro e he
            rcases List.mem_append.mp he with h | h
            · rcases List.mem_append.mp h with h | h
              · exact hRno e h
              · simp at h; rcases h with rfl | rfl <;> rfl
            · rcases List.mem_append.mp h with h | h
              · exact hno e h
              · simp at h; rcases h with rfl | rfl <;> rfl
  · rw [hres] at lR
    simp only at lR ⊢
    refine ⟨evsR, lR, uploadsBackedUp_of_no_upload _ _ hRno, ?_⟩
    intro server2 w12 client2 w22 transfer2 w32 _ h1
    simp at h1


/-- C1: when the remote file exists and `CreateBackup` fails, `deploySingleFile`,
`executeFileStep` and `ExecutePush` return the status "error" and make no
`UploadBytes` call (and `deploySingleFile` no `Execute` call); and in every run of
the three functions each `UploadBytes` to a path comes after a `FileExists` of that
path that found no file or after a successful `Download` of that path. -/
theorem backup_failure_aborts {σ : Type} (env : Collab σ) (client : SSHClient)
    (transfer : SFTPTransfer) (w : World σ) :
    (∀ server file,
      (FileExists env transfer file.Remote w).1 = true →
      (CreateBackup env transfer file.Remote server.Host w).1.2 ≠ none →
      (deploySingleFile env client transfer server file w).1.Status = "error" ∧
        ∀ e ∈ callsSince w (deploySingleFile env client transfer server file w).2,
          e.isUpload = false ∧ e.isExecute = false) ∧
    (∀ step host,
      (FileExists env transfer step.Remote w).1 = true →
      (CreateBackup env transfer step.Remote host w).1.2 ≠ none →
      (executeFileStep env transfer step host w).1.Status = "error" ∧
        ∀ e ∈ callsSince w (executeFileStep env transfer step host w).2,
          e.isUpload = false) ∧
    (∀ cfg hostAlias localPath remotePath server w1 w2 w3,
      ResolveHost env cfg hostAlias w = ((server, none), w1) →
      NewSSHClient env server.Host server.User
        { KeyPath := server.Key, Password := server.Password } w1 = (.ok client, w2) →
      NewSFTPTransfer env client w2 = (.ok transfer, w3) →
      (FileExists env transfer remotePath w3).1 = true →
      (CreateBackup env transfer remotePath server.Host w3).1.2 ≠ none →
      (ExecutePush env cfg hostAlias localPath remotePath false w).1.Status = "error" ∧
        ∀ e ∈ callsSince w (ExecutePush env cfg hostAlias localPath remotePath false w).2,
          e.isUpload = false) ∧
    (∀ server file,
      BackupBeforeUpload
        (callsSince w (deploySingleFile env client transfer server file w).2)) ∧
    (∀ step host,
      BackupBeforeUpload (callsSince w (executeFileStep env transfer step host w).2)) ∧
    (∀ cfg hostAlias localPath remotePath dryRun,
      BackupBeforeUpload
        (callsSince w (ExecutePush env cfg hostAlias localPath remotePath dryRun w).2)) := by
  refine ⟨?_, ?_, ?_, ?_, ?_, ?_⟩
  · intro server file _ hfail
    obtain ⟨evs, hl, _, h, _⟩ := deploySingleFile_spec env client transfer server file w
    rw [callsSince_of_log _ _ _ hl]
    exact h hfail
  · intro step host _ hfail
    obtain ⟨evs, hl, _, _, h⟩ := executeFileStep_spec env transfer step host w
    rw [callsSince_of_log _ _ _ hl]
    exact h hfail
  · intro cfg a lp rp server w1 w2 w3 hres hcl hsf _ hfail
    obtain ⟨evs, hl, _, h⟩ := ExecutePush_spec env cfg a lp rp false w
    rw [callsSince_of_log _ _ _ hl]
    exact h server w1 client w2 transfer w3 rfl hres hcl hsf hfail
  · intro server file
    obtain ⟨evs, hl, hb, _, _⟩ := deploySingleFile_spec env client transfer server file w
    rw [callsSince_of_log _ _ _ hl]
    exact BackupBeforeUpload_of_check _ hb
  · intro step host
    obtain ⟨evs, hl, hb, _⟩ := executeFileStep_spec env transfer step host w
    rw [callsSince_of_log _ _ _ hl]
    exact BackupBeforeUpload_of_check _ hb
  · intro cfg a lp rp dryRun
    obtain ⟨evs, hl, hb, _⟩ := ExecutePush_spec env cfg a lp rp dryRun w
    rw [callsSince_of_log _ _ _ hl]
    exact BackupBeforeUpload_of_check _ hb

/-- C1 where /etc/app.conf exists on the host and its download fails: the file
action (with a restart command), the file step and the push all end in "error",
without an upload and without the restart. -/
theorem backup_failure_aborts_witness :
    ((deploySingleFile backupFails.collab { Client := 1, Host := "10.0.0.1", User := "deploy" }
        { client := 1 } { Host := "10.0.0.1", User := "deploy" }
        { Local := "app.conf", Remote := "/etc/app.conf", Restart := "systemctl restart app" }
        World.start).1.Status = "error" ∧
      ∀ e ∈ callsSince World.start
          (deploySingleFile backupFails.collab
            { Client := 1, Host := "10.0.0.1", User := "deploy" }
            { client := 1 } { Host := "10.0.0.1", User := "deploy" }
            { Local := "app.conf", Remote := "/etc/app.conf",
              Restart := "systemctl restart app" }
            World.start).2,
        e.isUpload = false ∧ e.isExecute = false) ∧
    ((executeFileStep backupFails.collab { client := 1 }
        { Type_ := "file", Local := "app.conf", Remote := "/etc/app.conf" } "10.0.0.1"
        World.start).1.Status = "error" ∧
      ∀ e ∈ callsSince World.start
          (executeFileStep backupFails.collab { client := 1 }
            { Type_ := "file", Local := "app.conf", Remote := "/etc/app.conf" } "10.0.0.1"
            World.start).2,
        e.isUpload = false) ∧
    ((ExecutePush backupFails.collab sampleConfig "web" "app.conf" "/etc/app.conf" false
        World.start).1.Status = "error" ∧
      ∀ e ∈ callsSince World.start
          (ExecutePush backupFails.collab sampleConfig "web" "app.conf" "/etc/app.conf" false
            World.start).2,
        e.isUpload = false) :=
  ⟨(backup_failure_aborts backupFails.collab
      { Client := 1, Host := "10.0.0.1", User := "deploy" } { client := 1 } World.start).1
      { Host := "10.0.0.1", User := "deploy" }
      { Local := "app.conf", Remote := "/etc/app.conf", Restart := "systemctl restart app" }
      (by decide) (by decide),
    (backup_failure_aborts backupFails.collab
      { Client := 1, Host := "10.0.0.1", User := "deploy" } { client := 1 } World.start).2.1
      { Type_ := "file", Local := "app.conf", Remote := "/etc/app.conf" } "10.0.0.1"
      (by decide) (by decide),
    (backup_failure_aborts backupFails.collab
      { Client := 1, Host := "10.0.0.1", User := "deploy" } { client := 1 } World.start).2.2.1
      sampleConfig "web" "app.conf" "/etc/app.conf"
      { Host := "10.0.0.1", User := "deploy", Key := "/keys/id_rsa" } _ _ _
      rfl rfl rfl (by decide) (by decide)⟩


theorem runAll_length {σ : Type} (env : Collab σ) (client : SSHClient)
    (tr : Option SFTPTransfer) (host : String) (steps : List TaskStep) (w w2 : World σ)
    (rs : List StepResult) (h : runAll env client tr host steps w = (some rs, w2)) :
    rs.length = steps.length := by
  induction steps generalizing w rs with
  | nil =>
    simp only [runAll, Prod.mk.injEq, Option.some.injEq] at h
    obtain ⟨rfl, _⟩ := h
    rfl
  | cons step rest ih =>
    unfold runAll at h
    rcases h1 : runStep env client tr host step w with ⟨_ | r, w1⟩
    · rw [h1] at h
      simp at h
    · rw [h1] at h
      simp only at h
      rcases h2 : runAll env client tr host rest w1 with ⟨_ | rs2, w3⟩
      · rw [h2] at h
        simp at h
      · rw [h2] at h
        simp only [Prod.mk.injEq, Option.some.injEq] at h
        rw [← h.1, List.length_cons, List.length_cons, ih w1 rs2 (by rw [h2, h.2])]

theorem runSteps_fail_fast {σ : Type} (env : Collab σ) (client : SSHClient)
    (tr : Option SFTPTransfer) (host : String) (pre : List TaskStep) (s : TaskStep)
    (post : List TaskStep) (w w4 w5 : World σ) (rs : List StepResult) (r : StepResult)
    (hpre : runAll env client tr host pre w = (some rs, w4))
    (hok : ∀ x ∈ rs, x.Status ≠ "error")
    (hk : runStep env client tr host s w4 = (some r, w5))
    (herr : r.Status = "error") :
    runSteps env client tr host (pre ++ s :: post) w = (some (rs ++ [r], false), w5) := by
  induction pre generalizing w rs with
  | nil =>
    simp only [runAll, Prod.mk.injEq, Option.some.injEq] at hpre
    obtain ⟨rfl, rfl⟩ := hpre
    simp only [List.nil_append, runSteps, hk, herr, if_true]
  | cons step rest ih =>
    unfold runAll at hpre
    rcases h1 : runStep env client tr host step w with ⟨_ | r1, w1⟩
    · rw [h1] at hpre
      simp at hpre
    · rw [h1] at hpre
      simp only at hpre
      rcases h2 : runAll env client tr host rest w1 with ⟨_ | rs2, w3⟩
      · rw [h2] at hpre
        simp at hpre
      · rw [h2] at hpre
        simp only [Prod.mk.injEq, Option.some.injEq] at hpre
        obtain ⟨rfl, rfl⟩ := hpre
        have hr1 : r1.Status ≠ "error" := hok r1 (by simp)
        have hrest := ih w1 rs2 h2 (fun x hx => hok x (by simp [hx]))
        rw [List.cons_append, runSteps, h1]
        simp only [hr1, if_false, hrest, List.cons_append]

/-- C2: when the host resolves, its session opens and the transfer opens if the
task has a file step, and the steps before step k give results without the status
"error" while step k gives one with the status "error", `executeRunOnServer`
returns the results of steps 1..k in task order as `Steps`, k of them, with the
host status "error", and after step k only the transfer and the session are closed. -/
theorem executeRunOnServer_fail_fast {σ : Type} (env : Collab σ) (cfg : ClientConfig)
    (hostAlias taskName : String) (pre : List TaskStep) (s : TaskStep)
    (post : List TaskStep) (w w1 w2 w3 w4 w5 : World σ) (server : ServerConfig)
    (client : SSHClient) (tr : Option SFTPTransfer) (rs : List StepResult) (r : StepResult)
    (hres : ResolveHost env cfg hostAlias w = ((server, none), w1))
    (hcl : NewSSHClient env server.Host server.User
      { KeyPath := server.Key, Password := server.Password } w1 = (.ok client, w2))
    (htr : (needsSFTP (pre ++ s :: post) = true ∧
        ∃ t, tr = some t ∧ NewSFTPTransfer env client w2 = (.ok t, w3)) ∨
      (needsSFTP (pre ++ s :: post) = false ∧ tr = none ∧ w3 = w2))
    (hpre : runAll env client tr server.Host pre w3 = (some rs, w4))
    (hok : ∀ x ∈ rs, x.Status ≠ "error")
    (hk : runStep env client tr server.Host s w4 = (some r, w5))
    (herr : r.Status = "error") :
    (executeRunOnServer env cfg hostAlias taskName (pre ++ s :: post) false w).1 =
        some { Server := hostAlias, Task := taskName, Steps := rs ++ [r], Status := "error" } ∧
      (rs ++ [r]).length = pre.length + 1 ∧
      (executeRunOnServer env cfg hostAlias taskName (pre ++ s :: post) false w).2 =
        ClientClose env client
          (match tr with
            | some t => TransferClose env t w5
            | none => w5) := by
  have hloop := runSteps_fail_fast env client tr server.Host pre s post w3 w4 w5 rs r
    hpre hok hk herr
  have hlen := runAll_length env client tr server.Host pre w3 w4 rs hpre
  refine ⟨?_, by simp [hlen], ?_⟩
  · rcases htr with ⟨hn, t, rfl, hsf⟩ | ⟨hn, rfl, rfl⟩
    · simp [executeRunOnServer, hres, hcl, runOnClient, hn, hsf, hloop]
    · simp [executeRunOnServer, hres, hcl, runOnClient, hn, hloop]
  · rcases htr with ⟨hn, t, rfl, hsf⟩ | ⟨hn, rfl, rfl⟩
    · simp [executeRunOnServer, hres, hcl, runOnClient, hn, hsf, hloop]
    · simp [executeRunOnServer, hres, hcl, runOnClient, hn, hloop]

/-- C2 on the three-step task "release" whose second step fails: two step results,
the third step is not run, and the host status is "error". -/
theorem executeRunOnServer_fail_fast_witness :
    (executeRunOnServer migrateFails.collab sampleConfig "web" "release"
        [{ Type_ := "exec", Run := "systemctl stop app" },
         { Type_ := "exec", Run := "migrate" },
         { Type_ := "exec", Run := "systemctl start app" }] false World.start).1 =
      some { Server := "web", Task := "release",
             Steps := [{ Step := "exec:systemctl stop app", Status := "ok", Output := "done" },
               { Step := "exec:migrate", Status := "error", Output := "failed",
                 Error := "command failed: exit status 1" }],
             Status := "error" } ∧
    ([{ Step := "exec:systemctl stop app", Status := "ok", Output := "done" },
      { Step := "exec:migrate", Status := "error", Output := "failed",
        Error := "command failed: exit status 1" }] : List StepResult).length = 2 :=
  have h := executeRunOnServer_fail_fast migrateFails.collab sampleConfig "web" "release"
    [{ Type_ := "exec", Run := "systemctl stop app" }]
    ({ Type_ := "exec", Run := "migrate" } : TaskStep)
    [{ Type_ := "exec", Run := "systemctl start app" }] World.start _ _ _ _ _
    ({ Host := "10.0.0.1", User := "deploy", Key := "/keys/id_rsa" } : ServerConfig)
    ({ Client := 1, Host := "10.0.0.1", User := "deploy" } : SSHClient) none
    [{ Step := "exec:systemctl stop app", Status := "ok", Output := "done" }]
    ({ Step := "exec:migrate", Status := "error", Output := "failed",
       Error := "command failed: exit status 1" } : StepResult)
    rfl rfl (Or.inr ⟨by decide, rfl, rfl⟩) rfl (by decide) rfl rfl
  ⟨h.1, h.2.1⟩


theorem deploySingleFile_id {σ : Type} (env : Collab σ) (c : SSHClient) (t : SFTPTransfer)
    (s : ServerConfig) (f : FileConfig) (w : World σ) :
    (deploySingleFile env c t s f w).1.Server = s.Host ∧
      (deploySingleFile env c t s f w).1.File = f.Remote := by
  unfold deploySingleFile
  repeat' split
  all_goals exact ⟨rfl, rfl⟩

theorem synthResults_id (s : ServerConfig) (st e : String) (files : List FileConfig) :
    (synthResults s st e files).map (fun r => (r.Server, r.File)) =
      files.map (fun file => (s.Host, file.Remote)) := by
  induction files with
  | nil => rfl
  | cons f rest ih => simp [synthResults, ih]

theorem deployFiles_id {σ : Type} (env : Collab σ) (c : SSHClient) (t : SFTPTransfer)
    (s : ServerConfig) (files : List FileConfig) (w : World σ) :
    (deployFiles env c t s files w).1.map (fun r => (r.Server, r.File)) =
      files.map (fun file => (s.Host, file.Remote)) := by
  induction files generalizing w with
  | nil => rfl
  | cons f rest ih =>
    simp only [deployFiles, List.map_cons, ih, (deploySingleFile_id env c t s f w).1,
      (deploySingleFile_id env c t s f w).2]

theorem deployServer_id {σ : Type} (env : Collab σ) (files : List FileConfig) (dryRun : Bool)
    (s : ServerConfig) (w : World σ) :
    (deployServer env files dryRun s w).1.map (fun r => (r.Server, r.File)) =
      files.map (fun file => (s.Host, file.Remote)) := by
  unfold deployServer
  split
  · exact synthResults_id _ _ _ _
  · simp only
    split
    · exact synthResults_id _ _ _ _
    · split
      · exact synthResults_id _ _ _ _
      · exact deployFiles_id _ _ _ _ _ _

theorem deployServers_id {σ : Type} (env : Collab σ) (files : List FileConfig) (dryRun : Bool)
    (servers : List ServerConfig) (w : World σ) :
    (deployServers env files dryRun servers w).1.map (fun r => (r.Server, r.File)) =
      serverMajor files servers := by
  induction servers generalizing w with
  | nil => rfl
  | cons s rest ih =>
    simp only [deployServers, List.map_append, ih, deployServer_id, serverMajor]

theorem serverMajor_length (files : List FileConfig) (servers : List ServerConfig) :
    (serverMajor files servers).length = servers.length * files.length := by
  induction servers with
  | nil => simp [serverMajor]
  | cons s rest ih =>
    simp only [serverMajor, List.length_append, List.length_map, ih, List.length_cons]
    ring

theorem CreateBackup_sim {σ : Type} (env : Collab σ) (t : SFTPTransfer) (p host : String)
    (w w' : World σ) (h : w.ext = w'.ext) :
    (CreateBackup env t p host w).1 = (CreateBackup env t p host w').1 ∧
      (CreateBackup env t p host w).2.ext = (CreateBackup env t p host w').2.ext := by
  obtain ⟨x, l⟩ := w
  obtain ⟨x', l'⟩ := w'
  simp only at h
  subst h
  simp only [CreateBackup, FileExists, Now, MkdirAll, Download]
  rcases h1 : env.fileExists t p x with ⟨_ | _, x1⟩
  · simp
  · simp only
    rcases h2 : env.now x1 with ⟨now, x2⟩
    simp only
    rcases h3 : env.mkdirAll backupDir x2 with ⟨_ | _, x3⟩
    · simp only
      rcases h4 : env.download t p
        (filepathJoin backupDir (host ++ stringsReplaceAll p "/" "_" ++ "_" ++ now.Format)) x3
        with ⟨_ | _, x4⟩ <;> simp
    · simp



theorem NormalizeFile_sim {σ : Type} (env : Collab σ) (p : String) (w w' : World σ)
    (h : w.ext = w'.ext) :
    (NormalizeFile env p w).1 = (NormalizeFile env p w').1 ∧
      (NormalizeFile env p w).2.ext = (NormalizeFile env p w').2.ext := by
  obtain ⟨x, l⟩ := w
  obtain ⟨x', l'⟩ := w'
  simp only at h
  subst h
  simp only [NormalizeFile, ReadFile]
  rcases h1 : env.readFile p x with ⟨_ | _, x1⟩ <;> simp

theorem deploySingleFile_sim {σ : Type} (env : Collab σ) (c : SSHClient) (t : SFTPTransfer)
    (s : ServerConfig) (f : FileConfig) (w w' : World σ) (h : w.ext = w'.ext) :
    (deploySingleFile env c t s f w).1 = (deploySingleFile env c t s f w').1 ∧
      (deploySingleFile env c t s f w).2.ext = (deploySingleFile env c t s f w').2.ext := by
  obtain ⟨a1, a2⟩ := CreateBackup_sim env t f.Remote s.Host w w' h
  unfold deploySingleFile
  rcases e1 : CreateBackup env t f.Remote s.Host w with ⟨⟨bp, err⟩, w1⟩
  rcases e1' : CreateBackup env t f.Remote s.Host w' with ⟨⟨bp', err'⟩, w1'⟩
  rw [e1, e1'] at a1 a2
  simp only [Prod.mk.injEq] at a1 a2
  obtain ⟨rfl, rfl⟩ := a1
  cases err with
  | some e => exact ⟨rfl, a2⟩
  | none =>
    simp only
    obtain ⟨b1, b2⟩ := NormalizeFile_sim env f.Local w1 w1' a2
    rcases e2 : NormalizeFile env f.Local w1 with ⟨⟨data, err2⟩, w2⟩
    rcases e2' : NormalizeFile env f.Local w1' with ⟨⟨data', err2'⟩, w2'⟩
    rw [e2, e2'] at b1 b2
    simp only [Prod.mk.injEq] at b1 b2
    obtain ⟨rfl, rfl⟩ := b1
    cases err2 with
    | some e => exact ⟨rfl, b2⟩
    | none =>
      simp only [UploadBytes, b2]
      rcases e3 : env.uploadBytes t data f.Remote w2'.ext with ⟨_ | _, x3⟩
      · simp only
        split
        · simp only [Execute]
          rcases e4 : env.execute c f.Restart x3 with ⟨⟨out, _ | _⟩, x4⟩ <;> simp
        · simp
      · simp

theorem deployFiles_sim {σ : Type} (env : Collab σ) (c : SSHClient) (t : SFTPTransfer)
    (s : ServerConfig) (files : List FileConfig) (w w' : World σ) (h : w.ext = w'.ext) :
    (deployFiles env c t s files w).1 = (deployFiles env c t s files w').1 ∧
      (deployFiles env c t s files w).2.ext = (deployFiles env c t s files w').2.ext := by
  induction files generalizing w w' with
  | nil => exact ⟨rfl, h⟩
  | cons f rest ih =>
    obtain ⟨a1, a2⟩ := deploySingleFile_sim env c t s f w w' h
    obtain ⟨b1, b2⟩ := ih _ _ a2
    simp only [deployFiles, a1, b1, b2, and_self]

theorem ExpandHome_sim {σ : Type} (env : Collab σ) (path : String) (w w' : World σ)
    (h : w.ext = w'.ext) :
    (ExpandHome env path w).1 = (ExpandHome env path w').1 ∧
      (ExpandHome env path w).2.ext = (ExpandHome env path w').2.ext := by
  obtain ⟨x, l⟩ := w
  obtain ⟨x', l'⟩ := w'
  simp only at h
  subst h
  simp only [ExpandHome, UserHomeDir]
  split
  · rcases h1 : env.userHomeDir x with ⟨_ | _, x1⟩ <;> simp
  · simp

theorem deployServer_sim {σ : Type} (env : Collab σ) (files : List FileConfig) (dryRun : Bool)
    (s : ServerConfig) (w w' : World σ) (h : w.ext = w'.ext) :
    (deployServer env files dryRun s w).1 = (deployServer env files dryRun s w').1 ∧
      (deployServer env files dryRun s w).2.ext = (deployServer env files dryRun s w').2.ext := by
  unfold deployServer
  split
  · exact ⟨rfl, h⟩
  · obtain ⟨a1, a2⟩ := ExpandHome_sim env s.Key w w' h
    rcases e1 : ExpandHome env s.Key w with ⟨k, w1⟩
    rcases e1' : ExpandHome env s.Key w' with ⟨k', w1'⟩
    rw [e1, e1'] at a1 a2
    simp only at a1 a2
    subst a1
    simp only [NewSSHClient, a2]
    rcases e2 : env.newSSHClient s.Host s.User { KeyPath := k, Password := s.Password } w1'.ext
      with ⟨_ | client, x2⟩
    · simp
    · simp only [NewSFTPTransfer]
      rcases e3 : env.newSFTPTransfer client x2 with ⟨_ | transfer, x3⟩
      · simp [ClientClose]
      · simp only [ClientClose, TransferClose]
        obtain ⟨b1, b2⟩ := deployFiles_sim env client transfer s files
          { ext := x3, log := w1.log ++ [Event.newSSHClient s.Host s.User
              { KeyPath := k, Password := s.Password } (isOk (Except.ok client))] ++
              [Event.newSFTPTransfer client (isOk (Except.ok transfer))] }
          { ext := x3, log := w1'.log ++ [Event.newSSHClient s.Host s.User
              { KeyPath := k, Password := s.Password } (isOk (Except.ok client))] ++
              [Event.newSFTPTransfer client (isOk (Except.ok transfer))] } rfl
        exact ⟨b1, by rw [b2]⟩

theorem deployServers_sim {σ : Type} (env : Collab σ) (files : List FileConfig)
    (dryRun : Bool) (servers : List ServerConfig) (w w' : World σ) (h : w.ext = w'.ext) :
    (deployServers env files dryRun servers w).1 = (deployServers env files dryRun servers w').1 ∧
      (deployServers env files dryRun servers w).2.ext =
        (deployServers env files dryRun servers w').2.ext := by
  induction servers generalizing w w' with
  | nil => exact ⟨rfl, h⟩
  | cons s rest ih =>
    obtain ⟨a1, a2⟩ := deployServer_sim env files dryRun s w w' h
    obtain ⟨b1, b2⟩ := ih _ _ a2
    simp only [deployServers, a1, b1, b2, and_self]

theorem deployServers_append {σ : Type} (env : Collab σ) (files : List FileConfig)
    (dryRun : Bool) (pre post : List ServerConfig) (w : World σ) :
    deployServers env files dryRun (pre ++ post) w =
      ((deployServers env files dryRun pre w).1 ++
          (deployServers env files dryRun post (deployServers env files dryRun pre w).2).1,
        (deployServers env files dryRun post (deployServers env files dryRun pre w).2).2) := by
  induction pre generalizing w with
  | nil => simp [deployServers]
  | cons s rest ih =>
    rw [List.cons_append]
    simp only [deployServers]
    rw [ih]
    simp only [List.append_assoc]


theorem synthResults_eq_map (s : ServerConfig) (st e : String) (files : List FileConfig) :
    synthResults s st e files =
      files.map (fun file =>
        ({ Server := s.Host, File := file.Remote, Status := st, Error := e } : DeployResult)) := by
  induction files with
  | nil => rfl
  | cons f rest ih => simp [synthResults, ih]

theorem deployServers_length {σ : Type} (env : Collab σ) (files : List FileConfig)
    (dryRun : Bool) (servers : List ServerConfig) (w : World σ) :
    (deployServers env files dryRun servers w).1.length = servers.length * files.length := by
  have := congrArg List.length (deployServers_id env files dryRun servers w)
  simpa [serverMajor_length] using this

/-- C3: in a deploy that is not a dry run, when the session to a server A of the
manifest fails to open and the failed attempt leaves the collaborators in the
state they were in (they behave for the other servers as if A had not been tried),
the results are those of the manifest without A, with one "error" entry per file
for A (its host, the remote path of the file) inserted at A's place. -/
theorem ExecuteDeploy_host_independence {σ : Type} (env : Collab σ) (files : List FileConfig)
    (pre : List ServerConfig) (a : ServerConfig) (post : List ServerConfig) (w : World σ)
    (err : String)
    (hfail : (NewSSHClient env a.Host a.User
        { KeyPath := (ExpandHome env a.Key
            (ExecuteDeploy env { Servers := pre, Files := files } false w).2).1,
          Password := a.Password }
        (ExpandHome env a.Key
          (ExecuteDeploy env { Servers := pre, Files := files } false w).2).2).1 =
      .error err)
    (hsame : (NewSSHClient env a.Host a.User
        { KeyPath := (ExpandHome env a.Key
            (ExecuteDeploy env { Servers := pre, Files := files } false w).2).1,
          Password := a.Password }
        (ExpandHome env a.Key
          (ExecuteDeploy env { Servers := pre, Files := files } false w).2).2).2.ext =
      (ExecuteDeploy env { Servers := pre, Files := files } false w).2.ext) :
    (ExecuteDeploy env { Servers := pre ++ a :: post, Files := files } false w).1 =
      (ExecuteDeploy env { Servers := pre ++ post, Files := files } false w).1.take
          (pre.length * files.length) ++
        files.map (fun file =>
          ({ Server := a.Host, File := file.Remote, Status := "error",
             Error := "connection failed: " ++ err } : DeployResult)) ++
        (ExecuteDeploy env { Servers := pre ++ post, Files := files } false w).1.drop
          (pre.length * files.length) := by
  simp only [ExecuteDeploy] at hfail hsame ⊢
  have hlen := deployServers_length env files false pre w
  rw [deployServers_append, deployServers_append]
  simp only
  rw [List.take_left' hlen, List.drop_left' hlen]
  have hA : deployServer env files false a (deployServers env files false pre w).2 =
      (files.map (fun file =>
          ({ Server := a.Host, File := file.Remote, Status := "error",
             Error := "connection failed: " ++ err } : DeployResult)),
        (NewSSHClient env a.Host a.User
          { KeyPath := (ExpandHome env a.Key (deployServers env files false pre w).2).1,
            Password := a.Password }
          (ExpandHome env a.Key (deployServers env files false pre w).2).2).2) := by
    unfold deployServer
    simp only [Bool.false_eq_true, if_false]
    rcases hc : NewSSHClient env a.Host a.User
      { KeyPath := (ExpandHome env a.Key (deployServers env files false pre w).2).1,
        Password := a.Password }
      (ExpandHome env a.Key (deployServers env files false pre w).2).2 with ⟨_ | c, w2⟩
    · rw [hc] at hfail
      simp only [Except.error.injEq] at hfail
      subst hfail
      simp only [synthResults_eq_map]
    · rw [hc] at hfail
      simp at hfail
  have hpost := (deployServers_sim env files false post _ _ hsame).1
  simp only [deployServers, hA, hpost, List.append_assoc]


/-- C3 on a manifest of three hosts and two files where the second host is down:
its two entries are "error", and the entries of the two other hosts are those of
the manifest without it. -/
theorem ExecuteDeploy_host_independence_witness :
    (ExecuteDeploy hostDown.collab threeHosts false World.start).1.map
        (fun r => (r.Server, r.File, r.Status)) =
      [("10.0.0.1", "/etc/app.conf", "ok"), ("10.0.0.1", "/etc/db.conf", "ok"),
       ("10.0.0.9", "/etc/app.conf", "error"), ("10.0.0.9", "/etc/db.conf", "error"),
       ("10.0.0.2", "/etc/app.conf", "ok"), ("10.0.0.2", "/etc/db.conf", "ok")] ∧
    (ExecuteDeploy hostDown.collab threeHosts false World.start).1 =
      (ExecuteDeploy hostDown.collab
          { Servers := [{ Host := "10.0.0.1", User := "deploy", Key := "/keys/id_rsa" }] ++
              [{ Host := "10.0.0.2", User := "deploy", Key := "/keys/id_rsa" }],
            Files := threeHosts.Files } false World.start).1.take (1 * 2) ++
        threeHosts.Files.map (fun file =>
          ({ Server := "10.0.0.9", File := file.Remote, Status := "error",
             Error := "connection failed: " ++ "dial tcp: connection refused" } :
            DeployResult)) ++
        (ExecuteDeploy hostDown.collab
          { Servers := [{ Host := "10.0.0.1", User := "deploy", Key := "/keys/id_rsa" }] ++
              [{ Host := "10.0.0.2", User := "deploy", Key := "/keys/id_rsa" }],
            Files := threeHosts.Files } false World.start).1.drop (1 * 2) :=
  ⟨by decide,
    ExecuteDeploy_host_independence hostDown.collab threeHosts.Files
      [{ Host := "10.0.0.1", User := "deploy", Key := "/keys/id_rsa" }]
      { Host := "10.0.0.9", User := "deploy", Key := "/keys/id_rsa" }
      [{ Host := "10.0.0.2", User := "deploy", Key := "/keys/id_rsa" }] World.start
      "dial tcp: connection refused" rfl rfl⟩

theorem collectBackups_eq (entries : List DirEntry) :
    collectBackups entries = listedBackups entries := by
  induction entries with
  | nil => rfl
  | cons e rest ih =>
    unfold collectBackups listedBackups
    rw [List.filterMap_cons]
    by_cases hd : e.IsDir = true
    · simp only [hd, if_true]
      exact ih
    · simp only [hd, if_false]
      cases hi : e.Info with
      | error msg => simpa [listedBackups] using ih
      | ok info => simpa [listedBackups] using ih

/-- C11, as stated, fails: the directory exists and holds one entry that is not a
directory, but its `Info()` fails and `ListBackups` returns no entry for it. -/
theorem ListBackups_skips_entry :
    (ListBackups ({ dir := dirVanishingFile } : Scenario).collab
        (insertionSortLessFunc backupLess) World.start).1 = ([], none) ∧
      ([({ Name := "web_etc_app.conf_20250101-000001",
           Info := .error "lstat: no such file or directory" } : DirEntry)].filter
        (fun entry => !entry.IsDir)).length = 1 := by
  constructor
  · rfl
  · rfl

/-- C11 (amended): `ListBackups` returns an empty result and no error when the
backup directory does not exist, an empty result and an error when reading it fails
otherwise, and, when the directory is read, no error and exactly one entry (path =
backup directory joined with the name, timestamp = modification time) per entry
that is not a directory and whose `Info()` succeeds, ordered by timestamp
descending: the timestamp at a position is not earlier than at a later position. -/
theorem ListBackups_listing {σ : Type} (env : Collab σ)
    (sortSlice : List BackupInfo → List BackupInfo) (hsort : SortSliceContract sortSlice)
    (w : World σ) :
    (∀ msg, (ReadDir env backupDir w).1 = .notExist msg →
      (ListBackups env sortSlice w).1 = ([], none)) ∧
    (∀ msg, (ReadDir env backupDir w).1 = .failed msg →
      (ListBackups env sortSlice w).1.1 = [] ∧ (ListBackups env sortSlice w).1.2 ≠ none) ∧
    (∀ entries, (ReadDir env backupDir w).1 = .entries entries →
      (ListBackups env sortSlice w).1.2 = none ∧
      (ListBackups env sortSlice w).1.1.Perm (listedBackups entries) ∧
      (ListBackups env sortSlice w).1.1.length =
        (entries.filter (fun entry => !entry.IsDir && isOk entry.Info)).length) ∧
    ∀ i j (hi : i < (ListBackups env sortSlice w).1.1.length)
      (hj : j < (ListBackups env sortSlice w).1.1.length), i < j →
      ((ListBackups env sortSlice w).1.1[j]).Timestamp.nanos ≤
        ((ListBackups env sortSlice w).1.1[i]).Timestamp.nanos := by
  refine ⟨?_, ?_, ?_, ?_⟩
  · intro msg h
    unfold ListBackups
    rcases hr : ReadDir env backupDir w with ⟨r, w1⟩
    rw [hr] at h
    simp only at h
    subst h
    rfl
  · intro msg h
    unfold ListBackups
    rcases hr : ReadDir env backupDir w with ⟨r, w1⟩
    rw [hr] at h
    simp only at h
    subst h
    exact ⟨rfl, by simp⟩
  · intro entries h
    unfold ListBackups
    rcases hr : ReadDir env backupDir w with ⟨r, w1⟩
    rw [hr] at h
    simp only at h
    subst h
    simp only
    have hperm := (hsort (collectBackups entries)).1
    rw [collectBackups_eq] at hperm
    refine ⟨trivial, by rw [collectBackups_eq]; exact hperm, ?_⟩
    rw [collectBackups_eq, hperm.length_eq]
    clear hperm hr
    induction entries with
    | nil => rfl
    | cons e rest ih =>
      unfold listedBackups at ih ⊢
      rw [List.filterMap_cons, List.filter_cons]
      by_cases hd : e.IsDir = true
      · simp only [hd, if_true, Bool.not_true, Bool.false_and, Bool.false_eq_true, if_false]
        exact ih
      · have hd2 : e.IsDir = false := by simpa using hd
        cases hi : e.Info with
        | error msg => simpa [hd2, hi, isOk] using ih
        | ok info => simpa [hd2, hi, isOk] using ih
  · intro i j hi hj hij
    have hs := ListBackups_sorted env sortSlice hsort w
    have := (List.pairwise_iff_getElem.mp hs) i j hi hj hij
    simpa [backupLess, Time.After] using this

/-- C11 on a directory with four backups and a subdirectory: four entries, newest
first, the subdirectory left out. -/
theorem ListBackups_listing_witness :
    (ListBackups ({ dir := dirThreeBackups } : Scenario).collab
        (insertionSortLessFunc backupLess) World.start).1.1.map
        (fun b => (b.Path, b.Timestamp.nanos)) =
      [("backups/web_etc_other.conf_20250101-000004", 4),
       ("backups/web_etc_app.conf_20250101-000003", 3),
       ("backups/web_etc_app.conf_20250101-000002", 2),
       ("backups/web_etc_app.conf_20250101-000001", 1)] ∧
    ∀ i j (hi : i < (ListBackups ({ dir := dirThreeBackups } : Scenario).collab
        (insertionSortLessFunc backupLess) World.start).1.1.length)
      (hj : j < (ListBackups ({ dir := dirThreeBackups } : Scenario).collab
        (insertionSortLessFunc backupLess) World.start).1.1.length), i < j →
      ((ListBackups ({ dir := dirThreeBackups } : Scenario).collab
        (insertionSortLessFunc backupLess) World.start).1.1[j]).Timestamp.nanos ≤
        ((ListBackups ({ dir := dirThreeBackups } : Scenario).collab
          (insertionSortLessFunc backupLess) World.start).1.1[i]).Timestamp.nanos :=
  ⟨by decide,
    (ListBackups_listing ({ dir := dirThreeBackups } : Scenario).collab
      (insertionSortLessFunc backupLess) insertionSort_contract World.start).2.2.2⟩

/-- C12: when the remote file does not exist, `CreateBackup` returns the empty path
and no error, and the only call it makes is the `FileExists` that found nothing: no
`MkdirAll`, no `Download`, and the world is the one that call left. -/
theorem CreateBackup_absent {σ : Type} (env : Collab σ) (transfer : SFTPTransfer)
    (remotePath host : String) (w : World σ)
    (habsent : (FileExists env transfer remotePath w).1 = false) :
    (CreateBackup env transfer remotePath host w).1 = ("", none) ∧
      (CreateBackup env transfer remotePath host w).2 = (FileExists env transfer remotePath w).2 ∧
      callsSince w (CreateBackup env transfer remotePath host w).2 =
        [Event.fileExists transfer remotePath false] := by
  have hlog := FileExists_log env transfer remotePath w
  unfold CreateBackup
  rcases hfe : FileExists env transfer remotePath w with ⟨b, w1⟩
  rw [hfe] at habsent hlog
  simp only at habsent hlog
  subst habsent
  exact ⟨rfl, rfl, callsSince_of_log _ _ _ hlog⟩

/-- C12 for /etc/new.conf, which is not on the host. -/
theorem CreateBackup_absent_witness :
    (CreateBackup fileExistsScenario.collab { client := 1 } "/etc/new.conf" "10.0.0.1"
        World.start).1 = ("", none) ∧
      callsSince World.start
          (CreateBackup fileExistsScenario.collab { client := 1 } "/etc/new.conf" "10.0.0.1"
            World.start).2 =
        [Event.fileExists { client := 1 } "/etc/new.conf" false] :=
  ⟨(CreateBackup_absent fileExistsScenario.collab { client := 1 } "/etc/new.conf" "10.0.0.1"
      World.start (by decide)).1,
    (CreateBackup_absent fileExistsScenario.collab { client := 1 } "/etc/new.conf" "10.0.0.1"
      World.start (by decide)).2.2⟩

/-! ## Paths of the backup files -/

theorem digitChar_ne_slash (k : Nat) (h : k < 10) : Nat.digitChar k ≠ '/' := by
  interval_cases k <;> decide

theorem toDigitsCore_no_slash (fuel n : Nat) (ds : List Char) (h : '/' ∉ ds) :
    '/' ∉ Nat.toDigitsCore 10 fuel n ds := by
  induction fuel generalizing n ds with
  | zero => simpa [Nat.toDigitsCore] using h
  | succ fuel ih =>
    have hd : '/' ∉ Nat.digitChar (n % 10) :: ds := by
      simp only [List.mem_cons, not_or]
      exact ⟨fun e => digitChar_ne_slash _ (Nat.mod_lt _ (by decide)) e.symm, h⟩
    unfold Nat.toDigitsCore
    simp only
    split
    · exact hd
    · exact ih _ _ hd

theorem padDigits_no_slash (width n : Nat) : '/' ∉ (padDigits width n).data := by
  unfold padDigits
  simp only [List.mem_append, not_or]
  constructor
  · intro h
    have := List.eq_of_mem_replicate h
    exact absurd this (by decide)
  · exact toDigitsCore_no_slash _ _ _ (by simp)

theorem Format_no_slash (t : Time) : '/' ∉ t.Format.data := by
  unfold Time.Format
  simp only [String.data_append, List.mem_append, not_or]
  exact ⟨⟨⟨⟨⟨⟨padDigits_no_slash _ _, padDigits_no_slash _ _⟩, padDigits_no_slash _ _⟩,
    by decide⟩, padDigits_no_slash _ _⟩, padDigits_no_slash _ _⟩, padDigits_no_slash _ _⟩

theorem sanitizeSpec_no_slash (p : String) : '/' ∉ (sanitizeSpec p).data := by
  unfold sanitizeSpec
  simp only [List.mem_map, not_exists, not_and]
  intro c _
  split
  · decide
  · rename_i h
    exact h

theorem takeWhile_no_slash (nm rest : List Char) (h : '/' ∉ nm) :
    (nm ++ rest).takeWhile (fun x => decide (x ≠ '/')) =
      nm ++ rest.takeWhile (fun x => decide (x ≠ '/')) := by
  induction nm with
  | nil => rfl
  | cons c r ih =>
    have hc : c ≠ '/' := fun e => h (by simp [e])
    have hr : '/' ∉ r := fun e => h (by simp [e])
    have hp : decide (c ≠ '/') = true := by simpa using hc
    rw [List.cons_append, List.takeWhile_cons]
    simp only [hp, if_true]
    rw [ih hr, List.cons_append]

theorem dropWhile_no_slash (nm rest : List Char) (h : '/' ∉ nm) :
    (nm ++ rest).dropWhile (fun x => decide (x ≠ '/')) =
      rest.dropWhile (fun x => decide (x ≠ '/')) := by
  induction nm with
  | nil => rfl
  | cons c r ih =>
    have hc : c ≠ '/' := fun e => h (by simp [e])
    have hr : '/' ∉ r := fun e => h (by simp [e])
    have hp : decide (c ≠ '/') = true := by simpa using hc
    rw [List.cons_append, List.dropWhile_cons]
    simp only [hp, if_true]
    exact ih hr

theorem cleanLoop_backups (nm : List Char) (k : Nat) (hs : '/' ∉ nm) (hne : nm ≠ [])
    (hdot : nm ≠ ['.']) (hdd : nm ≠ ['.', '.']) :
    cleanLoop false (k + 6)
        ('.' :: '/' :: 'b' :: 'a' :: 'c' :: 'k' :: 'u' :: 'p' :: 's' :: '/' :: nm) [] 0 =
      nm.reverse ++ ['/', 's', 'p', 'u', 'k', 'c', 'a', 'b'] := by
  rw [cleanLoop]
  simp only [Char.reduceEq, if_false, true_and, List.head?_cons, or_true, if_true]
  rw [cleanLoop]
  simp only [Char.reduceEq, if_false, if_true]
  rw [cleanLoop]
  simp only [Char.reduceEq, if_false, if_true, false_and, List.length_nil, ne_eq,
    not_true_eq_false, and_false, or_false, Bool.false_eq_true, List.takeWhile_cons,
    List.dropWhile_cons, decide_not, decide_False, decide_True, Bool.not_false, Bool.not_true,
    List.reverse_cons, List.reverse_nil, List.nil_append, List.cons_append, List.append_nil]
  rw [cleanLoop]
  simp only [if_true]
  cases nm with
  | nil => exact absurd rfl hne
  | cons c r =>
    have hc : c ≠ '/' := fun e => hs (by simp [e])
    have hr : '/' ∉ r := fun e => hs (by simp [e])
    have h2 : ¬ (c = '.' ∧ (r = [] ∨ r.head? = some '/')) := by
      rintro ⟨rfl, h | h⟩
      · exact hdot (by rw [h])
      · cases r with
        | nil => simp at h
        | cons d t =>
          simp only [List.head?_cons, Option.some.injEq] at h
          exact hr (by simp [h])
    have h3 : ¬ (c = '.' ∧ r.head? = some '.' ∧ (r.tail = [] ∨ r.tail.head? = some '/')) := by
      rintro ⟨rfl, h, h'⟩
      cases r with
      | nil => simp at h
      | cons d t =>
        simp only [List.head?_cons, Option.some.injEq] at h
        subst h
        simp only [List.tail_cons] at h'
        rcases h' with h' | h'
        · exact hdd (by rw [h'])
        · cases t with
          | nil => simp at h'
          | cons e u =>
            simp only [List.head?_cons, Option.some.injEq] at h'
            exact hr (by simp [h'])
    have htw := takeWhile_no_slash (c :: r) [] hs
    have hdw := dropWhile_no_slash (c :: r) [] hs
    simp only [List.append_nil, List.takeWhile_nil, List.dropWhile_nil] at htw hdw
    rw [cleanLoop]
    rw [if_neg hc, if_neg h2, if_neg h3]
    simp only [htw, hdw]
    rw [cleanLoop]
    simp

theorem filepathJoin_backupDir (name : String) (hs : '/' ∉ name.data) (hne : name.data ≠ [])
    (hdot : name.data ≠ ['.']) (hdd : name.data ≠ ['.', '.']) :
    filepathJoin backupDir name = "backups/" ++ name := by
  have hpath : backupDir ++ "/" ++ name =
      String.mk ('.' :: '/' :: 'b' :: 'a' :: 'c' :: 'k' :: 'u' :: 'p' :: 's' :: '/' :: name.data) :=
    rfl
  have hne2 : backupDir ≠ "" := by decide
  unfold filepathJoin
  rw [if_pos hne2, hpath]
  unfold filepathClean
  have h0 : String.mk ('.' :: '/' :: 'b' :: 'a' :: 'c' :: 'k' :: 'u' :: 'p' :: 's' :: '/' ::
      name.data) ≠ "" := by
    intro h
    have := congrArg String.data h
    simp at this
  rw [if_neg h0]
  simp only [List.head?_cons, Option.some.injEq, Char.reduceEq, decide_False,
    Bool.false_eq_true, if_false, List.length_cons]
  have hl := cleanLoop_backups name.data (name.data.length + 4) hs hne hdot hdd
  rw [show name.data.length + 1 + 1 + 1 + 1 + 1 + 1 + 1 + 1 + 1 + 1 =
    name.data.length + 4 + 6 from rfl, hl]
  simp only [List.length_append, List.length_reverse, List.length_cons, List.length_nil]
  rw [if_neg (by omega)]
  apply String.ext
  simp

theorem filepathBase_backups (name : String) (hs : '/' ∉ name.data) (hne : name.data ≠ []) :
    filepathBase ("backups/" ++ name) = name := by
  have hpath : "backups/" ++ name =
      String.mk ('b' :: 'a' :: 'c' :: 'k' :: 'u' :: 'p' :: 's' :: '/' :: name.data) := rfl
  rw [hpath]
  unfold filepathBase
  have h0 : String.mk ('b' :: 'a' :: 'c' :: 'k' :: 'u' :: 'p' :: 's' :: '/' :: name.data) ≠ "" := by
    intro h
    have := congrArg String.data h
    simp at this
  rw [if_neg h0]
  have hrev : ('b' :: 'a' :: 'c' :: 'k' :: 'u' :: 'p' :: 's' :: '/' :: name.data).reverse =
      name.data.reverse ++ ['/', 's', 'p', 'u', 'k', 'c', 'a', 'b'] := by simp
  simp only [hrev]
  have hs2 : '/' ∉ name.data.reverse := by simpa using hs
  have hst : stripTrailingSlashes (name.data.reverse ++ ['/', 's', 'p', 'u', 'k', 'c', 'a', 'b']) =
      name.data.reverse ++ ['/', 's', 'p', 'u', 'k', 'c', 'a', 'b'] := by
    cases hr : name.data.reverse with
    | nil => exact absurd (by simpa using hr) hne
    | cons c r =>
      have hc : c ≠ '/' := fun e => hs2 (by rw [hr]; simp [e])
      simp [stripTrailingSlashes, hc]
  rw [hst, takeWhile_no_slash _ _ hs2]
  simp only [List.takeWhile_cons, ne_eq, not_true_eq_false, decide_False, Bool.false_eq_true,
    if_false, List.append_nil, List.reverse_reverse]
  rw [if_neg hne]

theorem backupName_facts (host remotePath : String) (now : Time) (hhost : '/' ∉ host.data) :
    '/' ∉ (backupName host remotePath now).data ∧
      (backupName host remotePath now).data ≠ [] ∧
      (backupName host remotePath now).data ≠ ['.'] ∧
      (backupName host remotePath now).data ≠ ['.', '.'] := by
  have hdata : (backupName host remotePath now).data =
      host.data ++ (sanitizeSpec remotePath).data ++ '_' :: now.Format.data := by
    simp [backupName, String.data_append]
  have hmem : '_' ∈ (backupName host remotePath now).data := by
    rw [hdata]
    simp
  refine ⟨?_, ?_, ?_, ?_⟩
  · rw [hdata]
    simp only [List.mem_append, List.mem_cons, not_or]
    exact ⟨⟨hhost, sanitizeSpec_no_slash _⟩, by decide, Format_no_slash _⟩
  · intro h
    rw [h] at hmem
    simp at hmem
  · intro h
    rw [h] at hmem
    simp at hmem
  · intro h
    rw [h] at hmem
    simp at hmem

theorem lookup_setFile_self (p : String) (c : List Byte) (l : List (String × List Byte)) :
    (setFile p c l).lookup p = some c := by
  induction l with
  | nil => simp [setFile, List.lookup]
  | cons a t ih =>
    obtain ⟨q, c2⟩ := a
    by_cases h : q = p
    · subst h
      simp [setFile, List.lookup]
    · have h2 : (p == q) = false := by simpa using fun e : p = q => h e.symm
      simp only [setFile, h, if_false, List.lookup, h2, ih]

theorem lookup_setFile_other (p q : String) (c : List Byte) (l : List (String × List Byte))
    (hq : q ≠ p) : (setFile p c l).lookup q = l.lookup q := by
  induction l with
  | nil =>
    have h2 : (q == p) = false := by simpa using hq
    simp [setFile, List.lookup, h2]
  | cons a t ih =>
    obtain ⟨r, c2⟩ := a
    by_cases h : r = p
    · subst h
      have h2 : (q == r) = false := by simpa using hq
      simp [setFile, List.lookup, h2]
    · simp only [setFile, h, if_false, List.lookup, ih]

theorem setFile_paths (p : String) (c : List Byte) (l : List (String × List Byte)) :
    (setFile p c l).map Prod.fst =
      if p ∈ l.map Prod.fst then l.map Prod.fst else l.map Prod.fst ++ [p] := by
  induction l with
  | nil => simp [setFile]
  | cons a t ih =>
    obtain ⟨q, c2⟩ := a
    by_cases h : q = p
    · subst h
      simp [setFile]
    · have h2 : ¬ p = q := fun e => h e.symm
      simp only [setFile, h, if_false, List.map_cons, ih, List.mem_cons, h2, false_or]
      split <;> simp

theorem setFile_setFile (p : String) (c0 c : List Byte) (l : List (String × List Byte)) :
    setFile p c (setFile p c0 l) = setFile p c l := by
  induction l with
  | nil => simp [setFile]
  | cons a t ih =>
    obtain ⟨q, c2⟩ := a
    by_cases h : q = p
    · subst h
      simp [setFile]
    · simp only [setFile, h, if_false, ih]

theorem newFiles_setFile (p : String) (c : List Byte) (l : List (String × List Byte)) :
    newFiles { files := l } { files := setFile p c l } =
      if p ∈ l.map Prod.fst then [] else [p] := by
  unfold newFiles
  simp only [setFile_paths]
  by_cases h : p ∈ l.map Prod.fst
  · simp only [h, if_true]
    rw [List.filter_eq_nil_iff]
    intro a ha
    simpa using ha
  · simp only [h, if_false, List.filter_append]
    have h1 : (l.map Prod.fst).filter (fun q => decide (q ∉ l.map Prod.fst)) = [] := by
      rw [List.filter_eq_nil_iff]
      intro a ha
      simpa using ha
    rw [h1]
    simp [List.filter, h]

theorem Download_ok (t : SFTPTransfer) (m : Machine) (remotePath localPath : String) (d : Disk)
    (h : (t.Download m remotePath localPath d).1 = none) :
    ∃ content, m.remote.lookup remotePath = some content ∧
      (t.Download m remotePath localPath d).2 = { files := setFile localPath content d.files } := by
  unfold SFTPTransfer.Download at h ⊢
  unfold sftpOpen at h ⊢
  by_cases ho : remotePath ∈ m.openFailing
  · simp [ho] at h
  · simp only [ho, if_false] at h ⊢
    cases hl : m.remote.lookup remotePath with
    | none => simp [hl] at h
    | some content =>
      simp only [hl] at h ⊢
      unfold osMkdirAll at h ⊢
      by_cases hm : m.mkdirFails = true
      · simp [hm] at h
      · simp only [hm, Bool.false_eq_true, if_false] at h ⊢
        unfold osCreate at h ⊢
        by_cases hc : localPath ∈ m.createFailing
        · simp [hc] at h
        · simp only [hc, if_false] at h ⊢
          unfold ioCopy at h ⊢
          by_cases hcp : remotePath ∈ m.copyFailing
          · simp [hcp] at h
          · simp only [hcp, if_false]
            exact ⟨content, rfl, by rw [setFile_setFile]⟩

theorem CreateBackup_success {σ : Type} (env : Collab σ) (transfer : SFTPTransfer)
    (remotePath host : String) (w : World σ)
    (hhost : '/' ∉ host.data)
    (hexists : (FileExists env transfer remotePath w).1 = true)
    (hmk : (MkdirAll env backupDir (Now env (FileExists env transfer remotePath w).2).2).1 = none)
    (hdl : (Download env transfer remotePath
        ("backups/" ++
          backupName host remotePath (Now env (FileExists env transfer remotePath w).2).1)
        (MkdirAll env backupDir (Now env (FileExists env transfer remotePath w).2).2).2).1 =
      none) :
    CreateBackup env transfer remotePath host w =
      (("backups/" ++
          backupName host remotePath (Now env (FileExists env transfer remotePath w).2).1,
          none),
        (Download env transfer remotePath
          ("backups/" ++
            backupName host remotePath (Now env (FileExists env transfer remotePath w).2).1)
          (MkdirAll env backupDir (Now env (FileExists env transfer remotePath w).2).2).2).2) := by
  obtain ⟨hn1, hn2, hn3, hn4⟩ := backupName_facts host remotePath
    (Now env (FileExists env transfer remotePath w).2).1 hhost
  have hjoin := filepathJoin_backupDir _ hn1 hn2 hn3 hn4
  unfold CreateBackup
  rw [stringsReplaceAll_slash]
  rcases hfe : FileExists env transfer remotePath w with ⟨b, w1⟩
  rw [hfe] at hexists hmk hdl hjoin
  simp only at hexists hmk hdl hjoin
  subst hexists
  simp only
  rcases hnow : Now env w1 with ⟨now, w2⟩
  rw [hnow] at hmk hdl hjoin
  simp only at hmk hdl hjoin ⊢
  have hname : host ++ sanitizeSpec remotePath ++ "_" ++ now.Format =
      backupName host remotePath now := rfl
  rw [hname, hjoin]
  rcases hm : MkdirAll env backupDir w2 with ⟨e3, w3⟩
  rw [hm] at hmk hdl
  simp only at hmk hdl
  subst hmk
  simp only
  rcases hd : Download env transfer remotePath ("backups/" ++ backupName host remotePath now) w3
    with ⟨e4, w4⟩
  rw [hd] at hdl
  simp only at hdl
  subst hdl
  rfl

/-- C13, as stated, fails in two ways.  For a host alias with a "/", the backup of
/etc/app.conf for the alias "dc1/web" is written to backups/dc1/, and its file name
"web_etc_app.conf_20250109-123005" does not start with the alias.  And a second
backup of the same file for the same alias within the same second succeeds, with
the same path as the first, and creates no new file: the first backup is
overwritten. -/
theorem CreateBackup_misnamed_or_not_new :
    ((CreateBackup fileExistsScenario.collab { client := 1 } "/etc/app.conf" "dc1/web"
        World.start).1 = ("backups/dc1/web_etc_app.conf_20250109-123005", none) ∧
      filepathBase "backups/dc1/web_etc_app.conf_20250109-123005" =
        "web_etc_app.conf_20250109-123005" ∧
      stringsHasPrefix "web_etc_app.conf_20250109-123005"
        ("dc1/web" ++ sanitizeSpec "/etc/app.conf") = false) ∧
    ((CreateBackup appConfMachine.collab { client := 1 } "/etc/app.conf" "web" emptyDisk).1 =
        ("backups/web_etc_app.conf_20250109-123005", none) ∧
      (CreateBackup appConfMachine.collab { client := 1 } "/etc/app.conf" "web"
        (CreateBackup appConfMachine.collab { client := 1 } "/etc/app.conf" "web"
          emptyDisk).2).1 = ("backups/web_etc_app.conf_20250109-123005", none) ∧
      newFiles
        (CreateBackup appConfMachine.collab { client := 1 } "/etc/app.conf" "web"
          emptyDisk).2.ext
        (CreateBackup appConfMachine.collab { client := 1 } "/etc/app.conf" "web"
          (CreateBackup appConfMachine.collab { client := 1 } "/etc/app.conf" "web"
            emptyDisk).2).2.ext = []) := by
  decide

/-- C13 (amended): for a host alias without "/" and a remote path whose file exists,
when `MkdirAll` and `Download` succeed, `CreateBackup` makes exactly one `Download`
and returns the path of the file it wrote.  That file lies directly in the backup
directory, is named hostAlias + sanitize(remotePath) + "_" + the current time
formatted YYYYMMDD-HHMMSS, so that its name starts with hostAlias +
sanitize(remotePath), and holds the remote content.  Every other local file is as
it was.  The file is the one new file on the disk when no file had this path
before; when one had, it is overwritten and no file is new. -/
theorem CreateBackup_creates (m : Machine) (transfer : SFTPTransfer)
    (remotePath host : String) (w : World Disk)
    (hhost : '/' ∉ host.data)
    (hexists : (FileExists m.collab transfer remotePath w).1 = true)
    (hmk : (MkdirAll m.collab backupDir
      (Now m.collab (FileExists m.collab transfer remotePath w).2).2).1 = none)
    (hdl : (Download m.collab transfer remotePath
        ("backups/" ++ backupName host remotePath m.clock)
        (MkdirAll m.collab backupDir
          (Now m.collab (FileExists m.collab transfer remotePath w).2).2).2).1 = none) :
    (CreateBackup m.collab transfer remotePath host w).1 =
        ("backups/" ++ backupName host remotePath m.clock, none) ∧
      '/' ∉ (backupName host remotePath m.clock).data ∧
      filepathBase (CreateBackup m.collab transfer remotePath host w).1.1 =
        backupName host remotePath m.clock ∧
      stringsHasPrefix (filepathBase (CreateBackup m.collab transfer remotePath host w).1.1)
        (host ++ sanitizeSpec remotePath) = true ∧
      callsSince w (CreateBackup m.collab transfer remotePath host w).2 =
        [Event.fileExists transfer remotePath true, Event.now,
          Event.mkdirAll backupDir true,
          Event.download transfer remotePath
            ("backups/" ++ backupName host remotePath m.clock) true] ∧
      (∃ content, m.remote.lookup remotePath = some content ∧
        (CreateBackup m.collab transfer remotePath host w).2.ext.files.lookup
          ("backups/" ++ backupName host remotePath m.clock) = some content) ∧
      (∀ q, q ≠ "backups/" ++ backupName host remotePath m.clock →
        (CreateBackup m.collab transfer remotePath host w).2.ext.files.lookup q =
          w.ext.files.lookup q) ∧
      newFiles w.ext (CreateBackup m.collab transfer remotePath host w).2.ext =
        if "backups/" ++ backupName host remotePath m.clock ∈ w.ext.files.map Prod.fst then []
        else ["backups/" ++ backupName host remotePath m.clock] := by
  obtain ⟨hn1, hn2, -, -⟩ := backupName_facts host remotePath m.clock hhost
  have hbase := filepathBase_backups _ hn1 hn2
  have hval := CreateBackup_success m.collab transfer remotePath host w hhost hexists hmk hdl
  have hclock : (Now m.collab (FileExists m.collab transfer remotePath w).2).1 = m.clock := rfl
  rw [hclock] at hval
  have hext : (MkdirAll m.collab backupDir
      (Now m.collab (FileExists m.collab transfer remotePath w).2).2).2.ext = w.ext := by
    simp only [MkdirAll, Now, FileExists, Machine.collab, osMkdirAll]
    split <;> rfl
  have hdisk : (CreateBackup m.collab transfer remotePath host w).2.ext =
      (transfer.Download m remotePath ("backups/" ++ backupName host remotePath m.clock)
        w.ext).2 := by
    rw [hval, ← hext]
    rfl
  have hdl2 : (transfer.Download m remotePath ("backups/" ++ backupName host remotePath m.clock)
      w.ext).1 = none := by
    rw [← hext]
    exact hdl
  obtain ⟨content, hrem, hfiles⟩ := Download_ok transfer m remotePath _ w.ext hdl2
  have hlog : (CreateBackup m.collab transfer remotePath host w).2.log =
      w.log ++ [Event.fileExists transfer remotePath true, Event.now,
        Event.mkdirAll backupDir true,
        Event.download transfer remotePath
          ("backups/" ++ backupName host remotePath m.clock) true] := by
    rw [hval]
    simp only
    rw [Download_log, hdl, MkdirAll_log, hmk, Now_log, FileExists_log, hexists]
    simp
  refine ⟨by rw [hval], hn1, ?_, ?_, callsSince_of_log _ _ _ hlog, ?_, ?_, ?_⟩
  · rw [hval]
    exact hbase
  · rw [hval]
    simp only
    rw [hbase]
    unfold stringsHasPrefix backupName
    simp only [String.data_append, List.append_assoc]
    rw [List.isPrefixOf_iff_prefix]
    exact ⟨_, (List.append_assoc _ _ _)⟩
  · exact ⟨content, hrem, by rw [hdisk, hfiles]; exact lookup_setFile_self _ _ _⟩
  · intro q hq
    rw [hdisk, hfiles]
    exact lookup_setFile_other _ _ _ _ hq
  · rw [hdisk, hfiles]
    exact newFiles_setFile _ _ _

/-- C13 for the alias "10.0.0.1" and /etc/app.conf at 2025-01-09 12:30:05, on an
empty disk: the backup is the one file on the disk afterwards, and it is new. -/
theorem CreateBackup_creates_witness :
    (CreateBackup appConfMachine.collab { client := 1 } "/etc/app.conf" "10.0.0.1"
        emptyDisk).1 = ("backups/10.0.0.1_etc_app.conf_20250109-123005", none) ∧
      (CreateBackup appConfMachine.collab { client := 1 } "/etc/app.conf" "10.0.0.1"
        emptyDisk).2.ext =
        { files := [("backups/10.0.0.1_etc_app.conf_20250109-123005", [97, 10])] } ∧
      newFiles emptyDisk.ext
        (CreateBackup appConfMachine.collab { client := 1 } "/etc/app.conf" "10.0.0.1"
          emptyDisk).2.ext = ["backups/10.0.0.1_etc_app.conf_20250109-123005"] :=
  ⟨by decide, by decide,
    ((CreateBackup_creates appConfMachine { client := 1 } "/etc/app.conf" "10.0.0.1"
      emptyDisk (by decide) (by decide) (by decide) (by decide)).2.2.2.2.2.2.2).trans
      (by decide)⟩

/-! ## Dry runs and sessions that do not open -/

theorem synthResults_mem (server : ServerConfig) (st e : String) (files : List FileConfig)
    (r : DeployResult) (h : r ∈ synthResults server st e files) :
    r.Status = st ∧ r.Backup = "" ∧ r.Error = e := by
  induction files with
  | nil => simp [synthResults] at h
  | cons f rest ih =>
    simp only [synthResults, List.mem_cons] at h
    rcases h with rfl | h
    · exact ⟨rfl, rfl, rfl⟩
    · exact ih h

theorem deployServers_dryRun {σ : Type} (env : Collab σ) (files : List FileConfig)
    (servers : List ServerConfig) (w : World σ) :
    (deployServers env files true servers w).2 = w ∧
      ∀ r ∈ (deployServers env files true servers w).1,
        r.Status = "dry-run" ∧ r.Backup = "" ∧ r.Error = "" := by
  induction servers generalizing w with
  | nil => exact ⟨rfl, by simp [deployServers]⟩
  | cons s rest ih =>
    have hs : deployServer env files true s w = (synthResults s "dry-run" "" files, w) := by
      simp [deployServer]
    simp only [deployServers, hs]
    refine ⟨(ih w).1, ?_⟩
    intro r hr
    rcases List.mem_append.mp hr with h | h
    · exact synthResults_mem _ _ _ _ _ h
    · exact (ih w).2 r h

/-- C14: a dry-run deploy makes no call at all (no session, no transfer, no backup,
no file read, no upload: the world is unchanged) and returns one result per
(server, file) pair in server-major order, with the status "dry-run", the host of
the server, the remote path of the file, and empty Backup and Error. -/
theorem ExecuteDeploy_dryRun {σ : Type} (env : Collab σ) (m : Manifest) (w : World σ) :
    (ExecuteDeploy env m true w).2 = w ∧
      callsSince w (ExecuteDeploy env m true w).2 = [] ∧
      (ExecuteDeploy env m true w).1.map (fun r => (r.Server, r.File)) =
        serverMajor m.Files m.Servers ∧
      (ExecuteDeploy env m true w).1.length = m.Servers.length * m.Files.length ∧
      ∀ r ∈ (ExecuteDeploy env m true w).1,
        r.Status = "dry-run" ∧ r.Backup = "" ∧ r.Error = "" := by
  have h := deployServers_dryRun env m.Files m.Servers w
  refine ⟨h.1, ?_, deployServers_id env m.Files true m.Servers w,
    deployServers_length env m.Files true m.Servers w, h.2⟩
  unfold ExecuteDeploy
  rw [h.1]
  simp [callsSince]

/-- C14 for the manifest of three hosts, one of them down, and two files: six
"dry-run" results and no call. -/
theorem ExecuteDeploy_dryRun_witness :
    (ExecuteDeploy hostDown.collab threeHosts true World.start).1.length = 3 * 2 ∧
      ∀ r ∈ (ExecuteDeploy hostDown.collab threeHosts true World.start).1,
        r.Status = "dry-run" ∧ r.Backup = "" ∧ r.Error = "" :=
  ⟨(ExecuteDeploy_dryRun hostDown.collab threeHosts World.start).2.2.2.1,
    (ExecuteDeploy_dryRun hostDown.collab threeHosts World.start).2.2.2.2⟩

theorem dryRunSteps_eq_map (steps : List TaskStep) :
    dryRunSteps steps =
      steps.map (fun step => ({ Step := stepLabel step, Status := "dry-run" } : StepResult)) := by
  induction steps with
  | nil => rfl
  | cons s rest ih => simp [dryRunSteps, ih]

theorem executeRunOnServer_dryRun {σ : Type} (env : Collab σ) (cfg : ClientConfig)
    (a taskName : String) (steps : List TaskStep) (w : World σ)
    (h : ∃ host, cfg.Hosts.lookup a = some host) :
    (executeRunOnServer env cfg a taskName steps true w).1 =
        some { Server := a, Task := taskName,
               Steps := steps.map (fun step =>
                 ({ Step := stepLabel step, Status := "dry-run" } : StepResult)),
               Status := "dry-run" } ∧
      ∃ evs, (executeRunOnServer env cfg a taskName steps true w).2.log = w.log ++ evs ∧
        ∀ e ∈ evs, e = Event.userHomeDir := by
  obtain ⟨host, hh⟩ := h
  obtain ⟨evs, hl, hev⟩ := ResolveHost_spec env cfg a w
  have hr : ResolveHost env cfg a w =
      (({ host with Key := (ExpandHome env host.Key w).1 }, none),
        (ExpandHome env host.Key w).2) := by
    simp [ResolveHost, hh]
  rw [hr] at hl
  simp only [executeRunOnServer, hr, if_true, dryRunSteps_eq_map]
  exact ⟨trivial, evs, hl, hev⟩

theorem runAliases_dryRun {σ : Type} (env : Collab σ) (cfg : ClientConfig)
    (taskName : String) (steps : List TaskStep) (aliases : List String) (w : World σ)
    (h : ∀ a ∈ aliases, ∃ host, cfg.Hosts.lookup a = some host) :
    (runAliases env cfg taskName steps true aliases w).1 =
        some (aliases.map (fun a =>
          ({ Server := a, Task := taskName,
             Steps := steps.map (fun step =>
               ({ Step := stepLabel step, Status := "dry-run" } : StepResult)),
             Status := "dry-run" } : RunResult))) ∧
      ∃ evs, (runAliases env cfg taskName steps true aliases w).2.log = w.log ++ evs ∧
        ∀ e ∈ evs, e = Event.userHomeDir := by
  induction aliases generalizing w with
  | nil => exact ⟨rfl, [], by simp [runAliases], by simp⟩
  | cons a rest ih =>
    obtain ⟨h1, e1, l1, m1⟩ := executeRunOnServer_dryRun env cfg a taskName steps w
      (h a (by simp))
    rcases hx : executeRunOnServer env cfg a taskName steps true w with ⟨r, w1⟩
    rw [hx] at h1 l1
    simp only at h1 l1
    subst h1
    obtain ⟨h2, e2, l2, m2⟩ := ih w1 (fun b hb => h b (by simp [hb]))
    rcases hy : runAliases env cfg taskName steps true rest w1 with ⟨rs, w2⟩
    rw [hy] at h2 l2
    simp only at h2 l2
    subst h2
    simp only [runAliases, hx, hy, List.map_cons, true_and]
    refine ⟨e1 ++ e2, by rw [l2, l1, List.append_assoc], ?_⟩
    intro e he
    rcases List.mem_append.mp he with h | h
    · exact m1 e h
    · exact m2 e h

/-- C15: for a task name that resolves and aliases that all name configured hosts,
a dry-run `ExecuteRun` returns one `RunResult` per alias, in order, with the host
status "dry-run" and one step entry per task step, in task order, with the status
"dry-run" and the label `stepLabel(step)` ("file:" + remote for a file step,
"exec:" + command for an exec step); the only calls made are home directory
lookups, so no session and no transfer is opened. -/
theorem ExecuteRun_dryRun {σ : Type} (env : Collab σ) (cfg : ClientConfig)
    (taskName : String) (aliases : List String) (steps : List TaskStep) (w : World σ)
    (htask : ResolveTask cfg taskName = (steps, none))
    (hhosts : ∀ a ∈ aliases, (cfg.Hosts.lookup a).isSome = true) :
    (ExecuteRun env cfg taskName aliases true w).1 =
        some (aliases.map (fun a =>
          ({ Server := a, Task := taskName,
             Steps := steps.map (fun step =>
               ({ Step := stepLabel step, Status := "dry-run" } : StepResult)),
             Status := "dry-run" } : RunResult))) ∧
      (∀ e ∈ callsSince w (ExecuteRun env cfg taskName aliases true w).2,
        e = Event.userHomeDir) ∧
      ∀ step ∈ steps,
        (step.Type_ = "file" → stepLabel step = "file:" ++ step.Remote) ∧
        (step.Type_ = "exec" → stepLabel step = "exec:" ++ step.Run) := by
  obtain ⟨h1, evs, hl, hev⟩ := runAliases_dryRun env cfg taskName steps aliases w
    (fun a ha => Option.isSome_iff_exists.mp (hhosts a ha))
  have hrun : ExecuteRun env cfg taskName aliases true w =
      runAliases env cfg taskName steps true aliases w := by
    simp [ExecuteRun, htask]
  rw [hrun]
  refine ⟨h1, ?_, ?_⟩
  · rw [callsSince_of_log _ _ _ hl]
    exact hev
  · intro step _
    constructor
    · intro h
      simp [stepLabel, h]
    · intro h
      have hne : step.Type_ ≠ "file" := by
        rw [h]
        decide
      simp [stepLabel, h, hne]

/-- C15 for the task "release" and the aliases "web", "web": two results with three
"dry-run" steps each, and no call at all since the key path needs no expansion. -/
theorem ExecuteRun_dryRun_witness :
    (ExecuteRun hostDown.collab sampleConfig "release" ["web", "web"] true World.start).1 =
      some (["web", "web"].map (fun a =>
        ({ Server := a, Task := "release",
           Steps := [{ Step := "exec:systemctl stop app", Status := "dry-run" },
                     { Step := "exec:migrate", Status := "dry-run" },
                     { Step := "exec:systemctl start app", Status := "dry-run" }],
           Status := "dry-run" } : RunResult))) ∧
      callsSince World.start
        (ExecuteRun hostDown.collab sampleConfig "release" ["web", "web"] true World.start).2 =
        [] :=
  ⟨(ExecuteRun_dryRun hostDown.collab sampleConfig "release" ["web", "web"]
      [{ Type_ := "exec", Run := "systemctl stop app" },
       { Type_ := "exec", Run := "migrate" },
       { Type_ := "exec", Run := "systemctl start app" }] World.start rfl (by decide)).1,
    by decide⟩

/-- C16, as stated, fails: for the three-step task "release" on a host whose
session does not open, `Steps` holds one entry, named "connect", not three. -/
theorem executeRunOnServer_one_connect_entry :
    (executeRunOnServer webDown.collab sampleConfig "web" "release"
        [{ Type_ := "exec", Run := "systemctl stop app" },
         { Type_ := "exec", Run := "migrate" },
         { Type_ := "exec", Run := "systemctl start app" }] false World.start).1 =
      some { Server := "web", Task := "release", Status := "error",
             Steps := [{ Step := "connect", Status := "error",
                         Error := "connection failed: dial tcp: connection refused" }] } ∧
      ([{ Type_ := "exec", Run := "systemctl stop app" },
        { Type_ := "exec", Run := "migrate" },
        { Type_ := "exec", Run := "systemctl start app" }] : List TaskStep).length = 3 := by
  decide

/-- C16 (amended): when the host resolves and its session fails to open in a run
that is not a dry run, `executeRunOnServer` returns the host status "error" and
`Steps` holds exactly one entry, named "connect", with the status "error" and the
error "connection failed: ...", whatever the number of task steps; no step is
executed: the failed `NewSSHClient` is the last call. -/
theorem executeRunOnServer_connect_failure {σ : Type} (env : Collab σ) (cfg : ClientConfig)
    (hostAlias taskName : String) (steps : List TaskStep) (w w1 w2 : World σ)
    (server : ServerConfig) (err : String)
    (hres : ResolveHost env cfg hostAlias w = ((server, none), w1))
    (hcl : NewSSHClient env server.Host server.User
      { KeyPath := server.Key, Password := server.Password } w1 = (.error err, w2)) :
    executeRunOnServer env cfg hostAlias taskName steps false w =
        (some { Server := hostAlias, Task := taskName, Status := "error",
                Steps := [{ Step := "connect", Status := "error",
                            Error := "connection failed: " ++ err }] }, w2) ∧
      callsSince w1 w2 =
        [Event.newSSHClient server.Host server.User
          { KeyPath := server.Key, Password := server.Password } false] := by
  constructor
  · simp [executeRunOnServer, hres, hcl]
  · have hl := NewSSHClient_log env server.Host server.User
      { KeyPath := server.Key, Password := server.Password } w1
    rw [hcl] at hl
    exact callsSince_of_log _ _ _ hl

/-- C16 for the three-step task "release" on the unreachable host "web". -/
theorem executeRunOnServer_connect_failure_witness :
    executeRunOnServer webDown.collab sampleConfig "web" "release"
        [{ Type_ := "exec", Run := "systemctl stop app" },
         { Type_ := "exec", Run := "migrate" },
         { Type_ := "exec", Run := "systemctl start app" }] false World.start =
      (some { Server := "web", Task := "release", Status := "error",
              Steps := [{ Step := "connect", Status := "error",
                          Error := "connection failed: " ++ "dial tcp: connection refused" }] },
        { ext := (), log := [Event.newSSHClient "10.0.0.1" "deploy"
            { KeyPath := "/keys/id_rsa", Password := "" } false] }) :=
  (executeRunOnServer_connect_failure webDown.collab sampleConfig "web" "release"
    [{ Type_ := "exec", Run := "systemctl stop app" },
     { Type_ := "exec", Run := "migrate" },
     { Type_ := "exec", Run := "systemctl start app" }] World.start World.start _
    { Host := "10.0.0.1", User := "deploy", Key := "/keys/id_rsa" } _ rfl rfl).1

/-! ## Host status, restart and exec steps -/

theorem needsSFTP_false (steps : List TaskStep) (h : needsSFTP steps = false) :
    ∀ s ∈ steps, s.Type_ ≠ "file" := by
  intro s hs hfile
  have : needsSFTP steps = true := by
    unfold needsSFTP
    rw [List.any_eq_true]
    exact ⟨s, hs, by simp [hfile]⟩
  rw [h] at this
  exact absurd this (by decide)

theorem runStep_total {σ : Type} (env : Collab σ) (client : SSHClient)
    (tr : Option SFTPTransfer) (host : String) (step : TaskStep) (w : World σ)
    (h : tr = none → step.Type_ ≠ "file") :
    ∃ r w1, runStep env client tr host step w = (some r, w1) := by
  unfold runStep
  by_cases hf : step.Type_ = "file"
  · cases tr with
    | none => exact absurd hf (h rfl)
    | some t =>
      rw [if_pos hf]
      exact ⟨_, _, rfl⟩
  · rw [if_neg hf]
    by_cases he : step.Type_ = "exec"
    · rw [if_pos he]
      exact ⟨_, _, rfl⟩
    · rw [if_neg he]
      exact ⟨_, _, rfl⟩

theorem runSteps_status {σ : Type} (env : Collab σ) (client : SSHClient)
    (tr : Option SFTPTransfer) (host : String) (steps : List TaskStep) (w : World σ)
    (h : tr = none → ∀ s ∈ steps, s.Type_ ≠ "file") :
    ∃ rs ok w1, runSteps env client tr host steps w = (some (rs, ok), w1) ∧
      (ok = true ↔ ∀ r ∈ rs, r.Status ≠ "error") ∧
      (ok = true → runAll env client tr host steps w = (some rs, w1)) := by
  induction steps generalizing w with
  | nil => exact ⟨[], true, w, rfl, by simp, fun _ => rfl⟩
  | cons step rest ih =>
    obtain ⟨r, w1, hr⟩ := runStep_total env client tr host step w
      (fun hn => h hn step (by simp))
    by_cases herr : r.Status = "error"
    · refine ⟨[r], false, w1, by simp only [runSteps, hr, herr, if_true], ?_, ?_⟩
      · simp [herr]
      · intro hc
        exact absurd hc (by decide)
    · obtain ⟨rs, ok, w2, hrs, hiff, hall⟩ := ih w1 (fun hn s hs => h hn s (by simp [hs]))
      refine ⟨r :: rs, ok, w2, by simp only [runSteps, hr, herr, if_false, hrs], ?_, ?_⟩
      · rw [hiff]
        simp [herr]
      · intro hok
        simp only [runAll, hr, hall hok]

theorem split_at_marked (p : Event → Bool) (a pre post : List Event) (x y : Event)
    (ha : ∀ e ∈ a, p e = false) (hx : p x = true)
    (h : a ++ [y] = pre ++ x :: post) : pre = a ∧ x = y ∧ post = [] := by
  induction a generalizing pre with
  | nil =>
    cases pre with
    | nil =>
      simp only [List.nil_append, List.cons.injEq] at h
      exact ⟨rfl, h.1.symm, h.2.symm⟩
    | cons b pre2 =>
      have := congrArg List.length h
      simp at this
  | cons c a2 ih =>
    cases pre with
    | nil =>
      simp only [List.cons_append, List.nil_append, List.cons.injEq] at h
      have hc := ha c (by simp)
      rw [h.1, hx] at hc
      exact absurd hc (by decide)
    | cons b pre2 =>
      simp only [List.cons_append, List.cons.injEq] at h
      obtain ⟨h1, h2, h3⟩ := ih pre2 (fun e he => ha e (by simp [he])) h.2
      exact ⟨by rw [h.1, h1], h2, h3⟩

theorem deploySingleFile_shape {σ : Type} (env : Collab σ) (c : SSHClient) (t : SFTPTransfer)
    (s : ServerConfig) (f : FileConfig) (w : World σ) :
    ∃ evs, (deploySingleFile env c t s f w).2.log = w.log ++ evs ∧
      ((∀ e ∈ evs, e.isExecute = false) ∨
        ∃ a d ok, evs = a ++ [Event.uploadBytes t d f.Remote true] ++
            [Event.execute c f.Restart ok] ∧
          ∀ e ∈ a, e.isExecute = false) := by
  obtain ⟨evs1, l1, hno1, -, -⟩ := CreateBackup_spec env t f.Remote s.Host w
  unfold deploySingleFile
  rcases hcb : CreateBackup env t f.Remote s.Host w with ⟨⟨bp, _ | err⟩, w1⟩
  · rw [hcb] at l1
    simp only at l1 ⊢
    obtain ⟨okr, l2⟩ := NormalizeFile_spec env f.Local w1
    have hA : ∀ e ∈ evs1 ++ [Event.readFile f.Local okr], e.isExecute = false := by
      intro e he
      rcases List.mem_append.mp he with h | h
      · exact (hno1 e h).2
      · simp at h; subst h; rfl
    rcases hn : NormalizeFile env f.Local w1 with ⟨⟨data, _ | err⟩, w2⟩
    · rw [hn] at l2
      simp only at l2 ⊢
      have l3 := UploadBytes_log env t data f.Remote w2
      rcases hu : UploadBytes env t data f.Remote w2 with ⟨_ | err, w3⟩
      · rw [hu] at l3
        simp only at l3 ⊢
        by_cases hr : f.Restart = ""
        · simp only [hr, ne_eq, not_true_eq_false, if_false]
          refine ⟨evs1 ++ [Event.readFile f.Local okr] ++
            [Event.uploadBytes t data f.Remote true], ?_, Or.inl ?_⟩
          · rw [l3, l2, l1]; simp
          · intro e he
            rcases List.mem_append.mp he with h | h
            · exact hA e h
            · simp at h; subst h; rfl
        · simp only [hr, ne_eq, not_false_eq_true, if_true]
          have l4 := Execute_log env c f.Restart w3
          rcases he : Execute env c f.Restart w3 with ⟨⟨out, _ | err⟩, w4⟩ <;>
            rw [he] at l4 <;> simp only at l4 ⊢
          · refine ⟨evs1 ++ [Event.readFile f.Local okr] ++
              [Event.uploadBytes t data f.Remote true] ++ [Event.execute c f.Restart true],
              ?_, Or.inr ⟨_, data, true, rfl, hA⟩⟩
            rw [l4, l3, l2, l1]; simp
          · refine ⟨evs1 ++ [Event.readFile f.Local okr] ++
              [Event.uploadBytes t data f.Remote true] ++ [Event.execute c f.Restart false],
              ?_, Or.inr ⟨_, data, false, rfl, hA⟩⟩
            rw [l4, l3, l2, l1]; simp
      · rw [hu] at l3
        simp only at l3 ⊢
        refine ⟨evs1 ++ [Event.readFile f.Local okr] ++
          [Event.uploadBytes t data f.Remote false], ?_, Or.inl ?_⟩
        · rw [l3, l2, l1]; simp
        · intro e he
          rcases List.mem_append.mp he with h | h
          · exact hA e h
          · simp at h; subst h; rfl
    · rw [hn] at l2
      simp only at l2 ⊢
      exact ⟨evs1 ++ [Event.readFile f.Local okr], by rw [l2, l1]; simp, Or.inl hA⟩
  · rw [hcb] at l1
    simp only at l1 ⊢
    exact ⟨evs1, l1, Or.inl (fun e he => (hno1 e he).2)⟩

/-- C18: when the backup, the normalization and the upload of a file action
succeed, a configured restart command that fails gives the status "warning" with
the backup path attached and a non-empty Error, and no restart command or one that
succeeds gives the status "ok" with the backup path and an empty Error; and in
every run of `deploySingleFile` an `Execute` call is the restart command of the
file and comes right after a successful `UploadBytes` of its remote path. -/
theorem deploySingleFile_restart {σ : Type} (env : Collab σ) (client : SSHClient)
    (transfer : SFTPTransfer) (server : ServerConfig) (file : FileConfig) (w : World σ) :
    (∀ bp data w1 w2 w3,
      CreateBackup env transfer file.Remote server.Host w = ((bp, none), w1) →
      NormalizeFile env file.Local w1 = ((data, none), w2) →
      UploadBytes env transfer data file.Remote w2 = (none, w3) →
      (∀ err, file.Restart ≠ "" → (Execute env client file.Restart w3).1.2 = some err →
        (deploySingleFile env client transfer server file w).1.Status = "warning" ∧
        (deploySingleFile env client transfer server file w).1.Backup = bp ∧
        (deploySingleFile env client transfer server file w).1.Error ≠ "" ∧
        (deploySingleFile env client transfer server file w).1.Error =
          "restart failed: " ++ err ++ " (output: " ++
            (Execute env client file.Restart w3).1.1 ++ ")") ∧
      (file.Restart = "" ∨ (Execute env client file.Restart w3).1.2 = none →
        (deploySingleFile env client transfer server file w).1.Status = "ok" ∧
        (deploySingleFile env client transfer server file w).1.Backup = bp ∧
        (deploySingleFile env client transfer server file w).1.Error = "") ∧
      (file.Restart = "" → (deploySingleFile env client transfer server file w).2 = w3)) ∧
    ∀ pre c cmd ok post,
      callsSince w (deploySingleFile env client transfer server file w).2 =
        pre ++ Event.execute c cmd ok :: post →
      c = client ∧ cmd = file.Restart ∧ post = [] ∧
        ∃ before data, pre = before ++ [Event.uploadBytes transfer data file.Remote true] := by
  constructor
  · intro bp data w1 w2 w3 hcb hn hu
    refine ⟨?_, ?_, ?_⟩
    · intro err hr he
      rcases hx : Execute env client file.Restart w3 with ⟨⟨out, e⟩, w4⟩
      rw [hx] at he
      simp only at he
      subst he
      simp only [deploySingleFile, hcb, hn, hu, hr, ne_eq, not_false_eq_true, if_true, hx,
        true_and, and_true]
      intro h
      have := congrArg String.data h
      simp at this
    · intro h
      rcases h with hr | he
      · simp [deploySingleFile, hcb, hn, hu, hr]
      · rcases hx : Execute env client file.Restart w3 with ⟨⟨out, e⟩, w4⟩
        rw [hx] at he
        simp only at he
        subst he
        by_cases hr : file.Restart = ""
        · simp [deploySingleFile, hcb, hn, hu, hr]
        · simp [deploySingleFile, hcb, hn, hu, hr, hx]
    · intro hr
      simp [deploySingleFile, hcb, hn, hu, hr]
  · intro pre c cmd ok post hcalls
    obtain ⟨evs, hl, hshape⟩ := deploySingleFile_shape env client transfer server file w
    rw [callsSince_of_log _ _ _ hl] at hcalls
    rcases hshape with hno | ⟨a, d, ok2, hevs, ha⟩
    · have := hno (Event.execute c cmd ok) (by rw [hcalls]; simp)
      simp [Event.isExecute] at this
    · rw [hevs] at hcalls
      have hA : ∀ e ∈ a ++ [Event.uploadBytes transfer d file.Remote true],
          e.isExecute = false := by
        intro e he
        rcases List.mem_append.mp he with h | h
        · exact ha e h
        · simp at h; subst h; rfl
      obtain ⟨h1, h2, h3⟩ := split_at_marked Event.isExecute _ pre post
        (Event.execute c cmd ok) _ hA rfl hcalls
      simp only [Event.execute.injEq] at h2
      exact ⟨h2.1, h2.2.1, h3, a, d, h1⟩

/-- C18 for a file action whose restart command fails after a successful upload:
the status is "warning", the error is not empty. -/
theorem deploySingleFile_restart_witness :
    (deploySingleFile
        ({ existing := ["/etc/app.conf"], failingCommands := ["systemctl restart app"] } :
          Scenario).collab
        { Client := 1, Host := "10.0.0.1", User := "deploy" } { client := 1 }
        { Host := "10.0.0.1", User := "deploy" }
        { Local := "app.conf", Remote := "/etc/app.conf", Restart := "systemctl restart app" }
        World.start).1 =
      { Server := "10.0.0.1", File := "/etc/app.conf", Status := "warning",
        Backup := "backups/10.0.0.1_etc_app.conf_19700101-000000",
        Error := "restart failed: exit status 1 (output: failed)" } ∧
    (deploySingleFile
        ({ existing := ["/etc/app.conf"], failingCommands := ["systemctl restart app"] } :
          Scenario).collab
        { Client := 1, Host := "10.0.0.1", User := "deploy" } { client := 1 }
        { Host := "10.0.0.1", User := "deploy" }
        { Local := "app.conf", Remote := "/etc/app.conf", Restart := "systemctl restart app" }
        World.start).1.Error ≠ "" :=
  ⟨by decide,
    (((deploySingleFile_restart
      ({ existing := ["/etc/app.conf"], failingCommands := ["systemctl restart app"] } :
        Scenario).collab
      { Client := 1, Host := "10.0.0.1", User := "deploy" } { client := 1 }
      { Host := "10.0.0.1", User := "deploy" }
      { Local := "app.conf", Remote := "/etc/app.conf", Restart := "systemctl restart app" }
      World.start).1 _ _ _ _ _ rfl rfl rfl).1 "exit status 1" (by decide) rfl).2.2.1⟩

/-- C19: the `StepResult` of `executeExecStep` carries the output that `Execute`
returned, whether the command succeeded or failed; its status is "ok" exactly when
`Execute` returned no error and "error" otherwise; and its Error is non-empty
exactly when the status is "error". -/
theorem executeExecStep_result {σ : Type} (env : Collab σ) (client : SSHClient)
    (step : TaskStep) (w : World σ) :
    (executeExecStep env client step w).1.Output = (Execute env client step.Run w).1.1 ∧
      ((executeExecStep env client step w).1.Status = "ok" ↔
        (Execute env client step.Run w).1.2 = none) ∧
      ((Execute env client step.Run w).1.2 ≠ none →
        (executeExecStep env client step w).1.Status = "error") ∧
      ((executeExecStep env client step w).1.Error ≠ "" ↔
        (executeExecStep env client step w).1.Status = "error") ∧
      (executeExecStep env client step w).1.Step = stepLabel step ∧
      (executeExecStep env client step w).2 = (Execute env client step.Run w).2 := by
  unfold executeExecStep
  rcases hx : Execute env client step.Run w with ⟨⟨out, _ | err⟩, w1⟩
  · simp
  · have hne : "command failed: " ++ err ≠ "" := by
      intro h
      have := congrArg String.data h
      simp at this
    simp [hne]

/-- C19 for a command that fails with the output "failed": the output is kept and
the status is "error". -/
theorem executeExecStep_result_witness :
    (executeExecStep migrateFails.collab { Client := 1, Host := "10.0.0.1", User := "deploy" }
        { Type_ := "exec", Run := "migrate" } World.start).1 =
      { Step := "exec:migrate", Status := "error", Output := "failed",
        Error := "command failed: exit status 1" } ∧
    (executeExecStep migrateFails.collab { Client := 1, Host := "10.0.0.1", User := "deploy" }
        { Type_ := "exec", Run := "migrate" } World.start).1.Status = "error" :=
  ⟨by decide,
    (executeExecStep_result migrateFails.collab
      { Client := 1, Host := "10.0.0.1", User := "deploy" }
      { Type_ := "exec", Run := "migrate" } World.start).2.2.1 (by decide)⟩

/-! ## Manifest validation -/

theorem validateServers_none_iff (i : Nat) (servers : List ServerConfig) :
    validateServers i servers = none ↔
      ∀ s ∈ servers, s.Host ≠ "" ∧ s.User ≠ "" ∧ (s.Key ≠ "" ∨ s.Password ≠ "") := by
  induction servers generalizing i with
  | nil => simp [validateServers]
  | cons s rest ih =>
    simp only [validateServers, List.mem_cons, forall_eq_or_imp]
    by_cases h1 : s.Host = ""
    · simp [h1]
    · by_cases h2 : s.User = ""
      · simp [h1, h2]
      · by_cases h3 : s.Key = "" ∧ s.Password = ""
        · simp [h1, h2, h3]
        · rw [if_neg h1, if_neg h2, if_neg h3, ih]
          have h4 : s.Key ≠ "" ∨ s.Password ≠ "" := by
            by_contra hc
            simp only [not_or, not_not] at hc
            exact h3 hc
          simp [h1, h2, h4]

theorem validateFiles_none_iff (i : Nat) (files : List FileConfig) :
    validateFiles i files = none ↔ ∀ f ∈ files, f.Local ≠ "" ∧ f.Remote ≠ "" := by
  induction files generalizing i with
  | nil => simp [validateFiles]
  | cons f rest ih =>
    simp only [validateFiles, List.mem_cons, forall_eq_or_imp]
    by_cases h1 : f.Local = ""
    · simp [h1]
    · by_cases h2 : f.Remote = ""
      · simp [h1, h2]
      · rw [if_neg h1, if_neg h2, ih]
        simp [h1, h2]

theorem ValidateManifest_none_iff (m : Manifest) :
    (ValidateManifest m).1 = none ↔
      m.Servers ≠ [] ∧ m.Files ≠ [] ∧
      (∀ s ∈ m.Servers, s.Host ≠ "" ∧ s.User ≠ "" ∧ (s.Key ≠ "" ∨ s.Password ≠ "")) ∧
      ∀ f ∈ m.Files, f.Local ≠ "" ∧ f.Remote ≠ "" := by
  rw [← validateServers_none_iff 0, ← validateFiles_none_iff 0]
  unfold ValidateManifest
  by_cases hs : m.Servers = []
  · simp [hs]
  · by_cases hf : m.Files = []
    · simp [hs, hf]
    · have hs2 : ¬ m.Servers.length = 0 := fun h => hs (List.length_eq_zero.mp h)
      have hf2 : ¬ m.Files.length = 0 := fun h => hf (List.length_eq_zero.mp h)
      rw [if_neg hs2, if_neg hf2]
      cases h1 : validateServers 0 m.Servers with
      | some e => simp
      | none =>
        cases h2 : validateFiles 0 m.Files with
        | some e => simp [hs, hf]
        | none => simp [hs, hf]

theorem ValidateManifest_same (m : Manifest) : (ValidateManifest m).2 = m := by
  unfold ValidateManifest
  repeat' split
  all_goals rfl

/-- C20: `ValidateManifest` returns no error exactly when the manifest has a server
and a file, every server has a host, a user and a key or a password, and every file
has a local and a remote path (all non-empty); the manifest is the same after the
call; and two manifests that differ only in the restart fields are both accepted or
both rejected. -/
theorem ValidateManifest_accepts_iff (m : Manifest) :
    ((ValidateManifest m).1 = none ↔
      m.Servers ≠ [] ∧ m.Files ≠ [] ∧
      (∀ s ∈ m.Servers, s.Host ≠ "" ∧ s.User ≠ "" ∧ (s.Key ≠ "" ∨ s.Password ≠ "")) ∧
      ∀ f ∈ m.Files, f.Local ≠ "" ∧ f.Remote ≠ "") ∧
    (ValidateManifest m).2 = m ∧
    ∀ m2 : Manifest, m2.Servers = m.Servers →
      m2.Files.map (fun f => (f.Local, f.Remote)) = m.Files.map (fun f => (f.Local, f.Remote)) →
      ((ValidateManifest m2).1 = none ↔ (ValidateManifest m).1 = none) := by
  refine ⟨ValidateManifest_none_iff m, ValidateManifest_same m, ?_⟩
  intro m2 hs hf
  have hne : m2.Files ≠ [] ↔ m.Files ≠ [] := by
    have := congrArg List.length hf
    simp only [List.length_map] at this
    constructor
    · intro h1 h2
      rw [h2] at this
      exact h1 (List.length_eq_zero.mp this)
    · intro h1 h2
      rw [h2] at this
      exact h1 (List.length_eq_zero.mp this.symm)
  have hall : ∀ l : List FileConfig,
      (∀ f ∈ l, f.Local ≠ "" ∧ f.Remote ≠ "") ↔
        ∀ p ∈ l.map (fun f => (f.Local, f.Remote)), p.1 ≠ "" ∧ p.2 ≠ "" := by
    intro l
    simp
  rw [ValidateManifest_none_iff, ValidateManifest_none_iff, hs, hne, hall m2.Files,
    hall m.Files, hf]

/-- C20 on the manifests of the tests: the valid one is accepted, with or without
a restart command, and the one whose server has neither key nor password is not. -/
theorem ValidateManifest_accepts_iff_witness :
    (ValidateManifest
        { Servers := [{ Host := "h", User := "u", Key := "k" }],
          Files := [{ Local := "l", Remote := "r" }] }).1 = none ∧
    (ValidateManifest
        { Servers := [{ Host := "h", User := "u", Key := "k" }],
          Files := [{ Local := "l", Remote := "r", Restart := "systemctl restart app" }] }).1 =
      none ∧
    (ValidateManifest
        { Servers := [{ Host := "h", User := "u" }],
          Files := [{ Local := "l", Remote := "r" }] }).1 =
      some "manifest: server[0] missing key or password" :=
  ⟨(ValidateManifest_accepts_iff
      { Servers := [{ Host := "h", User := "u", Key := "k" }],
        Files := [{ Local := "l", Remote := "r" }] }).1.mpr (by decide),
    ((ValidateManifest_accepts_iff
      { Servers := [{ Host := "h", User := "u", Key := "k" }],
        Files := [{ Local := "l", Remote := "r" }] }).2.2
      { Servers := [{ Host := "h", User := "u", Key := "k" }],
        Files := [{ Local := "l", Remote := "r", Restart := "systemctl restart app" }] }
      rfl rfl).mpr (by decide),
    by decide⟩

/-! ## Configuration validation and lookups -/

theorem validateHosts_none_iff (hosts : List (String × ServerConfig)) :
    validateHosts hosts = none ↔
      ∀ h ∈ hosts, h.2.Host ≠ "" ∧ h.2.User ≠ "" ∧ (h.2.Key ≠ "" ∨ h.2.Password ≠ "") := by
  induction hosts with
  | nil => simp [validateHosts]
  | cons h rest ih =>
    obtain ⟨name, host⟩ := h
    simp only [validateHosts, List.mem_cons, forall_eq_or_imp]
    by_cases h1 : host.Host = ""
    · simp [h1]
    · by_cases h2 : host.User = ""
      · simp [h1, h2]
      · by_cases h3 : host.Key = "" ∧ host.Password = ""
        · simp [h1, h2, h3]
        · rw [if_neg h1, if_neg h2, if_neg h3, ih]
          have h4 : host.Key ≠ "" ∨ host.Password ≠ "" := by
            by_contra hc
            simp only [not_or, not_not] at hc
            exact h3 hc
          simp [h1, h2, h4]

theorem validateSteps_none_iff (name : String) (i : Nat) (steps : List TaskStep) :
    validateSteps name i steps = none ↔
      ∀ s ∈ steps, (s.Type_ = "file" ∧ s.Local ≠ "" ∧ s.Remote ≠ "") ∨
        (s.Type_ = "exec" ∧ s.Run ≠ "") := by
  induction steps generalizing i with
  | nil => simp [validateSteps]
  | cons s rest ih =>
    simp only [validateSteps, List.mem_cons, forall_eq_or_imp]
    by_cases hf : s.Type_ = "file"
    · have hne : s.Type_ ≠ "exec" := by
        rw [hf]
        decide
      rw [if_pos hf]
      by_cases h1 : s.Local = ""
      · simp [h1, hne]
      · by_cases h2 : s.Remote = ""
        · simp [h1, h2, hne]
        · rw [if_neg h1, if_neg h2, ih]
          simp [hf, h1, h2]
    · rw [if_neg hf]
      by_cases he : s.Type_ = "exec"
      · rw [if_pos he]
        by_cases h3 : s.Run = ""
        · simp [h3, hf]
        · rw [if_neg h3, ih]
          simp [hf, he, h3]
      · simp [hf, he]

theorem validateTasks_none_iff (tasks : List (String × List TaskStep)) :
    validateTasks tasks = none ↔
      ∀ t ∈ tasks, t.2 ≠ [] ∧
        ∀ s ∈ t.2, (s.Type_ = "file" ∧ s.Local ≠ "" ∧ s.Remote ≠ "") ∨
          (s.Type_ = "exec" ∧ s.Run ≠ "") := by
  induction tasks with
  | nil => simp [validateTasks]
  | cons t rest ih =>
    obtain ⟨name, steps⟩ := t
    simp only [validateTasks, List.mem_cons, forall_eq_or_imp]
    by_cases h0 : steps = []
    · simp [h0]
    · have h1 : ¬ steps.length = 0 := fun h => h0 (List.length_eq_zero.mp h)
      rw [if_neg h1]
      cases hs : validateSteps name 0 steps with
      | some e =>
        have := (validateSteps_none_iff name 0 steps).not.mp (by simp [hs])
        constructor
        · intro h
          exact absurd h (by simp)
        · intro h
          exact absurd h.1.2 this
      | none =>
        have := (validateSteps_none_iff name 0 steps).mp hs
        simp only [ih]
        constructor
        · exact fun h => ⟨⟨h0, this⟩, h⟩
        · exact fun h => h.2

theorem Validate_none_iff (c : ClientConfig) :
    c.Validate = none ↔
      c.Hosts ≠ [] ∧ c.Tasks ≠ [] ∧
      (∀ h ∈ c.Hosts, h.2.Host ≠ "" ∧ h.2.User ≠ "" ∧ (h.2.Key ≠ "" ∨ h.2.Password ≠ "")) ∧
      ∀ t ∈ c.Tasks, t.2 ≠ [] ∧
        ∀ s ∈ t.2, (s.Type_ = "file" ∧ s.Local ≠ "" ∧ s.Remote ≠ "") ∨
          (s.Type_ = "exec" ∧ s.Run ≠ "") := by
  rw [← validateHosts_none_iff, ← validateTasks_none_iff]
  unfold ClientConfig.Validate
  by_cases hh : c.Hosts = []
  · simp [hh]
  · by_cases ht : c.Tasks = []
    · simp [hh, ht]
    · have hh2 : ¬ c.Hosts.length = 0 := fun h => hh (List.length_eq_zero.mp h)
      have ht2 : ¬ c.Tasks.length = 0 := fun h => ht (List.length_eq_zero.mp h)
      rw [if_neg hh2, if_neg ht2]
      cases h1 : validateHosts c.Hosts with
      | some e => simp
      | none => simp [hh, ht]

/-- C21: `Validate` returns no error exactly when the configuration has a host and
a task, every host has an address, a user and a key or a password, every task has a
step, and every step is of type "file" with a local and a remote path or of type
"exec" with a run command (all non-empty); and the verdict is the same for every
order in which the hosts and the tasks are ranged over. -/
theorem Validate_accepts_iff (c : ClientConfig) :
    (c.Validate = none ↔
      c.Hosts ≠ [] ∧ c.Tasks ≠ [] ∧
      (∀ h ∈ c.Hosts, h.2.Host ≠ "" ∧ h.2.User ≠ "" ∧ (h.2.Key ≠ "" ∨ h.2.Password ≠ "")) ∧
      ∀ t ∈ c.Tasks, t.2 ≠ [] ∧
        ∀ s ∈ t.2, (s.Type_ = "file" ∧ s.Local ≠ "" ∧ s.Remote ≠ "") ∨
          (s.Type_ = "exec" ∧ s.Run ≠ "")) ∧
    ∀ c2 : ClientConfig, c2.Hosts.Perm c.Hosts → c2.Tasks.Perm c.Tasks →
      (c2.Validate = none ↔ c.Validate = none) := by
  refine ⟨Validate_none_iff c, ?_⟩
  intro c2 hp1 hp2
  have e1 : c2.Hosts ≠ [] ↔ c.Hosts ≠ [] := by
    constructor
    · intro h1 h2
      rw [h2] at hp1
      exact h1 (List.Perm.eq_nil hp1)
    · intro h1 h2
      rw [h2] at hp1
      exact h1 (List.Perm.eq_nil hp1.symm)
  have e2 : c2.Tasks ≠ [] ↔ c.Tasks ≠ [] := by
    constructor
    · intro h1 h2
      rw [h2] at hp2
      exact h1 (List.Perm.eq_nil hp2)
    · intro h1 h2
      rw [h2] at hp2
      exact h1 (List.Perm.eq_nil hp2.symm)
  rw [Validate_none_iff, Validate_none_iff, e1, e2]
  refine and_congr Iff.rfl (and_congr Iff.rfl (and_congr ?_ ?_))
  · exact ⟨fun h x hx => h x (hp1.mem_iff.mpr hx), fun h x hx => h x (hp1.mem_iff.mp hx)⟩
  · exact ⟨fun h x hx => h x (hp2.mem_iff.mpr hx), fun h x hx => h x (hp2.mem_iff.mp hx)⟩

/-- C21 on the configurations of the tests: the valid one is accepted, in both
orders of two hosts, and the one with a step of unknown type is not. -/
theorem Validate_accepts_iff_witness :
    ClientConfig.Validate
        { Hosts := [("prod", { Host := "h", User := "u", Key := "k" }),
                    ("dev", { Host := "d", User := "u", Password := "p" })],
          Tasks := [("test", [{ Type_ := "exec", Run := "echo hi" }])] } = none ∧
    ClientConfig.Validate
        { Hosts := [("dev", { Host := "d", User := "u", Password := "p" }),
                    ("prod", { Host := "h", User := "u", Key := "k" })],
          Tasks := [("test", [{ Type_ := "exec", Run := "echo hi" }])] } = none ∧
    ClientConfig.Validate
        { Hosts := [("prod", { Host := "h", User := "u", Key := "k" })],
          Tasks := [("bad", [{ Type_ := "unknown" }])] } ≠ none :=
  ⟨(Validate_accepts_iff
      { Hosts := [("prod", { Host := "h", User := "u", Key := "k" }),
                  ("dev", { Host := "d", User := "u", Password := "p" })],
        Tasks := [("test", [{ Type_ := "exec", Run := "echo hi" }])] }).1.mpr (by decide),
    ((Validate_accepts_iff
      { Hosts := [("prod", { Host := "h", User := "u", Key := "k" }),
                  ("dev", { Host := "d", User := "u", Password := "p" })],
        Tasks := [("test", [{ Type_ := "exec", Run := "echo hi" }])] }).2
      { Hosts := [("dev", { Host := "d", User := "u", Password := "p" }),
                  ("prod", { Host := "h", User := "u", Key := "k" })],
        Tasks := [("test", [{ Type_ := "exec", Run := "echo hi" }])] }
      (List.Perm.swap _ _ _) (List.Perm.refl _)).mpr (by decide),
    by decide⟩

theorem cutFirst_at_some (l u h : List Char) (hc : cutFirst ['@'] l = some (u, h)) :
    l = u ++ '@' :: h ∧ '@' ∉ u := by
  induction l generalizing u with
  | nil => simp [cutFirst, List.isPrefixOf] at hc
  | cons c rest ih =>
    by_cases hat : c = '@'
    · subst hat
      simp only [cutFirst, List.isPrefixOf, beq_self_eq_true, Bool.and_self, if_true,
        List.length_singleton, List.drop_succ_cons, List.drop_zero, Option.some.injEq,
        Prod.mk.injEq] at hc
      obtain ⟨rfl, rfl⟩ := hc
      exact ⟨rfl, by simp⟩
    · have hb : ('@' == c) = false := by
        simp only [beq_eq_false_iff_ne, ne_eq]
        exact fun e => hat e.symm
      simp only [cutFirst, List.isPrefixOf, hb, Bool.false_and, Bool.false_eq_true,
        if_false] at hc
      cases hr : cutFirst ['@'] rest with
      | none => simp [hr] at hc
      | some p =>
        obtain ⟨b, a⟩ := p
        simp only [hr, Option.some.injEq, Prod.mk.injEq] at hc
        obtain ⟨rfl, rfl⟩ := hc
        obtain ⟨h1, h2⟩ := ih b hr
        refine ⟨by rw [h1]; rfl, ?_⟩
        simp only [List.mem_cons, not_or]
        exact ⟨fun e => hat e.symm, h2⟩

theorem cutFirst_at_none (l : List Char) (hc : cutFirst ['@'] l = none) : '@' ∉ l := by
  induction l with
  | nil => simp
  | cons c rest ih =>
    by_cases hat : c = '@'
    · subst hat
      simp [cutFirst, List.isPrefixOf] at hc
    · have hb : ('@' == c) = false := by
        simp only [beq_eq_false_iff_ne, ne_eq]
        exact fun e => hat e.symm
      simp only [cutFirst, List.isPrefixOf, hb, Bool.false_and, Bool.false_eq_true,
        if_false] at hc
      cases hr : cutFirst ['@'] rest with
      | none =>
        simp only [List.mem_cons, not_or]
        exact ⟨fun e => hat e.symm, ih hr⟩
      | some p => simp [hr] at hc

theorem cutFirst_at_of_split (u h : List Char) (hu : '@' ∉ u) :
    cutFirst ['@'] (u ++ '@' :: h) = some (u, h) := by
  induction u with
  | nil => simp [cutFirst, List.isPrefixOf]
  | cons c rest ih =>
    have hat : c ≠ '@' := fun e => hu (by simp [e])
    have hb : ('@' == c) = false := by
      simp only [beq_eq_false_iff_ne, ne_eq]
      exact fun e => hat e.symm
    have hr := ih (fun e => hu (by simp [e]))
    rw [List.cons_append, cutFirst]
    simp only [List.isPrefixOf, hb, Bool.false_and, Bool.false_eq_true, if_false, hr]

theorem String_mk_eq_empty (l : List Char) : String.mk l = "" ↔ l = [] := by
  constructor
  · intro h
    exact congrArg String.data h
  · intro h
    rw [h]

theorem parseServerString_eq (s : String) :
    parseServerString s =
      match cutFirst ['@'] s.data with
      | some (u, h) =>
        if u = [] ∨ h = [] then ("", "", some ("expected user@host format, got: " ++ s))
        else (String.mk u, String.mk h, none)
      | none => ("", "", some ("expected user@host format, got: " ++ s)) := by
  unfold parseServerString stringsSplitN2
  have hd : ("@" : String).data = ['@'] := rfl
  rw [hd]
  cases cutFirst ['@'] s.data with
  | none => rfl
  | some p =>
    obtain ⟨u, h⟩ := p
    simp only [String_mk_eq_empty]

/-- C22: `parseServerString(s)` succeeds exactly when `s` is user + "@" + host
with a non-empty user that holds no "@" (the part before the first "@") and a
non-empty host; on success it returns that user and that host, so that user + "@" +
host is `s`; on failure it returns two empty strings with the error. -/
theorem parseServerString_spec (s : String) :
    ((parseServerString s).2.2 = none ↔
      ∃ u h : String, s = u ++ "@" ++ h ∧ '@' ∉ u.data ∧ u ≠ "" ∧ h ≠ "") ∧
    ((parseServerString s).2.2 = none →
      (parseServerString s).1 ++ "@" ++ (parseServerString s).2.1 = s ∧
      '@' ∉ (parseServerString s).1.data ∧
      (parseServerString s).1 ≠ "" ∧ (parseServerString s).2.1 ≠ "") ∧
    ((parseServerString s).2.2 ≠ none →
      (parseServerString s).1 = "" ∧ (parseServerString s).2.1 = "") := by
  rw [parseServerString_eq]
  cases hc : cutFirst ['@'] s.data with
  | none =>
    have hno := cutFirst_at_none _ hc
    refine ⟨?_, by simp, by simp⟩
    simp only [false_iff, not_exists, not_and]
    constructor
    · intro h
      exact absurd h (by simp)
    · rintro ⟨u, h, rfl, -⟩
      exact absurd (by simp [String.data_append]) hno
  | some p =>
    obtain ⟨u, h⟩ := p
    obtain ⟨hsplit, hu⟩ := cutFirst_at_some _ _ _ hc
    have hs : s = String.mk u ++ "@" ++ String.mk h := by
      apply String.ext
      rw [hsplit]
      simp [String.data_append]
    by_cases he : u = [] ∨ h = []
    · simp only [he, if_true]
      refine ⟨?_, by simp, by simp⟩
      constructor
      · intro hx
        exact absurd hx (by simp)
      · rintro ⟨u2, h2, hs2, hu2, hne1, hne2⟩
        have hc2 := cutFirst_at_of_split u2.data h2.data hu2
        have hd : s.data = u2.data ++ '@' :: h2.data := by
          rw [hs2]
          simp [String.data_append]
        rw [← hd, hc] at hc2
        simp only [Option.some.injEq, Prod.mk.injEq] at hc2
        rcases he with he | he
        · exact absurd (String.ext (by rw [← hc2.1, he])) hne1
        · exact absurd (String.ext (by rw [← hc2.2, he])) hne2
    · simp only [he, if_false]
      simp only [not_or] at he
      have hne1 : String.mk u ≠ "" := fun e => he.1 ((String_mk_eq_empty u).mp e)
      have hne2 : String.mk h ≠ "" := fun e => he.2 ((String_mk_eq_empty h).mp e)
      refine ⟨?_, fun _ => ⟨hs.symm, hu, hne1, hne2⟩, fun hx => absurd rfl hx⟩
      simp only [true_iff]
      exact ⟨String.mk u, String.mk h, hs, hu, hne1, hne2⟩

/-- C22 on the inputs of the tests. -/
theorem parseServerString_spec_witness :
    parseServerString "admin@10.0.0.1" = ("admin", "10.0.0.1", none) ∧
    ("admin" ++ "@" ++ "10.0.0.1" = "admin@10.0.0.1" ∧ '@' ∉ "admin".data ∧
      ("admin" : String) ≠ "" ∧ ("10.0.0.1" : String) ≠ "") ∧
    ((parseServerString "bad-format").1 = "" ∧ (parseServerString "bad-format").2.1 = "") ∧
    ((parseServerString "@nouser").1 = "" ∧ (parseServerString "@nouser").2.1 = "") ∧
    ((parseServerString "nohost@").1 = "" ∧ (parseServerString "nohost@").2.1 = "") :=
  ⟨by decide,
    (parseServerString_spec "admin@10.0.0.1").2.1 (by decide),
    (parseServerString_spec "bad-format").2.2 (by decide),
    (parseServerString_spec "@nouser").2.2 (by decide),
    (parseServerString_spec "nohost@").2.2 (by decide)⟩

/-! ## `ResolveHost` and home expansion -/

theorem cleanBacktrack_rooted (out : List Char) (h : ∃ pre, out = pre ++ ['/'])
    (hl : 1 < out.length) : ∃ pre, cleanBacktrack 1 out = pre ++ ['/'] := by
  induction out with
  | nil => simp at hl
  | cons c rest ih =>
    have hrest : ∃ pre, rest = pre ++ ['/'] := by
      obtain ⟨pre, hp⟩ := h
      cases pre with
      | nil =>
        simp only [List.nil_append, List.cons.injEq] at hp
        rw [hp.2] at hl
        simp at hl
      | cons a pre =>
        simp only [List.cons_append, List.cons.injEq] at hp
        exact ⟨pre, hp.2⟩
    rw [cleanBacktrack]
    split
    · rename_i hc
      exact ih hrest hc.1
    · exact hrest

theorem cleanLoop_rooted (fuel : Nat) :
    ∀ (p out : List Char), (∃ pre, out = pre ++ ['/']) →
      ∃ pre, cleanLoop true fuel p out 1 = pre ++ ['/'] := by
  induction fuel with
  | zero => intro p out h; rw [cleanLoop]; exact h
  | succ n ih =>
    intro p out h
    cases p with
    | nil => rw [cleanLoop]; exact h
    | cons c rest =>
      rw [cleanLoop]
      split
      · exact ih _ _ h
      · split
        · exact ih _ _ h
        · split
          · split
            · rename_i hl
              exact ih _ _ (cleanBacktrack_rooted out h hl)
            · split
              · rename_i hf
                exact absurd hf (by decide)
              · exact ih _ _ h
          · apply ih
            obtain ⟨pre, hp⟩ := h
            split
            · exact ⟨((c :: rest).takeWhile (fun x => x ≠ '/')).reverse ++ '/' :: pre, by
                rw [hp]; simp⟩
            · exact ⟨((c :: rest).takeWhile (fun x => x ≠ '/')).reverse ++ pre, by
                rw [hp]; simp⟩

theorem filepathClean_rooted (path : String) (h : path.data.head? = some '/') :
    (filepathClean path).data.head? = some '/' := by
  have hne : path ≠ "" := by
    intro e
    rw [e] at h
    simp at h
  obtain ⟨pre, hp⟩ := cleanLoop_rooted path.data.length path.data.tail ['/'] ⟨[], rfl⟩
  unfold filepathClean
  simp only [hne, if_false, h, decide_True, if_true, hp]
  simp

theorem filepathJoin_rooted (home b : String) (h : home.data.head? = some '/') :
    (filepathJoin home b).data.head? = some '/' := by
  have hne : home ≠ "" := by
    intro e
    rw [e] at h
    simp at h
  unfold filepathJoin
  rw [if_pos hne]
  apply filepathClean_rooted
  cases hd : home.data with
  | nil => rw [hd] at h; simp at h
  | cons c r =>
    rw [hd] at h
    simp only [String.data_append, hd, List.cons_append, List.head?_cons] at h ⊢
    exact h

theorem homePath_facts (rest : String) :
    stringsHasPrefix ("~/" ++ rest) "~/" = true ∧
      String.mk (("~/" ++ rest).data.drop 2) = rest ∧
      ("~/" ++ rest).data.head? = some '~' := by
  have hd : ("~/" ++ rest).data = '~' :: '/' :: rest.data := rfl
  refine ⟨?_, ?_, ?_⟩
  · unfold stringsHasPrefix
    rw [hd]
    simp
  · rw [hd]
    rfl
  · rw [hd]
    rfl

theorem lookup_none_iff_not_key {β : Type} (l : List (String × β)) (k : String) :
    l.lookup k = none ↔ ∀ p ∈ l, p.1 ≠ k := by
  rw [List.lookup_eq_none_iff]
  constructor
  · intro h p hp e
    have := h p hp
    rw [e] at this
    simp at this
  · intro h p hp
    have := h p hp
    simp only [bne_iff_ne, ne_eq]
    exact fun e => this e.symm

/-- C23, the claim as stated fails: when the home directory cannot be determined,
`ResolveHost` succeeds and returns the key "~/.ssh/id_rsa" as it is stored, so the
returned key does not differ from the raw "~/" path. -/
theorem ResolveHost_raw_key :
    (ResolveHost noHome.collab homeKeyConfig "prod" World.start).1.2 = none ∧
      homeKeyConfig.Hosts.lookup "prod" =
        some { Host := "10.0.0.1", User := "admin", Key := "~/.ssh/id_rsa" } ∧
      (ResolveHost noHome.collab homeKeyConfig "prod" World.start).1.1.Key = "~/.ssh/id_rsa" := by
  decide

/-- C23, amended: `ResolveHost` fails exactly when the alias is not a key of `Hosts`.
On success the returned host has the `Host`, `User` and `Password` of the stored
entry and the home-expansion of the stored key as its `Key`.  The home-expansion
leaves a key that does not start with "~/" unchanged, and makes no call; for a key
"~/rest" it is the home directory joined with `rest` when the home directory is
found, which differs from the raw path when the home directory is absolute, and it
is the raw path itself when the home directory cannot be determined.  The
configuration behind the receiver is the same after the call. -/
theorem ResolveHost_result {σ : Type} (env : Collab σ) (cfg : ClientConfig) (a : String)
    (w : World σ) :
    ((ResolveHost env cfg a w).1.2 ≠ none ↔ cfg.Hosts.lookup a = none) ∧
    (cfg.Hosts.lookup a = none ↔ ∀ h ∈ cfg.Hosts, h.1 ≠ a) ∧
    (∀ stored, cfg.Hosts.lookup a = some stored →
      (ResolveHost env cfg a w).1.2 = none ∧
      (ResolveHost env cfg a w).1.1.Host = stored.Host ∧
      (ResolveHost env cfg a w).1.1.User = stored.User ∧
      (ResolveHost env cfg a w).1.1.Password = stored.Password ∧
      (ResolveHost env cfg a w).1.1.Key = (ExpandHome env stored.Key w).1) ∧
    (∀ key, stringsHasPrefix key "~/" = false → ExpandHome env key w = (key, w)) ∧
    (∀ rest home, (UserHomeDir env w).1 = .ok home →
      (ExpandHome env ("~/" ++ rest) w).1 = filepathJoin home rest ∧
      (home.data.head? = some '/' → (ExpandHome env ("~/" ++ rest) w).1 ≠ "~/" ++ rest)) ∧
    (∀ rest err, (UserHomeDir env w).1 = .error err →
      (ExpandHome env ("~/" ++ rest) w).1 = "~/" ++ rest) ∧
    (ResolveHostReceiver env cfg a w).1.1 = (ResolveHost env cfg a w).1 ∧
    (ResolveHostReceiver env cfg a w).2 = (ResolveHost env cfg a w).2 ∧
    (ResolveHostReceiver env cfg a w).1.2 = cfg := by
  refine ⟨?_, lookup_none_iff_not_key _ _, ?_, ?_, ?_, ?_, ?_, ?_, ?_⟩
  · unfold ResolveHost
    cases cfg.Hosts.lookup a <;> simp
  · intro stored hs
    unfold ResolveHost
    rw [hs]
    exact ⟨rfl, rfl, rfl, rfl, rfl⟩
  · intro key hk
    unfold ExpandHome
    rw [hk]
    rfl
  · intro rest home hh
    have hf := homePath_facts rest
    have he : (ExpandHome env ("~/" ++ rest) w).1 = filepathJoin home rest := by
      unfold ExpandHome
      rw [if_pos hf.1]
      rcases hu : UserHomeDir env w with ⟨_ | h2, w1⟩
      · rw [hu] at hh
        cases hh
      · rw [hu] at hh
        cases hh
        simp only [hf.2.1]
    refine ⟨he, fun habs e => ?_⟩
    have h1 := filepathJoin_rooted home rest habs
    rw [← he, e, hf.2.2] at h1
    exact absurd h1 (by decide)
  · intro rest err hh
    have hf := homePath_facts rest
    unfold ExpandHome
    rw [if_pos hf.1]
    rcases hu : UserHomeDir env w with ⟨_ | h2, w1⟩
    · rfl
    · rw [hu] at hh
      cases hh
  · unfold ResolveHostReceiver ResolveHost
    cases cfg.Hosts.lookup a <;> rfl
  · unfold ResolveHostReceiver ResolveHost
    cases cfg.Hosts.lookup a <;> rfl
  · unfold ResolveHostReceiver
    cases cfg.Hosts.lookup a <;> rfl

theorem ResolveHost_result_witness :
    (ResolveHost ({} : Scenario).collab homeKeyConfig "staging" World.start).1.2 ≠ none ∧
    (ResolveHost ({} : Scenario).collab homeKeyConfig "prod" World.start).1.1 =
      { Host := "10.0.0.1", User := "admin", Key := "/home/op/.ssh/id_rsa" } ∧
    (ResolveHost ({} : Scenario).collab homeKeyConfig "dev" World.start).1.1 =
      { Host := "10.0.0.2", User := "dev", Password := "secret" } ∧
    (ExpandHome ({} : Scenario).collab "~/.ssh/id_rsa" World.start).1 ≠ "~/.ssh/id_rsa" :=
  ⟨(ResolveHost_result ({} : Scenario).collab homeKeyConfig "staging" World.start).1.mpr
      (by decide),
    by decide, by decide,
    ((ResolveHost_result ({} : Scenario).collab homeKeyConfig "prod" World.start).2.2.2.2.1
      ".ssh/id_rsa" "/home/op" rfl).2 (by decide)⟩

/-! ## Prefix matching of backups -/

theorem CreateBackup_path {σ : Type} (env : Collab σ) (transfer : SFTPTransfer)
    (remotePath host : String) (w : World σ) (hhost : '/' ∉ host.data)
    (hne : (CreateBackup env transfer remotePath host w).1.1 ≠ "") :
    ∃ now, (CreateBackup env transfer remotePath host w).1 =
      ("backups/" ++ backupName host remotePath now, none) := by
  unfold CreateBackup at hne ⊢
  rw [stringsReplaceAll_slash] at hne ⊢
  rcases hfe : FileExists env transfer remotePath w with ⟨_ | _, w1⟩
  · rw [hfe] at hne
    exact absurd rfl hne
  · rw [hfe] at hne
    simp only at hne ⊢
    rcases hnow : Now env w1 with ⟨now, w2⟩
    rw [hnow] at hne
    simp only at hne ⊢
    obtain ⟨hn1, hn2, hn3, hn4⟩ := backupName_facts host remotePath now hhost
    have hjoin := filepathJoin_backupDir _ hn1 hn2 hn3 hn4
    have hname : host ++ sanitizeSpec remotePath ++ "_" ++ now.Format =
        backupName host remotePath now := rfl
    rw [hname, hjoin] at hne ⊢
    rcases hm : MkdirAll env backupDir w2 with ⟨_ | e3, w3⟩
    · rw [hm] at hne
      simp only at hne ⊢
      rcases hd : Download env transfer remotePath
        ("backups/" ++ backupName host remotePath now) w3 with ⟨_ | e4, w4⟩
      · exact ⟨now, rfl⟩
      · rw [hd] at hne
        exact absurd rfl hne
    · rw [hm] at hne
      exact absurd rfl hne

theorem sortSlice_singleton (sortSlice : List BackupInfo → List BackupInfo)
    (hsort : SortSliceContract sortSlice) (b : BackupInfo) : sortSlice [b] = [b] :=
  List.perm_singleton.mp (hsort [b]).1

/-- C24: prefix false-match.  Take a host alias without "/", a remote path `p` and a
second remote path `q` made of `p` followed by a non-empty suffix (for instance
"/etc/app.conf" and "/etc/app.conf.bak").  The two paths are distinct, and when the
backup directory holds only a backup that `CreateBackup` made for (host, q),
`findLatestBackup(host, p)` succeeds and returns that backup of `q`. -/
theorem findLatestBackup_prefix_false_match {σ : Type} (env : Collab σ)
    (sortSlice : List BackupInfo → List BackupInfo) (hsort : SortSliceContract sortSlice)
    (transfer : SFTPTransfer) (host p suffix : String) (w w2 : World σ) (mtime : Time)
    (hhost : '/' ∉ host.data) (hsuffix : suffix ≠ "")
    (hcreated : (CreateBackup env transfer (p ++ suffix) host w).1.1 ≠ "")
    (hdir : (ReadDir env backupDir w2).1 =
      .entries [{ Name := filepathBase (CreateBackup env transfer (p ++ suffix) host w).1.1,
                  Info := .ok mtime }]) :
    p ≠ p ++ suffix ∧
      (CreateBackup env transfer (p ++ suffix) host w).1.2 = none ∧
      (findLatestBackup env sortSlice host p w2).1 =
        ((CreateBackup env transfer (p ++ suffix) host w).1.1, none) := by
  refine ⟨?_, ?_⟩
  · intro e
    have hl := congrArg (fun s => s.data.length) e
    simp only [String.data_append, List.length_append] at hl
    have : suffix.data = [] := List.length_eq_zero.mp (by omega)
    exact hsuffix (String.ext this)
  obtain ⟨now, hc⟩ := CreateBackup_path env transfer (p ++ suffix) host w hhost hcreated
  obtain ⟨hn1, hn2, hn3, hn4⟩ := backupName_facts host (p ++ suffix) now hhost
  have hjoin := filepathJoin_backupDir _ hn1 hn2 hn3 hn4
  have hbase := filepathBase_backups _ hn1 hn2
  rw [hc] at hdir ⊢
  simp only at hdir ⊢
  rw [hbase] at hdir
  refine ⟨trivial, ?_⟩
  have hlist : (ListBackups env sortSlice w2).1 =
      ([{ Path := "backups/" ++ backupName host (p ++ suffix) now, Timestamp := mtime }],
        none) := by
    unfold ListBackups
    rcases hr : ReadDir env backupDir w2 with ⟨r, w3⟩
    rw [hr] at hdir
    simp only at hdir
    subst hdir
    simp only [collectBackups, Bool.false_eq_true, if_false, hjoin]
    rw [sortSlice_singleton sortSlice hsort]
  have hpre : stringsHasPrefix (backupName host (p ++ suffix) now)
      (host ++ sanitizeSpec p) = true := by
    unfold stringsHasPrefix backupName sanitizeSpec
    simp only [String.data_append, List.map_append, List.append_assoc]
    rw [List.isPrefixOf_iff_prefix]
    exact ⟨_, List.append_assoc _ _ _⟩
  rw [findLatestBackup_eq, hlist]
  simp only [firstWithPrefix, hbase, hpre, if_true]

/-- C24 for the alias "web", p = /etc/app.conf and q = /etc/app.conf.bak. -/
theorem findLatestBackup_prefix_false_match_witness :
    ("/etc/app.conf" : String) ≠ "/etc/app.conf.bak" ∧
      (CreateBackup bakBackupScenario.collab { client := 1 } "/etc/app.conf.bak" "web"
        World.start).1 = ("backups/web_etc_app.conf.bak_20250109-123005", none) ∧
      (findLatestBackup bakBackupScenario.collab (insertionSortLessFunc backupLess) "web"
        "/etc/app.conf" World.start).1 = ("backups/web_etc_app.conf.bak_20250109-123005", none) ∧
      (findLatestBackup bakBackupScenario.collab (insertionSortLessFunc backupLess) "web"
        "/etc/app.conf" World.start).1 =
        ((CreateBackup bakBackupScenario.collab { client := 1 } ("/etc/app.conf" ++ ".bak") "web"
          World.start).1.1, none) :=
  ⟨by decide, by decide, by decide,
    (findLatestBackup_prefix_false_match bakBackupScenario.collab
      (insertionSortLessFunc backupLess) insertionSort_contract { client := 1 } "web"
      "/etc/app.conf" ".bak" World.start World.start { nanos := 1736425806000000000 }
      (by decide) (by decide) (by decide) rfl).2.2⟩

/-! ## The transfer of a task run -/

theorem needsSFTP_iff (steps : List TaskStep) :
    needsSFTP steps = true ↔ ∃ s ∈ steps, s.Type_ = "file" := by
  unfold needsSFTP
  rw [List.any_eq_true]
  simp

theorem CreateBackup_calls {σ : Type} (env : Collab σ) (t : SFTPTransfer)
    (p host : String) (w : World σ) :
    ∃ evs, (CreateBackup env t p host w).2.log = w.log ++ evs ∧
      ∀ e ∈ evs, e.isOpenTransfer = false ∧
        (e.transferOf = none ∨ e.transferOf = some t) := by
  unfold CreateBackup
  have l1 := FileExists_log env t p w
  rcases hfe : FileExists env t p w with ⟨b, w1⟩
  rw [hfe] at l1
  cases b
  · exact ⟨_, l1, by simp [Event.isOpenTransfer, Event.transferOf]⟩
  · have l2 := Now_log env w1
    rcases hnow : Now env w1 with ⟨now, w2⟩
    rw [hnow] at l2
    have l3 := MkdirAll_log env backupDir w2
    rcases hmk : MkdirAll env backupDir w2 with ⟨_ | err, w3⟩
    · rw [hmk] at l3
      have l4 := Download_log env t p
        (filepathJoin backupDir (host ++ stringsReplaceAll p "/" "_" ++ "_" ++ now.Format)) w3
      rcases hd : Download env t p
        (filepathJoin backupDir (host ++ stringsReplaceAll p "/" "_" ++ "_" ++ now.Format)) w3
        with ⟨_ | err, w4⟩ <;>
      · rw [hd] at l4
        simp only [hnow, hmk, hd] at l1 l2 l3 l4 ⊢
        exact ⟨_, by rw [l4, l3, l2, l1, List.append_assoc, List.append_assoc,
          List.append_assoc], by simp [Event.isOpenTransfer, Event.transferOf]⟩
    · rw [hmk] at l3
      simp only [hnow, hmk] at l1 l2 l3 ⊢
      exact ⟨_, by rw [l3, l2, l1, List.append_assoc, List.append_assoc],
        by simp [Event.isOpenTransfer, Event.transferOf]⟩

theorem executeFileStep_calls {σ : Type} (env : Collab σ) (t : SFTPTransfer)
    (step : TaskStep) (host : String) (w : World σ) :
    ∃ evs, (executeFileStep env t step host w).2.log = w.log ++ evs ∧
      ∀ e ∈ evs, e.isOpenTransfer = false ∧
        (e.transferOf = none ∨ e.transferOf = some t) := by
  obtain ⟨evs1, l1, h1⟩ := CreateBackup_calls env t step.Remote host w
  unfold executeFileStep
  rcases hcb : CreateBackup env t step.Remote host w with ⟨⟨bp, _ | err⟩, w1⟩
  · rw [hcb] at l1
    simp only at l1 ⊢
    obtain ⟨okr, l2⟩ := NormalizeFile_spec env step.Local w1
    rcases hn : NormalizeFile env step.Local w1 with ⟨⟨data, _ | err⟩, w2⟩
    · rw [hn] at l2
      simp only at l2 ⊢
      have l3 := UploadBytes_log env t data step.Remote w2
      have hw : (match UploadBytes env t data step.Remote w2 with
          | (some err, w3) =>
            (({ Step := stepLabel step, Backup := bp, Status := "error",
                Error := "upload failed: " ++ err } : StepResult), w3)
          | (none, w3) => ({ Step := stepLabel step, Backup := bp, Status := "ok" }, w3)).2 =
          (UploadBytes env t data step.Remote w2).2 := by
        rcases UploadBytes env t data step.Remote w2 with ⟨_ | err, w3⟩ <;> rfl
      rw [hw]
      · refine ⟨evs1 ++ [Event.readFile step.Local okr,
          Event.uploadBytes t data step.Remote (UploadBytes env t data step.Remote w2).1.isNone],
          by rw [l3, l2, l1]; simp, ?_⟩
        intro e he
        rcases List.mem_append.mp he with h | h
        · exact h1 e h
        · simp only [List.mem_cons, List.mem_singleton, List.not_mem_nil, or_false] at h
          rcases h with rfl | rfl
          · exact ⟨rfl, Or.inl rfl⟩
          · exact ⟨rfl, Or.inr rfl⟩
    · rw [hn] at l2
      simp only at l2 ⊢
      refine ⟨evs1 ++ [Event.readFile step.Local okr], by rw [l2, l1]; simp, ?_⟩
      intro e he
      rcases List.mem_append.mp he with h | h
      · exact h1 e h
      · simp only [List.mem_singleton] at h
        rw [h]
        exact ⟨rfl, Or.inl rfl⟩
  · rw [hcb] at l1
    exact ⟨evs1, l1, h1⟩

theorem runStep_calls {σ : Type} (env : Collab σ) (client : SSHClient)
    (tr : Option SFTPTransfer) (host : String) (step : TaskStep) (w : World σ) :
    ∃ evs, (runStep env client tr host step w).2.log = w.log ++ evs ∧
      ∀ e ∈ evs, e.isOpenTransfer = false ∧ (e.transferOf = none ∨ e.transferOf = tr) := by
  unfold runStep
  split
  · cases tr with
    | none => exact ⟨[], by simp, by simp⟩
    | some t => exact executeFileStep_calls env t step host w
  · split
    · refine ⟨[Event.execute client step.Run (Execute env client step.Run w).1.2.isNone], ?_, ?_⟩
      · unfold executeExecStep
        have l := Execute_log env client step.Run w
        rcases he : Execute env client step.Run w with ⟨⟨out, _ | err⟩, w1⟩ <;>
          rw [he] at l <;> exact l
      · intro e he
        simp only [List.mem_singleton] at he
        rw [he]
        exact ⟨rfl, Or.inl rfl⟩
    · exact ⟨[], by simp, by simp⟩

theorem runSteps_calls {σ : Type} (env : Collab σ) (client : SSHClient)
    (tr : Option SFTPTransfer) (host : String) (steps : List TaskStep) (w : World σ) :
    ∃ evs, (runSteps env client tr host steps w).2.log = w.log ++ evs ∧
      ∀ e ∈ evs, e.isOpenTransfer = false ∧ (e.transferOf = none ∨ e.transferOf = tr) := by
  induction steps generalizing w with
  | nil => exact ⟨[], by simp [runSteps], by simp⟩
  | cons step rest ih =>
    obtain ⟨evs1, l1, h1⟩ := runStep_calls env client tr host step w
    rw [runSteps]
    rcases hs : runStep env client tr host step w with ⟨_ | r, w1⟩
    · rw [hs] at l1
      exact ⟨evs1, l1, h1⟩
    · rw [hs] at l1
      simp only at l1 ⊢
      split
      · exact ⟨evs1, l1, h1⟩
      · obtain ⟨evs2, l2, h2⟩ := ih w1
        have hw : (match runSteps env client tr host rest w1 with
            | (none, w2) => ((none : Option (List StepResult × Bool)), w2)
            | (some (results, allOK), w2) => (some (r :: results, allOK), w2)).2 =
            (runSteps env client tr host rest w1).2 := by
          rcases runSteps env client tr host rest w1 with ⟨_ | ⟨results, allOK⟩, w2⟩ <;> rfl
        rw [hw]
        refine ⟨evs1 ++ evs2, by rw [l2, l1, List.append_assoc], ?_⟩
        intro e he
        rcases List.mem_append.mp he with h | h
        · exact h1 e h
        · exact h2 e h

/-- C25: in `executeRunOnServer` without dry run, once the host resolves and the
session opens, the function returns a result (the nil transfer is never
dereferenced), and `NewSFTPTransfer` is called if and only if the task has a step of
type "file".  Without such a step no call is made on any transfer.  With such a
step, when the transfer opens, the calls after the opening are made on the opened
transfer only, which is closed before the session; when the transfer does not
open, the session is closed without any step call, and the result has the status
"error" and the single entry "sftp". -/
theorem executeRunOnServer_transfer {σ : Type} (env : Collab σ) (cfg : ClientConfig)
    (hostAlias taskName : String) (steps : List TaskStep) (w w1 w2 : World σ)
    (server : ServerConfig) (client : SSHClient)
    (hres : ResolveHost env cfg hostAlias w = ((server, none), w1))
    (hcl : NewSSHClient env server.Host server.User
      { KeyPath := server.Key, Password := server.Password } w1 = (.ok client, w2)) :
    (∃ result, (executeRunOnServer env cfg hostAlias taskName steps false w).1 = some result) ∧
    ((∃ e ∈ callsSince w2 (executeRunOnServer env cfg hostAlias taskName steps false w).2,
        e.isOpenTransfer = true) ↔ ∃ s ∈ steps, s.Type_ = "file") ∧
    ((∀ s ∈ steps, s.Type_ ≠ "file") →
      ∀ e ∈ callsSince w2 (executeRunOnServer env cfg hostAlias taskName steps false w).2,
        e.transferOf = none) ∧
    (∀ t w3, (∃ s ∈ steps, s.Type_ = "file") → NewSFTPTransfer env client w2 = (.ok t, w3) →
      ∃ evs, callsSince w2 (executeRunOnServer env cfg hostAlias taskName steps false w).2 =
          Event.newSFTPTransfer client true :: evs ++
            [Event.transferClose t, Event.clientClose client] ∧
        ∀ e ∈ evs, e.isOpenTransfer = false ∧
          (e.transferOf = none ∨ e.transferOf = some t)) ∧
    (∀ err w3, (∃ s ∈ steps, s.Type_ = "file") →
      NewSFTPTransfer env client w2 = (.error err, w3) →
      (executeRunOnServer env cfg hostAlias taskName steps false w).1 =
          some { Server := hostAlias, Task := taskName, Status := "error",
                 Steps := [{ Step := "sftp", Status := "error",
                             Error := "SFTP failed: " ++ err }] } ∧
        callsSince w2 (executeRunOnServer env cfg hostAlias taskName steps false w).2 =
          [Event.newSFTPTransfer client false, Event.clientClose client]) := by
  have hfinal : executeRunOnServer env cfg hostAlias taskName steps false w =
      ((runOnClient env { Server := hostAlias, Task := taskName } client server.Host steps w2).1,
        ClientClose env client
          (runOnClient env { Server := hostAlias, Task := taskName } client server.Host
            steps w2).2) := by
    simp [executeRunOnServer, hres, hcl]
  rw [hfinal]
  simp only
  by_cases hn : needsSFTP steps = true
  · have hfile := (needsSFTP_iff steps).mp hn
    have lopen := NewSFTPTransfer_log env client w2
    rcases hsf : NewSFTPTransfer env client w2 with ⟨err | t, w3⟩
    · rw [hsf] at lopen
      simp only [isOk] at lopen
      have hrun : runOnClient env { Server := hostAlias, Task := taskName } client server.Host
          steps w2 =
          (some { Server := hostAlias, Task := taskName, Status := "error",
                  Steps := [{ Step := "sftp", Status := "error",
                              Error := "SFTP failed: " ++ err }] }, w3) := by
        simp [runOnClient, hn, hsf]
      have hcalls : callsSince w2 (ClientClose env client w3) =
          [Event.newSFTPTransfer client false, Event.clientClose client] :=
        callsSince_of_log _ _ _ (by simp [ClientClose, lopen])
      rw [hrun]
      simp only [hcalls]
      refine ⟨⟨_, rfl⟩, ⟨fun _ => hfile,
        fun _ => ⟨Event.newSFTPTransfer client false, by simp, rfl⟩⟩, ?_, ?_, ?_⟩
      · intro hno
        obtain ⟨s, hs, hf⟩ := hfile
        exact absurd hf (hno s hs)
      · intro t w4 _ h
        cases h
      · intro err2 w4 _ h
        simp only [Prod.mk.injEq, Except.error.injEq] at h
        rw [← h.1]
        exact ⟨rfl, trivial⟩
    · rw [hsf] at lopen
      simp only [isOk] at lopen
      obtain ⟨rs, ok, w4, hrs, -, -⟩ := runSteps_status env client (some t) server.Host steps w3
        (fun h => absurd h (by simp))
      obtain ⟨evs, l, hev⟩ := runSteps_calls env client (some t) server.Host steps w3
      rw [hrs] at l
      simp only at l
      have hrun : runOnClient env { Server := hostAlias, Task := taskName } client server.Host
          steps w2 =
          (some { Server := hostAlias, Task := taskName, Steps := rs,
                  Status := if ok = true then "ok" else "error" },
            TransferClose env t w4) := by
        simp [runOnClient, hn, hsf, hrs]
      have hcalls : callsSince w2 (ClientClose env client (TransferClose env t w4)) =
          Event.newSFTPTransfer client true :: evs ++
            [Event.transferClose t, Event.clientClose client] :=
        callsSince_of_log _ _ _ (by simp [ClientClose, TransferClose, l, lopen])
      rw [hrun]
      simp only [hcalls]
      refine ⟨⟨_, rfl⟩, ⟨fun _ => hfile,
        fun _ => ⟨Event.newSFTPTransfer client true, by simp, rfl⟩⟩, ?_, ?_, ?_⟩
      · intro hno
        obtain ⟨s, hs, hf⟩ := hfile
        exact absurd hf (hno s hs)
      · intro t2 w5 _ h
        simp only [Prod.mk.injEq, Except.ok.injEq] at h
        rw [← h.1]
        exact ⟨evs, rfl, hev⟩
      · intro err2 w5 _ h
        cases h
  · have hn2 : needsSFTP steps = false := by simpa using hn
    have hnofile := needsSFTP_false steps hn2
    obtain ⟨rs, ok, w4, hrs, -, -⟩ := runSteps_status env client none server.Host steps w2
      (fun _ => hnofile)
    obtain ⟨evs, l, hev⟩ := runSteps_calls env client none server.Host steps w2
    rw [hrs] at l
    simp only at l
    have hrun : runOnClient env { Server := hostAlias, Task := taskName } client server.Host
        steps w2 =
        (some { Server := hostAlias, Task := taskName, Steps := rs,
                Status := if ok = true then "ok" else "error" }, w4) := by
      simp [runOnClient, hn2, hrs]
    have hcalls : callsSince w2 (ClientClose env client w4) =
        evs ++ [Event.clientClose client] :=
      callsSince_of_log _ _ _ (by simp [ClientClose, l])
    have hnone : ¬ ∃ s ∈ steps, s.Type_ = "file" := fun ⟨s, hs, hf⟩ => hnofile s hs hf
    rw [hrun]
    simp only [hcalls]
    refine ⟨⟨_, rfl⟩, ⟨?_, fun h => absurd h hnone⟩, ?_, fun _ _ h => absurd h hnone,
      fun _ _ h => absurd h hnone⟩
    · rintro ⟨e, he, hopen⟩
      rcases List.mem_append.mp he with h | h
      · rw [(hev e h).1] at hopen
        exact absurd hopen (by decide)
      · simp only [List.mem_singleton] at h
        rw [h] at hopen
        exact Bool.noConfusion hopen
    · intro _ e he
      rcases List.mem_append.mp he with h | h
      · rcases (hev e h).2 with h2 | h2 <;> exact h2
      · simp only [List.mem_singleton] at h
        rw [h]
        rfl

/-- C25 for the task "publish", which has a file step.  On a host that refuses the
transfer the result is the single entry "sftp" with the status "error", and the
only calls after the session opened are the refused opening and the closing of the
session.  On a host that grants it, the calls between the opening and the two
closings are made on the granted transfer only. -/
theorem executeRunOnServer_transfer_witness :
    ((executeRunOnServer sftpDown.collab publishConfig "web" "publish"
        [{ Type_ := "file", Local := "app.conf", Remote := "/etc/app.conf" },
         { Type_ := "exec", Run := "systemctl restart app" }] false World.start).1 =
      some { Server := "web", Task := "publish", Status := "error",
             Steps := [{ Step := "sftp", Status := "error",
                         Error := "SFTP failed: " ++
                           "creating SFTP client: subsystem request failed" }] } ∧
    callsSince
        { ext := (), log := [Event.newSSHClient "10.0.0.1" "deploy"
            { KeyPath := "/keys/id_rsa", Password := "" } true] }
        (executeRunOnServer sftpDown.collab publishConfig "web" "publish"
          [{ Type_ := "file", Local := "app.conf", Remote := "/etc/app.conf" },
           { Type_ := "exec", Run := "systemctl restart app" }] false World.start).2 =
      [Event.newSFTPTransfer { Client := 1, Host := "10.0.0.1", User := "deploy" } false,
        Event.clientClose { Client := 1, Host := "10.0.0.1", User := "deploy" }]) ∧
    ∃ evs, callsSince
        { ext := (), log := [Event.newSSHClient "10.0.0.1" "deploy"
            { KeyPath := "/keys/id_rsa", Password := "" } true] }
        (executeRunOnServer fileExistsScenario.collab publishConfig "web" "publish"
          [{ Type_ := "file", Local := "app.conf", Remote := "/etc/app.conf" },
           { Type_ := "exec", Run := "systemctl restart app" }] false World.start).2 =
        Event.newSFTPTransfer { Client := 1, Host := "10.0.0.1", User := "deploy" } true ::
          evs ++ [Event.transferClose { client := 1 },
            Event.clientClose { Client := 1, Host := "10.0.0.1", User := "deploy" }] ∧
      ∀ e ∈ evs, e.isOpenTransfer = false ∧
        (e.transferOf = none ∨ e.transferOf = some { client := 1 }) :=
  ⟨(executeRunOnServer_transfer sftpDown.collab publishConfig "web" "publish"
      [{ Type_ := "file", Local := "app.conf", Remote := "/etc/app.conf" },
       { Type_ := "exec", Run := "systemctl restart app" }] World.start World.start _
      { Host := "10.0.0.1", User := "deploy", Key := "/keys/id_rsa" }
      { Client := 1, Host := "10.0.0.1", User := "deploy" } rfl rfl).2.2.2.2
      "creating SFTP client: subsystem request failed" _ (by decide) rfl,
    (executeRunOnServer_transfer fileExistsScenario.collab publishConfig "web" "publish"
      [{ Type_ := "file", Local := "app.conf", Remote := "/etc/app.conf" },
       { Type_ := "exec", Run := "systemctl restart app" }] World.start World.start _
      { Host := "10.0.0.1", User := "deploy", Key := "/keys/id_rsa" }
      { Client := 1, Host := "10.0.0.1", User := "deploy" } rfl rfl).2.2.2.1
      { client := 1 } _ (by decide) rfl⟩

end OneVM
